import Mathlib

/-!
# Order lookup page (`src/web/script.js`)

A shallow embedding of the browser script: the DOM regions it touches become a
record of flags and texts, `fetch` becomes a list of issued requests, and each
promise callback becomes a function on that record.  Values received from the
service are JSON values; what the language runtime decides (number rendering,
date rendering, the wording of built-in error messages) is a `Platform`
parameter.
-/

namespace OrderLookup

/-! ## Strings -/

/-- A JavaScript string: a sequence of UTF-16 code units. -/
abbrev JSString := List Nat

/-- The code units of a literal of the script (all literals are ASCII). -/
def u (s : String) : JSString := s.toList.map Char.toNat

/-- White space and line terminators, the code units `String.prototype.trim` strips. -/
def isWhiteSpace (c : Nat) : Bool :=
  c == 0x09 || c == 0x0A || c == 0x0B || c == 0x0C || c == 0x0D || c == 0x20 ||
  c == 0xA0 || c == 0x1680 || (0x2000 ≤ c && c ≤ 0x200A) || c == 0x2028 ||
  c == 0x2029 || c == 0x202F || c == 0x205F || c == 0x3000 || c == 0xFEFF

/-- The method `String.prototype.trim`. -/
def trim (s : JSString) : JSString :=
  (s.dropWhile isWhiteSpace).rdropWhile isWhiteSpace

/-- Decimal rendering of a non-negative integer Number (below 10^21, which
covers HTTP statuses and array lengths). -/
def decimal (n : Nat) : JSString := (Nat.toDigits 10 n).map Char.toNat

/-- The class `\d` of a regular expression without the unicode flag. -/
def isDigit (c : Nat) : Bool := 48 ≤ c && c ≤ 57

/-! ## The api base (line 10) -/

/-- The call `s.replace(/:\d+/, ':8081')`: the leftmost colon that is followed by
a digit is replaced, together with the longest run of digits after it. -/
def replacePort : JSString → JSString
  | [] => []
  | c :: rest =>
    if c == 58 && (rest.head?.map isDigit == some true) then
      u ":8081" ++ rest.dropWhile isDigit
    else c :: replacePort rest

/-- The constant `apiBaseUrl`, computed from `window.location.origin`. -/
def apiBaseUrl (origin : JSString) : JSString := replacePort origin

/-- An origin as the browser serialises it: `scheme://host` and `:port` when the
port is not the default one of the scheme. -/
def serializeOrigin (scheme host : JSString) (port : Option Nat) : JSString :=
  scheme ++ u "://" ++ host ++
    (match port with
     | none => []
     | some p => u ":" ++ decimal p)

/-! ## Values received from the service -/

/-- A value produced by `JSON.parse`; `F` is the type of Number values.  An
object is the list of its own properties in enumeration order. -/
inductive JSValue (F : Type) where
  | null : JSValue F
  | bool (b : Bool) : JSValue F
  | num (x : F) : JSValue F
  | str (s : JSString) : JSValue F
  | arr (items : List (JSValue F)) : JSValue F
  | obj (props : List (JSString × JSValue F)) : JSValue F

/-- Where the script can raise a built-in `TypeError`. -/
inductive ErrorSite where
  | readProperty (expr : JSString) (baseIsNull : Bool) (key : JSString)
  | notAFunction (expr : JSString)
  | toPrimitive

/-- A thrown `Error`; the script only ever reads its `message`. -/
structure JSError where
  message : JSString
  deriving DecidableEq

/-- What the language runtime decides. -/
structure Platform (F : Type) where
  /-- The operation `Number::toString`. -/
  numberToString : F → JSString
  /-- Neither an infinity nor NaN. -/
  isFinite : F → Bool
  /-- The comparison `x > 0` on a Number. -/
  isPositive : F → Bool
  /-- The comparison `s > 0` on a String (through `StringToNumber`). -/
  stringIsPositive : JSString → Bool
  /-- The Number denoted by a JSON number token. -/
  parseNumber : JSString → F
  /-- The text of `new Date(v).toLocaleString()` for a defined value `v`. -/
  dateText : JSValue F → JSString
  /-- The text of `new Date(v * 1000).toLocaleString()` for a defined value `v`. -/
  epochSecondsText : JSValue F → JSString
  /-- The message of a built-in `TypeError`. -/
  typeErrorMessage : ErrorSite → JSString
  /-- The message of the `SyntaxError` of `JSON.parse` on a text. -/
  syntaxErrorMessage : JSString → JSString

variable {F : Type}

/-- Own-property test on a property list. -/
def hasKey (key : JSString) (props : List (JSString × JSValue F)) : Bool :=
  (props.lookup key).isSome

mutual
/-- The operation `ToString` on a JSON value.  An object with an own property
`toString` (never callable in a JSON value) cannot be converted. -/
def toStr (P : Platform F) : JSValue F → Except JSError JSString
  | .null => .ok (u "null")
  | .bool true => .ok (u "true")
  | .bool false => .ok (u "false")
  | .num x => .ok (P.numberToString x)
  | .str s => .ok s
  | .arr items => joinComma P items
  | .obj props =>
    if hasKey (u "toString") props then .error ⟨P.typeErrorMessage .toPrimitive⟩
    else .ok (u "[object Object]")
/-- The method `Array.prototype.join` with the default separator: `null` elements
give the empty string. -/
def joinComma (P : Platform F) : List (JSValue F) → Except JSError JSString
  | [] => .ok []
  | v :: vs =>
    match (match v with
           | .null => Except.ok []
           | w => toStr P w) with
    | .error e => .error e
    | .ok a =>
      match vs with
      | [] => .ok a
      | _ :: _ =>
        match joinComma P vs with
        | .error e => .error e
        | .ok b => .ok (a ++ u "," ++ b)
end

/-- A value or `undefined` (`none`). -/
abbrev Value (F : Type) := Option (JSValue F)

/-- The substitution `${e}` of a template literal: `ToString` of the value. -/
def interp (P : Platform F) : Value F → Except JSError JSString
  | none => .ok (u "undefined")
  | some v => toStr P v

/-- The property read `base.key` for the data keys of the script (none of them
is defined on a built-in prototype): `undefined` and `null` throw, an object
gives its own property, every other value gives `undefined`. -/
def getProp (P : Platform F) (expr : JSString) (base : Value F) (key : JSString) :
    Except JSError (Value F) :=
  match base with
  | none => .error ⟨P.typeErrorMessage (.readProperty expr false key)⟩
  | some .null => .error ⟨P.typeErrorMessage (.readProperty expr true key)⟩
  | some (.obj props) => .ok (props.lookup key)
  | some _ => .ok none

/-! ## Template literals and the formatted view (lines 50-103) -/

/-- A part of a template literal: a chunk of literal text, or a substitution
with the text it evaluates to (or the error it throws). -/
inductive Chunk where
  | lit (text : String)
  | sub (value : Except JSError JSString)

/-- The text of a part. -/
def Chunk.eval : Chunk → Except JSError JSString
  | .lit text => .ok (u text)
  | .sub value => value

/-- A template literal: its chunks and substitutions are evaluated from left to
right, the first one that throws aborts the evaluation, and the texts are
concatenated. -/
def template : List Chunk → Except JSError JSString
  | [] => .ok []
  | p :: ps =>
    match p.eval with
    | .error e => .error e
    | .ok a =>
      match template ps with
      | .error e => .error e
      | .ok b => .ok (a ++ b)

/-- The substitution `${order.key}`. -/
def field (P : Platform F) (order : JSValue F) (key : String) : Except JSError JSString :=
  match getProp P (u "order") (some order) (u key) with
  | .error e => .error e
  | .ok v => interp P v

/-- The substitution `${order.parent.key}`. -/
def nestedField (P : Platform F) (order : JSValue F) (parent key : String) :
    Except JSError JSString :=
  match getProp P (u "order") (some order) (u parent) with
  | .error e => .error e
  | .ok sub =>
    match getProp P (u ("order." ++ parent)) sub (u key) with
    | .error e => .error e
    | .ok v => interp P v

/-- The substitution `${new Date(order.date_created).toLocaleString()}`: an
undefined argument gives an invalid date; a defined one is first converted to a
primitive, which can throw, and then rendered by the platform. -/
def dateCreated (P : Platform F) (order : JSValue F) : Except JSError JSString :=
  match getProp P (u "order") (some order) (u "date_created") with
  | .error e => .error e
  | .ok none => .ok (u "Invalid Date")
  | .ok (some v) =>
    match toStr P v with
    | .error e => .error e
    | .ok _ => .ok (P.dateText v)

/-- The substitution `${new Date(order.payment.payment_dt * 1000).toLocaleString()}`:
`undefined * 1000` is NaN, an invalid date. -/
def paymentDate (P : Platform F) (order : JSValue F) : Except JSError JSString :=
  match getProp P (u "order") (some order) (u "payment") with
  | .error e => .error e
  | .ok sub =>
    match getProp P (u "order.payment") sub (u "payment_dt") with
    | .error e => .error e
    | .ok none => .ok (u "Invalid Date")
    | .ok (some v) =>
      match toStr P v with
      | .error e => .error e
      | .ok _ => .ok (P.epochSecondsText v)

/-- The chunks and substitutions of the first template literal of `displayOrder`
(lines 51-85), one row of the source per line. -/
def orderChunks (P : Platform F) (order : JSValue F) : List Chunk :=
  [
    .lit "\n            <div class=\"section\">\n                <h3 class=\"section-title\">Order Information</h3>",
    .lit "\n                <p><strong>Order UID:</strong> ", .sub (field P order "order_uid"), .lit "</p>",
    .lit "\n                <p><strong>Track Number:</strong> ", .sub (field P order "track_number"), .lit "</p>",
    .lit "\n                <p><strong>Entry:</strong> ", .sub (field P order "entry"), .lit "</p>",
    .lit "\n                <p><strong>Customer ID:</strong> ", .sub (field P order "customer_id"), .lit "</p>",
    .lit "\n                <p><strong>Delivery Service:</strong> ", .sub (field P order "delivery_service"), .lit "</p>",
    .lit "\n                <p><strong>Date Created:</strong> ", .sub (dateCreated P order), .lit "</p>",
    .lit "\n            </div>\n            \n            <div class=\"section\">\n                <h3 class=\"section-title\">Delivery Information</h3>",
    .lit "\n                <p><strong>Name:</strong> ", .sub (nestedField P order "delivery" "name"), .lit "</p>",
    .lit "\n                <p><strong>Phone:</strong> ", .sub (nestedField P order "delivery" "phone"), .lit "</p>",
    .lit "\n                <p><strong>Zip:</strong> ", .sub (nestedField P order "delivery" "zip"), .lit "</p>",
    .lit "\n                <p><strong>City:</strong> ", .sub (nestedField P order "delivery" "city"), .lit "</p>",
    .lit "\n                <p><strong>Address:</strong> ", .sub (nestedField P order "delivery" "address"), .lit "</p>",
    .lit "\n                <p><strong>Region:</strong> ", .sub (nestedField P order "delivery" "region"), .lit "</p>",
    .lit "\n                <p><strong>Email:</strong> ", .sub (nestedField P order "delivery" "email"), .lit "</p>",
    .lit "\n            </div>\n            \n            <div class=\"section\">\n                <h3 class=\"section-title\">Payment Information</h3>",
    .lit "\n                <p><strong>Transaction:</strong> ", .sub (nestedField P order "payment" "transaction"), .lit "</p>",
    .lit "\n                <p><strong>Currency:</strong> ", .sub (nestedField P order "payment" "currency"), .lit "</p>",
    .lit "\n                <p><strong>Provider:</strong> ", .sub (nestedField P order "payment" "provider"), .lit "</p>",
    .lit "\n                <p><strong>Amount:</strong> ", .sub (nestedField P order "payment" "amount"), .lit "</p>",
    .lit "\n                <p><strong>Payment Date:</strong> ", .sub (paymentDate P order), .lit "</p>",
    .lit "\n                <p><strong>Bank:</strong> ", .sub (nestedField P order "payment" "bank"), .lit "</p>",
    .lit "\n                <p><strong>Delivery Cost:</strong> ", .sub (nestedField P order "payment" "delivery_cost"), .lit "</p>",
    .lit "\n                <p><strong>Goods Total:</strong> ", .sub (nestedField P order "payment" "goods_total"), .lit "</p>",
    .lit "\n                <p><strong>Custom Fee:</strong> ", .sub (nestedField P order "payment" "custom_fee"), .lit "</p>",
    .lit "\n            </div>\n        "]

/-- The first template literal of `displayOrder` (lines 51-85). -/
def orderSections (P : Platform F) (order : JSValue F) : Except JSError JSString :=
  template (orderChunks P order)

/-- The substitution `${item.key}`. -/
def itemField (P : Platform F) (item : JSValue F) (key : String) : Except JSError JSString :=
  match getProp P (u "item") (some item) (u key) with
  | .error e => .error e
  | .ok v => interp P v

/-- The chunks and substitutions of the template literal of one item entry
(lines 91-100). -/
def itemChunks (P : Platform F) (item : JSValue F) : List Chunk :=
  [
    .lit "\n                        <div style=\"margin-bottom: 15px; padding: 10px; border: 1px solid #eee; border-radius: 4px;\">",
    .lit "\n                            <p><strong>Name:</strong> ", .sub (itemField P item "name"), .lit "</p>",
    .lit "\n                            <p><strong>Brand:</strong> ", .sub (itemField P item "brand"), .lit "</p>",
    .lit "\n                            <p><strong>Price:</strong> ", .sub (itemField P item "price"), .lit "</p>",
    .lit "\n                            <p><strong>Total Price:</strong> ", .sub (itemField P item "total_price"), .lit "</p>",
    .lit "\n                            <p><strong>Size:</strong> ", .sub (itemField P item "size"), .lit "</p>",
    .lit "\n                            <p><strong>Status:</strong> ", .sub (itemField P item "status"), .lit "</p>",
    .lit "\n                        </div>\n                    "]

/-- The template literal of one item entry (lines 91-100). -/
def itemEntry (P : Platform F) (item : JSValue F) : Except JSError JSString :=
  template (itemChunks P item)

/-- The call `order.items.map(item => ...)` on an array: the entries in
order, the first entry that throws aborts the call. -/
def itemEntries (P : Platform F) : List (JSValue F) → Except JSError (List JSString)
  | [] => .ok []
  | item :: rest =>
    match itemEntry P item with
    | .error e => .error e
    | .ok a =>
      match itemEntries P rest with
      | .error e => .error e
      | .ok as => .ok (a :: as)

/-- The second template literal of `displayOrder` (lines 88-102), for an array
of items. -/
def itemsSection (P : Platform F) (items : List (JSValue F)) : Except JSError JSString :=
  template [
    .lit "\n                <div class=\"section\">\n                    <h3 class=\"section-title\">Items (",
    .sub (.ok (decimal items.length)),
    .lit ")</h3>\n                    ",
    .sub (match itemEntries P items with
      | .error e => .error e
      | .ok entries => .ok entries.flatten),
    .lit "\n                </div>\n            "]

/-- The comparison `len > 0` for the own `length` of a non-array object. -/
def greaterThanZero (P : Platform F) (len : JSValue F) : Except JSError Bool :=
  match len with
  | .null => .ok false
  | .bool b => .ok b
  | .num x => .ok (P.isPositive x)
  | .str s => .ok (P.stringIsPositive s)
  | .arr items =>
    match toStr P (.arr items) with
    | .error e => .error e
    | .ok s => .ok (P.stringIsPositive s)
  | .obj props =>
    match toStr P (.obj props) with
    | .error e => .error e
    | .ok _ => .ok false

/-- The guard `order.items && order.items.length > 0` (line 87) together with
what the guarded block can iterate: `.ok none` when the guard is false,
`.ok (some l)` when `order.items` is the non-empty array `l`, and an error when
the guard holds for a value without a `map` method (or cannot be evaluated). -/
def itemsToRender (P : Platform F) (items : Value F) :
    Except JSError (Option (List (JSValue F))) :=
  match items with
  | none => .ok none
  | some .null => .ok none
  | some (.bool _) => .ok none
  | some (.num _) => .ok none
  | some (.str []) => .ok none
  | some (.str (_ :: _)) => .error ⟨P.typeErrorMessage (.notAFunction (u "order.items.map"))⟩
  | some (.arr []) => .ok none
  | some (.arr (item :: rest)) => .ok (some (item :: rest))
  | some (.obj props) =>
    match props.lookup (u "length") with
    | none => .ok none
    | some len =>
      match greaterThanZero P len with
      | .error e => .error e
      | .ok false => .ok none
      | .ok true => .error ⟨P.typeErrorMessage (.notAFunction (u "order.items.map"))⟩

/-- The value of `html` when `displayOrder` reaches line 105. -/
def renderHtml (P : Platform F) (order : JSValue F) : Except JSError JSString :=
  match orderSections P order with
  | .error e => .error e
  | .ok html =>
    match getProp P (u "order") (some order) (u "items") with
    | .error e => .error e
    | .ok items =>
      match itemsToRender P items with
      | .error e => .error e
      | .ok none => .ok html
      | .ok (some l) =>
        match itemsSection P l with
        | .error e => .error e
        | .ok itemsHtml => .ok (html ++ itemsHtml)

/-! ## The fields of the order record that are rendered as text -/

/-- The fields of the order, of its delivery record and of its payment record
that the formatted view shows by plain substitution (the two timestamps are
shown through `Date`). -/
inductive OrderField where
  | order_uid
  | track_number
  | entry
  | customer_id
  | delivery_service
  | name
  | phone
  | zip
  | city
  | address
  | region
  | email
  | transaction
  | currency
  | provider
  | amount
  | bank
  | delivery_cost
  | goods_total
  | custom_fee

/-- The record a field is read from: the order itself (`none`), or its
`delivery` or `payment` record. -/
def OrderField.parent : OrderField → Option String
  | .order_uid => none
  | .track_number => none
  | .entry => none
  | .customer_id => none
  | .delivery_service => none
  | .name => some "delivery"
  | .phone => some "delivery"
  | .zip => some "delivery"
  | .city => some "delivery"
  | .address => some "delivery"
  | .region => some "delivery"
  | .email => some "delivery"
  | .transaction => some "payment"
  | .currency => some "payment"
  | .provider => some "payment"
  | .amount => some "payment"
  | .bank => some "payment"
  | .delivery_cost => some "payment"
  | .goods_total => some "payment"
  | .custom_fee => some "payment"

/-- The property name of a field. -/
def OrderField.key : OrderField → String
  | .order_uid => "order_uid"
  | .track_number => "track_number"
  | .entry => "entry"
  | .customer_id => "customer_id"
  | .delivery_service => "delivery_service"
  | .name => "name"
  | .phone => "phone"
  | .zip => "zip"
  | .city => "city"
  | .address => "address"
  | .region => "region"
  | .email => "email"
  | .transaction => "transaction"
  | .currency => "currency"
  | .provider => "provider"
  | .amount => "amount"
  | .bank => "bank"
  | .delivery_cost => "delivery_cost"
  | .goods_total => "goods_total"
  | .custom_fee => "custom_fee"

/-- The text that opens the row of a field in the formatted view. -/
def OrderField.rowStart : OrderField → String
  | .order_uid => "\n                <p><strong>Order UID:</strong> "
  | .track_number => "\n                <p><strong>Track Number:</strong> "
  | .entry => "\n                <p><strong>Entry:</strong> "
  | .customer_id => "\n                <p><strong>Customer ID:</strong> "
  | .delivery_service => "\n                <p><strong>Delivery Service:</strong> "
  | .name => "\n                <p><strong>Name:</strong> "
  | .phone => "\n                <p><strong>Phone:</strong> "
  | .zip => "\n                <p><strong>Zip:</strong> "
  | .city => "\n                <p><strong>City:</strong> "
  | .address => "\n                <p><strong>Address:</strong> "
  | .region => "\n                <p><strong>Region:</strong> "
  | .email => "\n                <p><strong>Email:</strong> "
  | .transaction => "\n                <p><strong>Transaction:</strong> "
  | .currency => "\n                <p><strong>Currency:</strong> "
  | .provider => "\n                <p><strong>Provider:</strong> "
  | .amount => "\n                <p><strong>Amount:</strong> "
  | .bank => "\n                <p><strong>Bank:</strong> "
  | .delivery_cost => "\n                <p><strong>Delivery Cost:</strong> "
  | .goods_total => "\n                <p><strong>Goods Total:</strong> "
  | .custom_fee => "\n                <p><strong>Custom Fee:</strong> "

/-- The place of a field's row among the chunks of the first template literal. -/
def OrderField.position : OrderField → Nat
  | .order_uid => 1
  | .track_number => 4
  | .entry => 7
  | .customer_id => 10
  | .delivery_service => 13
  | .name => 20
  | .phone => 23
  | .zip => 26
  | .city => 29
  | .address => 32
  | .region => 35
  | .email => 38
  | .transaction => 42
  | .currency => 45
  | .provider => 48
  | .amount => 51
  | .bank => 57
  | .delivery_cost => 60
  | .goods_total => 63
  | .custom_fee => 66

/-- The value of `order.key` or `order.parent.key`. -/
def OrderField.read (P : Platform F) (order : JSValue F) (f : OrderField) :
    Except JSError (Value F) :=
  match f.parent with
  | none => getProp P (u "order") (some order) (u f.key)
  | some parent =>
    match getProp P (u "order") (some order) (u parent) with
    | .error e => .error e
    | .ok sub => getProp P (u ("order." ++ parent)) sub (u f.key)

/-- The substitution that shows a field, as the template writes it. -/
def OrderField.substitution (P : Platform F) (order : JSValue F) (f : OrderField) :
    Except JSError JSString :=
  match f.parent with
  | none => field P order f.key
  | some parent => nestedField P order parent f.key

/-- The row of a field whose value is `undefined`. -/
def OrderField.undefinedRow (f : OrderField) : JSString :=
  u f.rowStart ++ u "undefined" ++ u "</p>"

/-- The fields of an item. -/
inductive ItemField where
  | name
  | brand
  | price
  | total_price
  | size
  | status

/-- The property name of an item field. -/
def ItemField.key : ItemField → String
  | .name => "name"
  | .brand => "brand"
  | .price => "price"
  | .total_price => "total_price"
  | .size => "size"
  | .status => "status"

/-- The text that opens the row of an item field in the formatted view. -/
def ItemField.rowStart : ItemField → String
  | .name => "\n                            <p><strong>Name:</strong> "
  | .brand => "\n                            <p><strong>Brand:</strong> "
  | .price => "\n                            <p><strong>Price:</strong> "
  | .total_price => "\n                            <p><strong>Total Price:</strong> "
  | .size => "\n                            <p><strong>Size:</strong> "
  | .status => "\n                            <p><strong>Status:</strong> "

/-- The place of an item field's row among the chunks of the entry template. -/
def ItemField.position : ItemField → Nat
  | .name => 1
  | .brand => 4
  | .price => 7
  | .total_price => 10
  | .size => 13
  | .status => 16

/-- The row of an item field whose value is `undefined`. -/
def ItemField.undefinedRow (f : ItemField) : JSString :=
  u f.rowStart ++ u "undefined" ++ u "</p>"

/-! ## Counting sections in the formatted view -/

/-- How many times a text occurs in another. -/
def occurrences (pat : JSString) : JSString → Nat
  | [] => 0
  | c :: t => (if pat.isPrefixOf (c :: t) then 1 else 0) + occurrences pat t

/-- The occurrences of a text that start inside a chunk of literal text, when
the chunk alone settles each of them; `none` when the chunk ends inside a
possible occurrence. -/
def literalCount (pat : JSString) : JSString → Option Nat
  | [] => some 0
  | c :: t =>
    if pat.isPrefixOf (c :: t) then
      match literalCount pat t with
      | some k => some (k + 1)
      | none => none
    else if (c :: t).isPrefixOf pat then none
    else literalCount pat t

/-- The occurrences of a text that start inside the literal chunks of a
template. -/
def chunksCount (pat : JSString) : List Chunk → Option Nat
  | [] => some 0
  | .lit text :: cs =>
    match literalCount pat (u text), chunksCount pat cs with
    | some a, some b => some (a + b)
    | _, _ => none
  | .sub _ :: cs => chunksCount pat cs

/-- The opening of the title of the Items section. -/
def itemsTitleMark : JSString := u "<h3 class=\"section-title\">Items ("

/-- The opening of an item entry. -/
def entryMark : JSString := u "<div style=\"margin-bottom: 15px;"

/-- The substitutions of a template produce no `<`. -/
def PlainValues (chunks : List Chunk) : Prop :=
  ∀ value text, Chunk.sub value ∈ chunks → value = .ok text → 60 ∉ text

/-! ## The raw view: `JSON.stringify(order, null, 2)` (line 106) -/

/-- A lower-case hexadecimal digit. -/
def hexDigit (d : Nat) : Nat := if d < 10 then 48 + d else 87 + d

/-- The escape `\uXXXX` of a code unit. -/
def unicodeEscape (c : Nat) : JSString :=
  [92, 117, hexDigit (c / 4096 % 16), hexDigit (c / 256 % 16), hexDigit (c / 16 % 16),
    hexDigit (c % 16)]

/-- The first half of a surrogate pair. -/
def isLeadingSurrogate (c : Nat) : Bool := 0xD800 ≤ c && c ≤ 0xDBFF

/-- The second half of a surrogate pair. -/
def isTrailingSurrogate (c : Nat) : Bool := 0xDC00 ≤ c && c ≤ 0xDFFF

/-- How `QuoteJSONString` writes a code unit that is not a surrogate. -/
def quoteUnit (c : Nat) : JSString :=
  if c == 8 then [92, 98]
  else if c == 9 then [92, 116]
  else if c == 10 then [92, 110]
  else if c == 12 then [92, 102]
  else if c == 13 then [92, 114]
  else if c == 34 then [92, 34]
  else if c == 92 then [92, 92]
  else if c < 32 then unicodeEscape c
  else [c]

/-- The body of `QuoteJSONString`: a surrogate is written as it is when it is
half of a pair and as an escape when it is alone. -/
def quoteUnits (afterLeading : Bool) : JSString → JSString
  | [] => []
  | c :: rest =>
    (if isLeadingSurrogate c then
       (if rest.head?.map isTrailingSurrogate == some true then [c] else unicodeEscape c)
     else if isTrailingSurrogate c then
       (if afterLeading then [c] else unicodeEscape c)
     else quoteUnit c) ++ quoteUnits (isLeadingSurrogate c) rest

/-- The operation `QuoteJSONString`. -/
def quoteJSONString (s : JSString) : JSString := [34] ++ quoteUnits false s ++ [34]

/-- One step of indentation: the gap of `JSON.stringify(_, null, 2)`. -/
def gap : JSString := [32, 32]

mutual
/-- The operation `SerializeJSONProperty` at the current indentation.  A Number
that is not finite is written `null`. -/
def serialize (P : Platform F) (indent : JSString) : JSValue F → JSString
  | .null => u "null"
  | .bool true => u "true"
  | .bool false => u "false"
  | .num x => if P.isFinite x then P.numberToString x else u "null"
  | .str s => quoteJSONString s
  | .arr [] => u "[]"
  | .arr (v :: vs) =>
    u "[\n" ++ (indent ++ gap) ++ serializeElements P (indent ++ gap) (v :: vs) ++
      u "\n" ++ indent ++ u "]"
  | .obj [] => u "\x7b\x7d"
  | .obj (m :: ms) =>
    u "\x7b\n" ++ (indent ++ gap) ++ serializeMembers P (indent ++ gap) (m :: ms) ++
      u "\n" ++ indent ++ u "\x7d"
/-- The elements of an array, separated by a comma and a line break. -/
def serializeElements (P : Platform F) (indent : JSString) : List (JSValue F) → JSString
  | [] => []
  | v :: vs =>
    serialize P indent v ++
      (match vs with
       | [] => []
       | _ :: _ => u ",\n" ++ indent ++ serializeElements P indent vs)
/-- The members of an object, separated by a comma and a line break. -/
def serializeMembers (P : Platform F) (indent : JSString) :
    List (JSString × JSValue F) → JSString
  | [] => []
  | (k, v) :: ms =>
    quoteJSONString k ++ u ": " ++ serialize P indent v ++
      (match ms with
       | [] => []
       | _ :: _ => u ",\n" ++ indent ++ serializeMembers P indent ms)
end

/-- The call `JSON.stringify(order, null, 2)`. -/
def jsonStringify (P : Platform F) (order : JSValue F) : JSString := serialize P [] order

/-! ## Reading JSON: `response.json()` (line 38) -/

/-- JSON white space. -/
def isJsonSpace (c : Nat) : Bool := c == 32 || c == 9 || c == 10 || c == 13

/-- Skipping JSON white space. -/
def skipSpace (s : JSString) : JSString := s.dropWhile isJsonSpace

/-- The value of a hexadecimal digit. -/
def hexVal (c : Nat) : Option Nat :=
  if 48 ≤ c && c ≤ 57 then some (c - 48)
  else if 97 ≤ c && c ≤ 102 then some (c - 87)
  else if 65 ≤ c && c ≤ 70 then some (c - 55)
  else none

/-- The code unit of a one-letter escape. -/
def simpleEscape (c : Nat) : Option Nat :=
  if c == 34 then some 34
  else if c == 92 then some 92
  else if c == 47 then some 47
  else if c == 98 then some 8
  else if c == 102 then some 12
  else if c == 110 then some 10
  else if c == 114 then some 13
  else if c == 116 then some 9
  else none

/-- A JSON string after its opening quote: the code units up to the closing
quote, and the text after it. -/
def parseStringBody : JSString → Option (JSString × JSString)
  | [] => none
  | c :: rest =>
    if c == 34 then some ([], rest)
    else if c == 92 then
      match rest with
      | [] => none
      | e :: rest1 =>
        if e == 117 then
          match rest1 with
          | a :: b :: c2 :: d :: rest2 =>
            match hexVal a, hexVal b, hexVal c2, hexVal d with
            | some x, some y, some z, some w =>
              match parseStringBody rest2 with
              | some (s, r) => some ((x * 4096 + y * 256 + z * 16 + w) :: s, r)
              | none => none
            | _, _, _, _ => none
          | _ => none
        else
          match simpleEscape e with
          | some x =>
            match parseStringBody rest1 with
            | some (s, r) => some (x :: s, r)
            | none => none
          | none => none
    else if c < 32 then none
    else
      match parseStringBody rest with
      | some (s, r) => some (c :: s, r)
      | none => none

/-- The characters a JSON number token is made of. -/
def isNumberChar (c : Nat) : Bool :=
  isDigit c || c == 45 || c == 43 || c == 46 || c == 101 || c == 69

/-- The optional exponent of a number token, up to the end of the token. -/
def isExponentPart (s : JSString) : Bool :=
  match s with
  | [] => true
  | e :: r =>
    (e == 101 || e == 69) &&
      (match r with
       | [] => false
       | c :: r1 =>
         if c == 43 || c == 45 then !r1.isEmpty && r1.all isDigit
         else (c :: r1).all isDigit)

/-- The optional fraction and exponent of a number token. -/
def isFractionPart (s : JSString) : Bool :=
  match s with
  | [] => true
  | c :: r =>
    if c == 46 then (r.head?.map isDigit == some true) && isExponentPart (r.dropWhile isDigit)
    else isExponentPart (c :: r)

/-- The integer part of a number token and what follows it. -/
def isIntegerPart (s : JSString) : Bool :=
  match s with
  | [] => false
  | c :: r =>
    if c == 48 then isFractionPart r
    else if 49 ≤ c && c ≤ 57 then isFractionPart (r.dropWhile isDigit)
    else false

/-- The JSON grammar of numbers: an optional minus, an integer part without
leading zero, an optional fraction, an optional exponent. -/
def isNumberToken (s : JSString) : Bool :=
  match s with
  | [] => false
  | c :: r => if c == 45 then isIntegerPart r else isIntegerPart (c :: r)

/-- The integer a run of decimal digits denotes. -/
def indexValue (k : JSString) : Nat := k.foldl (fun a c => 10 * a + (c - 48)) 0

/-- An array index: the canonical decimal text of an integer below 2^32 - 1. -/
def isArrayIndex (k : JSString) : Bool :=
  !k.isEmpty && k.all isDigit && (k.length == 1 || k.head? != some 48) &&
    decide (indexValue k < 4294967295)

/-- Overwriting the value of an existing property; its position is kept. -/
def replaceValue (k : JSString) (v : JSValue F) :
    List (JSString × JSValue F) → List (JSString × JSValue F)
  | [] => []
  | (k1, v1) :: ps => if k1 == k then (k1, v) :: ps else (k1, v1) :: replaceValue k v ps

/-- Adding a property whose key is an array index and not yet a key: the indices
come first, in ascending order, so the new one goes after the indices that are
not greater (two different array indices never denote the same integer). -/
def insertIndex (k : JSString) (v : JSValue F) :
    List (JSString × JSValue F) → List (JSString × JSValue F)
  | [] => [(k, v)]
  | (k1, v1) :: ps =>
    if isArrayIndex k1 && decide (indexValue k1 ≤ indexValue k) then
      (k1, v1) :: insertIndex k v ps
    else (k, v) :: (k1, v1) :: ps

/-- The operation `CreateDataProperty` as the reader uses it, on the list of own
properties in enumeration order: array indices ascending, then the other keys
in creation order. -/
def setProperty (props : List (JSString × JSValue F)) (k : JSString) (v : JSValue F) :
    List (JSString × JSValue F) :=
  if hasKey k props then replaceValue k v props
  else if isArrayIndex k then insertIndex k v props
  else props ++ [(k, v)]

/-- The object denoted by the members of an object text, read in order. -/
def mkObject (members : List (JSString × JSValue F)) : List (JSString × JSValue F) :=
  members.foldl (fun acc m => setProperty acc m.1 m.2) []

mutual
/-- A JSON value at the head of the text, and the text after it. -/
def parseValue (P : Platform F) : Nat → JSString → Option (JSValue F × JSString)
  | 0, _ => none
  | fuel + 1, s =>
    match skipSpace s with
    | [] => none
    | c :: rest =>
      if c == 34 then
        match parseStringBody rest with
        | some (str, r) => some (.str str, r)
        | none => none
      else if c == 91 then
        match skipSpace rest with
        | [] => none
        | d :: rest1 =>
          if d == 93 then some (.arr [], rest1)
          else
            match parseElements P fuel rest with
            | some (vs, r) => some (.arr vs, r)
            | none => none
      else if c == 123 then
        match skipSpace rest with
        | [] => none
        | d :: rest1 =>
          if d == 125 then some (.obj [], rest1)
          else
            match parseMembers P fuel rest with
            | some (ms, r) => some (.obj (mkObject ms), r)
            | none => none
      else if (u "null").isPrefixOf (c :: rest) then some (.null, (c :: rest).drop 4)
      else if (u "true").isPrefixOf (c :: rest) then some (.bool true, (c :: rest).drop 4)
      else if (u "false").isPrefixOf (c :: rest) then some (.bool false, (c :: rest).drop 5)
      else if isNumberToken ((c :: rest).takeWhile isNumberChar) then
        some (.num (P.parseNumber ((c :: rest).takeWhile isNumberChar)),
          (c :: rest).dropWhile isNumberChar)
      else none
/-- The elements of an array up to its closing bracket. -/
def parseElements (P : Platform F) : Nat → JSString → Option (List (JSValue F) × JSString)
  | 0, _ => none
  | fuel + 1, s =>
    match parseValue P fuel s with
    | none => none
    | some (v, r) =>
      match skipSpace r with
      | [] => none
      | d :: r1 =>
        if d == 44 then
          match parseElements P fuel r1 with
          | some (vs, r2) => some (v :: vs, r2)
          | none => none
        else if d == 93 then some ([v], r1)
        else none
/-- The members of an object up to its closing brace, in the order of the text. -/
def parseMembers (P : Platform F) :
    Nat → JSString → Option (List (JSString × JSValue F) × JSString)
  | 0, _ => none
  | fuel + 1, s =>
    match skipSpace s with
    | [] => none
    | q :: r0 =>
      if q == 34 then
        match parseStringBody r0 with
        | none => none
        | some (k, r1) =>
          match skipSpace r1 with
          | [] => none
          | colon :: r2 =>
            if colon == 58 then
              match parseValue P fuel r2 with
              | none => none
              | some (v, r3) =>
                match skipSpace r3 with
                | [] => none
                | d :: r4 =>
                  if d == 44 then
                    match parseMembers P fuel r4 with
                    | some (ms, r5) => some ((k, v) :: ms, r5)
                    | none => none
                  else if d == 125 then some ([(k, v)], r4)
                  else none
            else none
      else none
end

/-- The call `JSON.parse(text)`: one value, white space around it, nothing else.
`none` stands for the `SyntaxError`. -/
def jsonParse (P : Platform F) (text : JSString) : Option (JSValue F) :=
  match parseValue P (text.length + 1) text with
  | none => none
  | some (v, rest) => if (skipSpace rest).isEmpty then some v else none

/-! ## What the round trip of the raw view needs -/

mutual
/-- The Numbers that occur in a value. -/
def numbersOf : JSValue F → List F
  | .null => []
  | .bool _ => []
  | .num x => [x]
  | .str _ => []
  | .arr items => numbersOfElements items
  | .obj props => numbersOfMembers props
/-- The Numbers that occur in the elements of an array. -/
def numbersOfElements : List (JSValue F) → List F
  | [] => []
  | v :: vs => numbersOf v ++ numbersOfElements vs
/-- The Numbers that occur in the members of an object. -/
def numbersOfMembers : List (JSString × JSValue F) → List F
  | [] => []
  | (_, v) :: ms => numbersOf v ++ numbersOfMembers ms
end

/-- A Number that its own rendering restores: it is finite, and its rendering
is a JSON number token that denotes it. -/
def Restorable (P : Platform F) (x : F) : Prop :=
  P.isFinite x = true ∧ isNumberToken (P.numberToString x) = true ∧
    P.parseNumber (P.numberToString x) = x

/-- The order of two keys of an object, the first enumerated before the second:
they differ, and if the second is an array index then the first is an array
index that is not greater. -/
def KeyBefore (a b : JSString) : Prop :=
  a ≠ b ∧ (isArrayIndex b = true → isArrayIndex a = true ∧ indexValue a ≤ indexValue b)

/-- A property list in enumeration order with no key repeated. -/
def OrderedKeys (props : List (JSString × JSValue F)) : Prop :=
  (props.map Prod.fst).Pairwise KeyBefore

mutual
/-- A value all of whose objects list their properties in enumeration order. -/
def WellFormed : JSValue F → Prop
  | .null => True
  | .bool _ => True
  | .num _ => True
  | .str _ => True
  | .arr items => WellFormedElements items
  | .obj props => OrderedKeys props ∧ WellFormedMembers props
/-- The elements of an array are well formed. -/
def WellFormedElements : List (JSValue F) → Prop
  | [] => True
  | v :: vs => WellFormed v ∧ WellFormedElements vs
/-- The values of the members of an object are well formed. -/
def WellFormedMembers : List (JSString × JSValue F) → Prop
  | [] => True
  | (_, v) :: ms => WellFormed v ∧ WellFormedMembers ms
end

mutual
/-- Fuel that is enough to read back the text of a value. -/
def need : JSValue F → Nat
  | .null => 1
  | .bool _ => 1
  | .num _ => 1
  | .str _ => 1
  | .arr items => needElements items + 1
  | .obj props => needMembers props + 1
/-- Fuel that is enough to read back the elements of an array. -/
def needElements : List (JSValue F) → Nat
  | [] => 0
  | v :: vs => need v + needElements vs + 1
/-- Fuel that is enough to read back the members of an object. -/
def needMembers : List (JSString × JSValue F) → Nat
  | [] => 0
  | (_, v) :: ms => need v + needMembers ms + 1
end

/-! ## The page and the script's functions -/

/-- The parts of the page the script reads and writes: the value of the query
field, for each of the three regions whether its class list holds `hidden`, and
the contents the script assigns. -/
structure UI where
  orderIdValue : JSString
  loadingHidden : Bool
  errorHidden : Bool
  errorText : JSString
  resultHidden : Bool
  orderDetailsHTML : JSString
  jsonViewText : JSString
  deriving DecidableEq

/-- A call of `fetch`. -/
structure Request where
  method : JSString
  url : JSString
  deriving DecidableEq

/-- The function `showLoading` (lines 110-112). -/
def showLoading (ui : UI) : UI := { ui with loadingHidden := false }

/-- The function `hideLoading` (lines 114-116). -/
def hideLoading (ui : UI) : UI := { ui with loadingHidden := true }

/-- The function `showError` (lines 118-121). -/
def showError (message : JSString) (ui : UI) : UI :=
  { ui with errorText := message, errorHidden := false }

/-- The function `resetUI` (lines 123-129). -/
def resetUI (ui : UI) : UI :=
  { ui with errorHidden := true, errorText := [], resultHidden := true,
            orderDetailsHTML := [], jsonViewText := [] }

/-- The function `displayOrder` (lines 50-108): nothing on the page changes
unless the whole text was built. -/
def displayOrder (P : Platform F) (order : JSValue F) (ui : UI) : Except JSError UI :=
  match renderHtml P order with
  | .error e => .error e
  | .ok html =>
    .ok { ui with orderDetailsHTML := html, jsonViewText := jsonStringify P order,
                  resultHidden := false }

/-- The synchronous part of `searchOrder` (lines 19-29): the page afterwards and
the requests issued.  `fetch` with a single argument issues a GET. -/
def searchOrder (origin : JSString) (ui : UI) : UI × List Request :=
  let orderId := trim ui.orderIdValue
  if orderId.isEmpty then (showError (u "Please enter an order ID") ui, [])
  else
    (showLoading (resetUI ui),
      [{ method := u "GET", url := apiBaseUrl origin ++ u "/order/" ++ orderId }])

/-- How a request ends: the network call fails with a message, or a response
arrives with a status and a body. -/
inductive Outcome where
  | networkFailure (message : JSString)
  | response (status : Nat) (body : JSString)

/-- The getter `response.ok`: a status from 200 to 299. -/
def responseOk (status : Nat) : Bool := 200 ≤ status && status ≤ 299

/-- The promise `response.json()`. -/
def responseJson (P : Platform F) (body : JSString) : Except JSError (JSValue F) :=
  match jsonParse P body with
  | some v => .ok v
  | none => .error ⟨P.syntaxErrorMessage body⟩

/-- The promise handed to the second `then` (lines 29-39): the order, or the
error that goes to `catch`. -/
def fetched (P : Platform F) : Outcome → Except JSError (JSValue F)
  | .networkFailure message => .error ⟨message⟩
  | .response status body =>
    if !responseOk status then
      if status == 404 then .error ⟨u "Order not found"⟩
      else .error ⟨u "Server error: " ++ decimal status⟩
    else responseJson P body

/-- The callbacks that run when the request ends (lines 40-47). -/
def complete (P : Platform F) (o : Outcome) (ui : UI) : UI :=
  match fetched P o with
  | .error e => showError e.message (hideLoading ui)
  | .ok order =>
    match displayOrder P order (hideLoading ui) with
    | .ok ui1 => ui1
    | .error e => showError e.message (hideLoading (hideLoading ui))

/-! ## Sequences of events -/

/-- The page and the requests that have not ended yet. -/
structure World where
  ui : UI
  inFlight : List Request
  deriving DecidableEq

/-- What can happen: the user edits the query field, the user starts a lookup
(a click on the button or Enter in the field), a request ends. -/
inductive Event where
  | edit (value : JSString)
  | lookup
  | arrive (index : Nat) (outcome : Outcome)

/-- The effect of one event. -/
def step (P : Platform F) (origin : JSString) (w : World) : Event → World
  | .edit value => { w with ui := { w.ui with orderIdValue := value } }
  | .lookup => { ui := (searchOrder origin w.ui).1, inFlight := w.inFlight ++ (searchOrder origin w.ui).2 }
  | .arrive index outcome =>
    if index < w.inFlight.length then
      { ui := complete P outcome w.ui, inFlight := w.inFlight.eraseIdx index }
    else w

/-- The effect of a sequence of events. -/
def run (P : Platform F) (origin : JSString) (w : World) (events : List Event) : World :=
  events.foldl (step P origin) w

/-- Modelled from the spec: the markup of the page is not part of the sources;
the page starts Idle, with an empty query field, the three regions hidden and
nothing displayed. -/
def initialWorld : World :=
  { ui := { orderIdValue := [], loadingHidden := true, errorHidden := true, errorText := [],
            resultHidden := true, orderDetailsHTML := [], jsonViewText := [] },
    inFlight := [] }

/-- How many of the loading, error and result regions are visible. -/
def visibleRegions (ui : UI) : Nat :=
  (if ui.loadingHidden then 0 else 1) + (if ui.errorHidden then 0 else 1) +
    (if ui.resultHidden then 0 else 1)

/-- Whether an event keeps the lookups apart: a lookup with a query is started
only when no request is in flight, an empty query is submitted only while
neither the loading nor the result region is visible, and a request that ends
is one that is in flight. -/
def orderly (w : World) : Event → Bool
  | .edit _ => true
  | .lookup =>
    if (trim w.ui.orderIdValue).isEmpty then w.ui.loadingHidden && w.ui.resultHidden
    else w.inFlight.isEmpty
  | .arrive index _ => decide (index < w.inFlight.length)

/-- Whether every event of a sequence keeps the lookups apart. -/
def orderlyRun (P : Platform F) (origin : JSString) : World → List Event → Bool
  | _, [] => true
  | w, e :: es => orderly w e && orderlyRun P origin (step P origin w e) es

/-! ## A reference platform

One concrete platform, for running the definitions on inputs.  A Number is an
IEEE 754 double, named by the shortest decimal that is read as it, which is
what `Number::toString` prints.  Reading a decimal rounds it to the nearest
double, a tie to the even mantissa.  Error messages follow the wording of V8.
The platform has no calendar. -/

/-- A Number of the reference platform: a zero, the double whose shortest
decimal is `digits * 10 ^ exponent`, with `digits` positive and not a multiple
of ten, or an infinity. -/
inductive RefNumber where
  | zero (negative : Bool)
  | dec (negative : Bool) (digits : Nat) (exponent : Int)
  | inf (negative : Bool)
  deriving DecidableEq

/-- The operation `Number::toString` on a positive finite Number with decimal
digits `ds` and the decimal point `n` places after the first digit's position. -/
def refPositiveToString (ds : JSString) (n : Int) : JSString :=
  let k : Int := ds.length
  if k ≤ n ∧ n ≤ 21 then ds ++ List.replicate (n - k).toNat 48
  else if 0 < n ∧ n ≤ 21 then ds.take n.toNat ++ [46] ++ ds.drop n.toNat
  else if -6 < n ∧ n ≤ 0 then [48, 46] ++ List.replicate (-n).toNat 48 ++ ds
  else
    let e := n - 1
    let exponentText := (if e < 0 then [45] else [43]) ++ decimal e.natAbs
    if ds.length = 1 then ds ++ [101] ++ exponentText
    else ds.take 1 ++ [46] ++ ds.drop 1 ++ [101] ++ exponentText

/-- The operation `Number::toString`. -/
def refNumberToString : RefNumber → JSString
  | .zero _ => [48]
  | .inf false => u "Infinity"
  | .inf true => u "-Infinity"
  | .dec negative digits exponent =>
    (if negative then [45] else []) ++
      refPositiveToString (decimal digits) ((decimal digits).length + exponent)

/-- Removing the trailing zeros of a mantissa. -/
def stripZeros : Nat → Nat → Int → Nat × Int
  | 0, m, e => (m, e)
  | fuel + 1, m, e => if m % 10 == 0 && m != 0 then stripZeros fuel (m / 10) (e + 1) else (m, e)

/-- The mantissa and the decimal exponent of an unsigned decimal literal
`digits [. digits] [e [sign] digits]`. -/
def readDecimal (s : JSString) : Nat × Int :=
  let whole := s.takeWhile isDigit
  let r := s.dropWhile isDigit
  let fraction := match r with
    | [] => []
    | c :: r1 => if c == 46 then r1.takeWhile isDigit else []
  let r2 := match r with
    | [] => []
    | c :: r1 => if c == 46 then r1.dropWhile isDigit else c :: r1
  let exponent : Int := match r2 with
    | [] => 0
    | _ :: r3 =>
      match r3 with
      | [] => 0
      | c :: r4 =>
        if c == 45 then -(indexValue r4 : Int)
        else if c == 43 then (indexValue r4 : Int)
        else (indexValue (c :: r4) : Int)
  (indexValue (whole ++ fraction), exponent - fraction.length)

/-- The number of binary digits of a positive integer. -/
def binaryLength (n : Nat) : Nat := (Nat.toDigits 2 n).length

/-- The quotient `num / den` rounded to the nearest integer, a tie to the even one. -/
def roundHalfEven (num den : Nat) : Nat :=
  if den < 2 * (num % den) ∨ (2 * (num % den) = den ∧ (num / den) % 2 = 1) then num / den + 1
  else num / den

/-- The double nearest to the positive ratio `p / q`, ties to even, as
`mantissa * 2 ^ exponent` with the mantissa below `2 ^ 53` and the exponent
from -1074 to 971; a mantissa 0 is an underflow, `none` is an overflow. -/
def nearestRatio (p q : Nat) : Option (Nat × Int) :=
  let d : Int := (binaryLength p : Int) - (binaryLength q : Int)
  let atLeast : Bool := if 0 ≤ d then q * 2 ^ d.toNat ≤ p else q ≤ p * 2 ^ (-d).toNat
  let log : Int := if atLeast then d else d - 1
  let e : Int := max (log - 52) (-1074)
  let mant : Nat :=
    if 0 ≤ e then roundHalfEven p (q * 2 ^ e.toNat) else roundHalfEven (p * 2 ^ (-e).toNat) q
  if mant = 2 ^ 53 then (if 971 < e + 1 then none else some (2 ^ 52, e + 1))
  else if 971 < e then none
  else some (mant, e)

/-- The double nearest to `m * 10 ^ e` for a positive `m`.  With `n` the number
of digits before the decimal point the value lies between `10 ^ (n - 1)` and
`10 ^ n`: beyond 309 it overflows and below -323 it underflows. -/
def nearestDouble (m : Nat) (e : Int) : Option (Nat × Int) :=
  let n : Int := (decimal m).length + e
  if 309 < n then none
  else if n < -323 then some (0, -1074)
  else if 0 ≤ e then nearestRatio (m * 10 ^ e.toNat) 1
  else nearestRatio m (10 ^ (-e).toNat)

/-- The number `N` of digits before the decimal point of the positive ratio
`p / q`: `10 ^ (N - 1) ≤ p / q < 10 ^ N`. -/
def decimalPoint (p q : Nat) : Int :=
  let d : Int := ((decimal p).length : Int) - ((decimal q).length : Int)
  let atLeast : Bool := if 0 ≤ d then q * 10 ^ d.toNat ≤ p else q ≤ p * 10 ^ (-d).toNat
  if atLeast then d + 1 else d

/-- Whether the decimal `s * 10 ^ ex` is read as the double `mant * 2 ^ e`. -/
def readsAs (mant : Nat) (e : Int) (s : Nat) (ex : Int) : Bool :=
  s != 0 &&
    nearestDouble (stripZeros (decimal s).length s ex).1 (stripZeros (decimal s).length s ex).2
      == some (mant, e)

/-- Of the decimals `low` and `low + 1` in units of the last digit, given
which of them is read as the double: the one that is; if both are, the closer
one, the double being `r / den` of a unit above `low`, and the even one if they
are as close. -/
def chooseDigits (lowOk highOk : Bool) (low r den : Nat) : Option Nat :=
  if lowOk && highOk then
    (if 2 * r < den then some low
     else if den < 2 * r then some (low + 1)
     else if low % 2 == 0 then some low else some (low + 1))
  else if lowOk then some low
  else if highOk then some (low + 1)
  else none

/-- The decimal with last digit at `10 ^ ex` that is read as the double
`mant * 2 ^ e`, which is `num / den` units of that digit, if there is one: one of
the two decimals next to the double, without its trailing zeros. -/
def digitsFrom (mant : Nat) (e : Int) (ex : Int) (num den : Nat) : Option (Nat × Int) :=
  match chooseDigits (readsAs mant e (num / den) ex)
      (num % den != 0 && readsAs mant e (num / den + 1) ex) (num / den) (num % den) den with
  | none => none
  | some s => some (stripZeros (decimal s).length s ex)

/-- The decimal with `k` digits that is read as the double `mant * 2 ^ e`, if
there is one. -/
def digitsOfLength (mant : Nat) (e : Int) (k : Nat) : Option (Nat × Int) :=
  let p : Nat := if 0 ≤ e then mant * 2 ^ e.toNat else mant
  let q : Nat := if 0 ≤ e then 1 else 2 ^ (-e).toNat
  let ex : Int := decimalPoint p q - k
  digitsFrom mant e ex (if 0 ≤ ex then p else p * 10 ^ (-ex).toNat)
    (if 0 ≤ ex then q * 10 ^ ex.toNat else q)

/-- The shortest decimal that is read as the double `mant * 2 ^ e`, tried from
one digit to seventeen (seventeen digits tell any two doubles apart). -/
def shortestDecimal (mant : Nat) (e : Int) : Option (Nat × Int) :=
  (List.range 17).findSome? (fun i => digitsOfLength mant e (i + 1))

/-- The Number nearest to `m * 10 ^ e` for a positive `m`, with the sign
given: the double nearest to it, named by its shortest decimal.  Seventeen
digits are enough for every double; the last case names the Number by `m` and
`e` themselves. -/
def refNearest (negative : Bool) (m : Nat) (e : Int) : RefNumber :=
  match nearestDouble m e with
  | none => .inf negative
  | some (mant, e2) =>
    if mant == 0 then .zero negative
    else
      match shortestDecimal mant e2 with
      | some (s, es) => .dec negative s es
      | none => .dec negative m e

/-- The Number nearest to `m * 10 ^ e`, with the sign given. -/
def refRound (negative : Bool) (m : Nat) (e : Int) : RefNumber :=
  if m == 0 then .zero negative
  else
    refNearest negative (stripZeros (decimal m).length m e).1 (stripZeros (decimal m).length m e).2

/-- The Number a JSON number token denotes. -/
def refParseNumber (token : JSString) : RefNumber :=
  match token with
  | [] => .zero false
  | c :: r =>
    if c == 45 then refRound true (readDecimal r).1 (readDecimal r).2
    else refRound false (readDecimal (c :: r)).1 (readDecimal (c :: r)).2

/-- An unsigned decimal literal of `StringToNumber`: digits with an optional
fraction, or a fraction alone, and an optional exponent. -/
def isStrDecimal (s : JSString) : Bool :=
  let whole := s.takeWhile isDigit
  let r := s.dropWhile isDigit
  match r with
  | [] => !whole.isEmpty
  | c :: r1 =>
    if c == 46 then
      (!whole.isEmpty || (r1.head?.map isDigit == some true)) &&
        isExponentPart (r1.dropWhile isDigit)
    else !whole.isEmpty && isExponentPart (c :: r1)

/-- The comparison `s > 0` on a String. -/
def refStringIsPositive (s : JSString) : Bool :=
  let t := trim s
  let unsigned := match t with
    | [] => []
    | c :: r => if c == 43 then r else c :: r
  if unsigned == u "Infinity" then true
  else if isStrDecimal unsigned then
    match refRound false (readDecimal unsigned).1 (readDecimal unsigned).2 with
    | .zero _ => false
    | _ => true
  else
    match t with
    | z :: x :: d :: ds =>
      if z == 48 && (x == 120 || x == 88) then
        (d :: ds).all (fun c => (hexVal c).isSome) && (d :: ds).any (fun c => c != 48)
      else if z == 48 && (x == 111 || x == 79) then
        (d :: ds).all (fun c => 48 ≤ c && c ≤ 55) && (d :: ds).any (fun c => c != 48)
      else if z == 48 && (x == 98 || x == 66) then
        (d :: ds).all (fun c => c == 48 || c == 49) && (d :: ds).any (fun c => c != 48)
      else false
    | _ => false

/-- The wording of the built-in errors. -/
def refTypeErrorMessage : ErrorSite → JSString
  | .readProperty _ false key =>
    u "Cannot read properties of undefined (reading \'" ++ key ++ u "\')"
  | .readProperty _ true key =>
    u "Cannot read properties of null (reading \'" ++ key ++ u "\')"
  | .notAFunction expr => expr ++ u " is not a function"
  | .toPrimitive => u "Cannot convert object to primitive value"

/-- The reference platform. -/
def refPlatform : Platform RefNumber :=
  { numberToString := refNumberToString
    isFinite := fun x =>
      match x with
      | .inf _ => false
      | _ => true
    isPositive := fun x =>
      match x with
      | .dec false _ _ => true
      | .inf false => true
      | _ => false
    stringIsPositive := refStringIsPositive
    parseNumber := refParseNumber
    dateText := fun _ => u "Invalid Date"
    epochSecondsText := fun _ => u "Invalid Date"
    typeErrorMessage := refTypeErrorMessage
    syntaxErrorMessage := fun _ => u "Unexpected token in JSON" }

/-- The origin of a page served by a development server. -/
def sampleOrigin : JSString := u "http://localhost:8080"

/-- A response body: an order without dates and with two items. -/
def sampleBody : JSString :=
  u ("\x7b\"order_uid\":\"12345\",\"track_number\":\"T1\",\"entry\":\"WBIL\"," ++
     "\"delivery\":\x7b\"name\":\"Jane\"\x7d,\"payment\":\x7b\"amount\":100\x7d," ++
     "\"items\":[\x7b\"name\":\"Mascara\",\"price\":453\x7d,\x7b\"name\":\"Scarf\"\x7d]\x7d")

/-- The properties of the record `sampleBody` denotes. -/
def sampleOrder_props : List (JSString × JSValue RefNumber) :=
  [(u "order_uid", .str (u "12345")), (u "track_number", .str (u "T1")),
    (u "entry", .str (u "WBIL")), (u "delivery", .obj [(u "name", .str (u "Jane"))]),
    (u "payment", .obj [(u "amount", .num (.dec false 1 2))]),
    (u "items", .arr [.obj [(u "name", .str (u "Mascara")), (u "price", .num (.dec false 453 0))],
      .obj [(u "name", .str (u "Scarf"))]])]

/-- The record `sampleBody` denotes. -/
def sampleOrder : JSValue RefNumber := .obj sampleOrder_props

/-- The formatted view of `sampleOrder` on the reference platform. -/
def sampleHtml : JSString :=
  u ("\n" ++
     "            <div class=\"section\">\n" ++
     "                <h3 class=\"section-title\">Order Information</h3>\n" ++
     "                <p><strong>Order UID:</strong> 12345</p>\n" ++
     "                <p><strong>Track Number:</strong> T1</p>\n" ++
     "                <p><strong>Entry:</strong> WBIL</p>\n" ++
     "                <p><strong>Customer ID:</strong> undefined</p>\n" ++
     "                <p><strong>Delivery Service:</strong> undefined</p>\n" ++
     "                <p><strong>Date Created:</strong> Invalid Date</p>\n" ++
     "            </div>\n" ++
     "            \n" ++
     "            <div class=\"section\">\n" ++
     "                <h3 class=\"section-title\">Delivery Information</h3>\n" ++
     "                <p><strong>Name:</strong> Jane</p>\n" ++
     "                <p><strong>Phone:</strong> undefined</p>\n" ++
     "                <p><strong>Zip:</strong> undefined</p>\n" ++
     "                <p><strong>City:</strong> undefined</p>\n" ++
     "                <p><strong>Address:</strong> undefined</p>\n" ++
     "                <p><strong>Region:</strong> undefined</p>\n" ++
     "                <p><strong>Email:</strong> undefined</p>\n" ++
     "            </div>\n" ++
     "            \n" ++
     "            <div class=\"section\">\n" ++
     "                <h3 class=\"section-title\">Payment Information</h3>\n" ++
     "                <p><strong>Transaction:</strong> undefined</p>\n" ++
     "                <p><strong>Currency:</strong> undefined</p>\n" ++
     "                <p><strong>Provider:</strong> undefined</p>\n" ++
     "                <p><strong>Amount:</strong> 100</p>\n" ++
     "                <p><strong>Payment Date:</strong> Invalid Date</p>\n" ++
     "                <p><strong>Bank:</strong> undefined</p>\n" ++
     "                <p><strong>Delivery Cost:</strong> undefined</p>\n" ++
     "                <p><strong>Goods Total:</strong> undefined</p>\n" ++
     "                <p><strong>Custom Fee:</strong> undefined</p>\n" ++
     "            </div>\n" ++
     "        \n" ++
     "                <div class=\"section\">\n" ++
     "                    <h3 class=\"section-title\">Items (2)</h3>\n" ++
     "                    \n" ++
     "                        <div style=\"margin-bottom: 15px; padding: 10px; border: 1px solid #eee; border-radius: 4px;\">\n" ++
     "                            <p><strong>Name:</strong> Mascara</p>\n" ++
     "                            <p><strong>Brand:</strong> undefined</p>\n" ++
     "                            <p><strong>Price:</strong> 453</p>\n" ++
     "                            <p><strong>Total Price:</strong> undefined</p>\n" ++
     "                            <p><strong>Size:</strong> undefined</p>\n" ++
     "                            <p><strong>Status:</strong> undefined</p>\n" ++
     "                        </div>\n" ++
     "                    \n" ++
     "                        <div style=\"margin-bottom: 15px; padding: 10px; border: 1px solid #eee; border-radius: 4px;\">\n" ++
     "                            <p><strong>Name:</strong> Scarf</p>\n" ++
     "                            <p><strong>Brand:</strong> undefined</p>\n" ++
     "                            <p><strong>Price:</strong> undefined</p>\n" ++
     "                            <p><strong>Total Price:</strong> undefined</p>\n" ++
     "                            <p><strong>Size:</strong> undefined</p>\n" ++
     "                            <p><strong>Status:</strong> undefined</p>\n" ++
     "                        </div>\n" ++
     "                    \n" ++
     "                </div>\n" ++
     "            ")

/-- The raw view of `sampleOrder` on the reference platform. -/
def sampleRaw : JSString :=
  u ("\x7b\n" ++
     "  \"order_uid\": \"12345\",\n" ++
     "  \"track_number\": \"T1\",\n" ++
     "  \"entry\": \"WBIL\",\n" ++
     "  \"delivery\": \x7b\n" ++
     "    \"name\": \"Jane\"\n" ++
     "  \x7d,\n" ++
     "  \"payment\": \x7b\n" ++
     "    \"amount\": 100\n" ++
     "  \x7d,\n" ++
     "  \"items\": [\n" ++
     "    \x7b\n" ++
     "      \"name\": \"Mascara\",\n" ++
     "      \"price\": 453\n" ++
     "    \x7d,\n" ++
     "    \x7b\n" ++
     "      \"name\": \"Scarf\"\n" ++
     "    \x7d\n" ++
     "  ]\n" ++
     "\x7d")

/-- The page while the lookup of order "42" is loading. -/
def sampleLoading : UI :=
  (searchOrder sampleOrigin { initialWorld.ui with orderIdValue := u "42" }).1

/-- A response body with an amount beyond the range of Numbers. -/
def overflowBody : JSString :=
  u "\x7b\"delivery\":\x7b\x7d,\"payment\":\x7b\"amount\":1e400\x7d\x7d"

/-- The record `overflowBody` denotes: the amount is read as `Infinity`. -/
def overflowOrder : JSValue RefNumber :=
  .obj [(u "delivery", .obj []), (u "payment", .obj [(u "amount", .num (.inf false))])]

/-- The raw view of `overflowOrder`: the amount is written as `null`. -/
def overflowRaw : JSString :=
  u ("\x7b\n" ++
     "  \"delivery\": \x7b\x7d,\n" ++
     "  \"payment\": \x7b\n" ++
     "    \"amount\": null\n" ++
     "  \x7d\n" ++
     "\x7d")

/-- The page after the response `overflowBody` to the lookup of order "42". -/
def overflowPage : UI := complete refPlatform (.response 200 overflowBody) sampleLoading

/-- A response body with an amount that is negative zero. -/
def negativeZeroBody : JSString :=
  u "\x7b\"delivery\":\x7b\x7d,\"payment\":\x7b\"amount\":-0\x7d\x7d"

/-- The record `negativeZeroBody` denotes. -/
def negativeZeroOrder : JSValue RefNumber :=
  .obj [(u "delivery", .obj []), (u "payment", .obj [(u "amount", .num (.zero true))])]

/-- The raw view of `negativeZeroOrder`: the amount is written as `0`. -/
def negativeZeroRaw : JSString :=
  u ("\x7b\n" ++
     "  \"delivery\": \x7b\x7d,\n" ++
     "  \"payment\": \x7b\n" ++
     "    \"amount\": 0\n" ++
     "  \x7d\n" ++
     "\x7d")

/-- The page after the response `negativeZeroBody` to the lookup of order "42". -/
def negativeZeroPage : UI := complete refPlatform (.response 200 negativeZeroBody) sampleLoading

/-- The page after a lookup of "a" and a lookup of "b" were started and the
first of the two requests has failed. -/
def sampleOverlap : World :=
  run refPlatform sampleOrigin initialWorld
    [.edit (u "a"), .lookup, .edit (u "b"), .lookup,
      .arrive 0 (.networkFailure (u "Failed to fetch"))]

/-- Whether a text has a colon followed by a digit, what `/:\d+/` matches. -/
def hasPortLike : JSString → Bool
  | [] => false
  | c :: rest => (c == 58 && (rest.head?.map isDigit == some true)) || hasPortLike rest

/-! ## Theorems -/

set_option maxRecDepth 1000000

/-! ### Starting a lookup -/

theorem trim_eq_nil_of_blank (s : JSString) (h : ∀ c ∈ s, isWhiteSpace c = true) :
    trim s = [] := by
  have h1 : s.dropWhile isWhiteSpace = [] := by
    rw [List.dropWhile_eq_nil_iff]
    exact h
  simp [trim, h1, List.rdropWhile]

/-- Claim C1: when the query field is empty or holds only white space,
`searchOrder` issues no request, and afterwards the error region is visible
with the text "Please enter an order ID". -/
theorem searchOrder_blank_query (origin : JSString) (ui : UI)
    (h : ∀ c ∈ ui.orderIdValue, isWhiteSpace c = true) :
    (searchOrder origin ui).2 = [] ∧
      (searchOrder origin ui).1.errorHidden = false ∧
      (searchOrder origin ui).1.errorText = u "Please enter an order ID" := by
  simp [searchOrder, trim_eq_nil_of_blank _ h, showError]

theorem searchOrder_blank_query_witness :
    (searchOrder sampleOrigin { initialWorld.ui with orderIdValue := u " \t  " }).2 = [] ∧
      (searchOrder sampleOrigin { initialWorld.ui with orderIdValue := u " \t  " }).1.errorHidden
        = false ∧
      (searchOrder sampleOrigin { initialWorld.ui with orderIdValue := u " \t  " }).1.errorText
        = u "Please enter an order ID" :=
  searchOrder_blank_query sampleOrigin { initialWorld.ui with orderIdValue := u " \t  " }
    (by decide)

/-- Claim C2: when the trimmed query `t` is not empty, one call of `searchOrder`
issues exactly one request, a GET whose URL is the api base, then "/order/",
then `t` as it is. -/
theorem searchOrder_one_request (origin : JSString) (ui : UI)
    (h : trim ui.orderIdValue ≠ []) :
    (searchOrder origin ui).2 =
      [{ method := u "GET", url := apiBaseUrl origin ++ u "/order/" ++ trim ui.orderIdValue }] := by
  simp [searchOrder, h]

theorem searchOrder_one_request_witness :
    trim (u "  b563 feb7/?x=1 ") = u "b563 feb7/?x=1" ∧
      (searchOrder sampleOrigin { initialWorld.ui with orderIdValue := u "  b563 feb7/?x=1 " }).2 =
        [{ method := u "GET", url := u "http://localhost:8081/order/b563 feb7/?x=1" }] :=
  ⟨by decide,
    (searchOrder_one_request sampleOrigin
      { initialWorld.ui with orderIdValue := u "  b563 feb7/?x=1 " } (by decide)).trans
      (by decide)⟩

/-! ### The end of a request -/

/-- Claim C3: when a lookup does not end in a successful response, the error
text is fixed by how it ended: status 404 gives "Order not found", any other
status outside 200-299 gives "Server error: " followed by the status in decimal,
and a network failure gives the message of the failure. -/
theorem complete_error_text (P : Platform F) (ui : UI) :
    (∀ body, (complete P (.response 404 body) ui).errorText = u "Order not found" ∧
        (complete P (.response 404 body) ui).errorHidden = false) ∧
    (∀ status body, responseOk status = false → status ≠ 404 →
        (complete P (.response status body) ui).errorText = u "Server error: " ++ decimal status ∧
        (complete P (.response status body) ui).errorHidden = false) ∧
    (∀ message, (complete P (.networkFailure message) ui).errorText = message ∧
        (complete P (.networkFailure message) ui).errorHidden = false) := by
  refine ⟨fun body => ?_, fun status body hok hne => ?_, fun message => ?_⟩
  · simp [complete, fetched, responseOk, showError]
  · simp [complete, fetched, hok, hne, showError]
  · simp [complete, fetched, showError]

theorem complete_error_text_witness :
    (complete refPlatform (.response 500 []) initialWorld.ui).errorText = u "Server error: 500" ∧
      (complete refPlatform (.response 500 []) initialWorld.ui).errorHidden = false :=
  ((complete_error_text refPlatform initialWorld.ui).2.1 500 [] (by decide) (by decide)).imp
    (fun h => h.trans (by decide)) id

theorem complete_of_failed (P : Platform F) (o : Outcome) (ui : UI) (e : JSError)
    (h : fetched P o = .error e) :
    complete P o ui = showError e.message (hideLoading ui) := by
  simp [complete, h]

theorem complete_of_unrendered (P : Platform F) (o : Outcome) (ui : UI) (order : JSValue F)
    (e : JSError) (h : fetched P o = .ok order) (hr : renderHtml P order = .error e) :
    complete P o ui = showError e.message (hideLoading (hideLoading ui)) := by
  simp [complete, displayOrder, h, hr]

theorem complete_of_rendered (P : Platform F) (o : Outcome) (ui : UI) (order : JSValue F)
    (html : JSString) (h : fetched P o = .ok order) (hr : renderHtml P order = .ok html) :
    complete P o ui =
      { hideLoading ui with orderDetailsHTML := html, jsonViewText := jsonStringify P order,
                            resultHidden := false } := by
  simp [complete, displayOrder, h, hr]

/-- Claim C10: whatever way a request ends (a rendered order, status 404,
another status outside 200-299, a network failure, a body that is not JSON, an
order that cannot be rendered), once the callbacks have run the loading region
is hidden, and either the order has been rendered into a visible result region
or the error region is visible with the message of the error. -/
theorem complete_leaves_loading (P : Platform F) (o : Outcome) (ui : UI) :
    (complete P o ui).loadingHidden = true ∧
      ((∃ order html, fetched P o = .ok order ∧ renderHtml P order = .ok html ∧
          (complete P o ui).resultHidden = false ∧
          (complete P o ui).orderDetailsHTML = html ∧
          (complete P o ui).jsonViewText = jsonStringify P order) ∨
       (∃ e, (fetched P o = .error e ∨
            ∃ order, fetched P o = .ok order ∧ renderHtml P order = .error e) ∧
          (complete P o ui).errorHidden = false ∧
          (complete P o ui).errorText = e.message)) := by
  cases hf : fetched P o with
  | error e =>
    rw [complete_of_failed P o ui e hf]
    exact ⟨rfl, Or.inr ⟨e, Or.inl rfl, rfl, rfl⟩⟩
  | ok order =>
    cases hr : renderHtml P order with
    | error e =>
      rw [complete_of_unrendered P o ui order e hf hr]
      exact ⟨rfl, Or.inr ⟨e, Or.inr ⟨order, rfl, hr⟩, rfl, rfl⟩⟩
    | ok html =>
      rw [complete_of_rendered P o ui order html hf hr]
      exact ⟨rfl, Or.inl ⟨order, html, rfl, hr, rfl, rfl, rfl⟩⟩

/-! ### The api base -/

theorem replacePort_explicit (pre digits : JSString) (h : hasPortLike pre = false)
    (hne : digits ≠ []) (hd : ∀ c ∈ digits, isDigit c = true) :
    replacePort (pre ++ 58 :: digits) = pre ++ u ":8081" := by
  induction pre with
  | nil =>
    cases digits with
    | nil => exact absurd rfl hne
    | cons d ds =>
      have h1 : isDigit d = true := hd d (List.mem_cons_self _ _)
      have h2 : (d :: ds).dropWhile isDigit = [] := by
        rw [List.dropWhile_eq_nil_iff]
        exact hd
      simp only [List.nil_append, replacePort, List.head?_cons, Option.map_some', h1, h2]
      simp
  | cons c pre ih =>
    simp only [hasPortLike, Bool.or_eq_false_iff] at h
    have h3 : (c == 58 && ((pre ++ 58 :: digits).head?.map isDigit == some true)) = false := by
      cases pre with
      | nil => simp [isDigit]
      | cons c1 pre1 => simpa using h.1
    show replacePort (c :: (pre ++ 58 :: digits)) = c :: (pre ++ u ":8081")
    rw [replacePort, h3, ih h.2]
    simp

/-- Claim C6, at the failing page origin `http://example.com` (no explicit port):
the api base is the origin unchanged, so the lookup of "42" is sent to
`http://example.com/order/42` and not to port 8081; and for the origin
`http://[::1]:3000` the replacement lands inside the host. -/
theorem apiBaseUrl_without_port :
    serializeOrigin (u "http") (u "example.com") none = u "http://example.com" ∧
    apiBaseUrl (u "http://example.com") = u "http://example.com" ∧
    (searchOrder (u "http://example.com") { initialWorld.ui with orderIdValue := u "42" }).2 =
      [{ method := u "GET", url := u "http://example.com/order/42" }] ∧
    apiBaseUrl (serializeOrigin (u "http") (u "[::1]") (some 3000)) = u "http://[::8081]:3000" := by
  decide

/-! ### Which regions are visible -/

/-- Claim C7 fails: after two overlapping lookups of which the first fails and
the second succeeds, the error and the result regions are both visible; after
a rendered lookup followed by an empty query, likewise; and an empty query
submitted while a request is in flight leaves the loading and the error regions
both visible. -/
theorem regions_not_exclusive :
    visibleRegions (step refPlatform sampleOrigin sampleOverlap
      (.arrive 0 (.response 200 sampleBody))).ui = 2 ∧
    visibleRegions (run refPlatform sampleOrigin initialWorld
      [.edit (u "a"), .lookup, .arrive 0 (.response 200 sampleBody), .edit [], .lookup]).ui = 2 ∧
    visibleRegions (run refPlatform sampleOrigin initialWorld
      [.edit (u "a"), .lookup, .edit [], .lookup]).ui = 2 := by
  decide

theorem step_keeps_apart (P : Platform F) (origin : JSString) (w : World) (e : Event)
    (ho : orderly w e = true)
    (hw : (w.inFlight = [] ∧ w.ui.loadingHidden = true ∧ visibleRegions w.ui ≤ 1) ∨
      (∃ r, w.inFlight = [r] ∧ w.ui.loadingHidden = false ∧ w.ui.errorHidden = true ∧
        w.ui.resultHidden = true)) :
    ((step P origin w e).inFlight = [] ∧ (step P origin w e).ui.loadingHidden = true ∧
        visibleRegions (step P origin w e).ui ≤ 1) ∨
      (∃ r, (step P origin w e).inFlight = [r] ∧ (step P origin w e).ui.loadingHidden = false ∧
        (step P origin w e).ui.errorHidden = true ∧ (step P origin w e).ui.resultHidden = true) := by
  cases e with
  | edit value => exact hw
  | lookup =>
    simp only [orderly] at ho
    by_cases hq : (trim w.ui.orderIdValue).isEmpty = true
    · simp only [hq, if_true, Bool.and_eq_true] at ho
      rcases hw with ⟨h1, h2, _⟩ | ⟨r, _, h2, _, _⟩
      · left
        simp [step, searchOrder, hq, h1, showError, visibleRegions, ho.1, ho.2]
      · rw [h2] at ho
        exact absurd ho.1 (by decide)
    · have hq1 : (trim w.ui.orderIdValue).isEmpty = false := by simpa using hq
      rw [hq1] at ho
      have ho1 : w.inFlight = [] := by simpa using ho
      right
      simp [step, searchOrder, hq1, ho1, showLoading, resetUI]
  | arrive index outcome =>
    simp only [orderly, decide_eq_true_eq] at ho
    rcases hw with ⟨h1, _, _⟩ | ⟨r, h1, _, h3, h4⟩
    · rw [h1] at ho
      exact absurd ho (by simp)
    · left
      have hi : index = 0 := by
        rw [h1] at ho
        simpa using ho
      have hl : (step P origin w (.arrive index outcome)) =
          { ui := complete P outcome w.ui, inFlight := [] } := by
        simp [step, h1, hi]
      rw [hl]
      refine ⟨rfl, ?_, ?_⟩
      · exact (complete_leaves_loading P outcome w.ui).1
      · cases hf : fetched P outcome with
        | error e =>
          simp [complete_of_failed P outcome w.ui e hf, visibleRegions, showError, hideLoading, h4]
        | ok order =>
          cases hr : renderHtml P order with
          | error e =>
            simp [complete_of_unrendered P outcome w.ui order e hf hr, visibleRegions, showError,
              hideLoading, h4]
          | ok html =>
            simp [complete_of_rendered P outcome w.ui order html hf hr, visibleRegions,
              hideLoading, h3]

theorem run_keeps_apart (P : Platform F) (origin : JSString) (events : List Event) :
    ∀ w : World, orderlyRun P origin w events = true →
      ((w.inFlight = [] ∧ w.ui.loadingHidden = true ∧ visibleRegions w.ui ≤ 1) ∨
        (∃ r, w.inFlight = [r] ∧ w.ui.loadingHidden = false ∧ w.ui.errorHidden = true ∧
          w.ui.resultHidden = true)) →
      visibleRegions (run P origin w events).ui ≤ 1 := by
  induction events with
  | nil =>
    intro w _ hw
    rcases hw with ⟨_, _, h⟩ | ⟨r, _, h2, h3, h4⟩
    · exact h
    · simp [run, visibleRegions, h2, h3, h4]
  | cons e es ih =>
    intro w ho hw
    simp only [orderlyRun, Bool.and_eq_true] at ho
    exact ih (step P origin w e) ho.2 (step_keeps_apart P origin w e ho.1 hw)

/-- Claim C7, amended: starting from the idle page, as long as a lookup with a
query is started only when no request is in flight and an empty query is
submitted only while neither the loading nor the result region is visible, at
most one of the loading, error and result regions is visible. -/
theorem regions_exclusive_when_orderly (P : Platform F) (origin : JSString)
    (events : List Event) (h : orderlyRun P origin initialWorld events = true) :
    visibleRegions (run P origin initialWorld events).ui ≤ 1 :=
  run_keeps_apart P origin events initialWorld h (Or.inl ⟨rfl, rfl, by decide⟩)

theorem regions_exclusive_when_orderly_witness :
    visibleRegions (run refPlatform sampleOrigin initialWorld
      [.edit [], .lookup, .edit (u "a"), .lookup, .arrive 0 (.response 200 sampleBody),
        .edit (u "b"), .lookup, .arrive 0 (.response 404 []), .lookup,
        .arrive 0 (.networkFailure (u "Failed to fetch"))]).ui ≤ 1 :=
  regions_exclusive_when_orderly refPlatform sampleOrigin
    [.edit [], .lookup, .edit (u "a"), .lookup, .arrive 0 (.response 200 sampleBody),
      .edit (u "b"), .lookup, .arrive 0 (.response 404 []), .lookup,
      .arrive 0 (.networkFailure (u "Failed to fetch"))] (by decide)

/-! ### Rendering a successful response -/

theorem eq_ok_of_toOption {α : Type} (e : Except JSError α) (a : α)
    (h : e.toOption = some a) : e = .ok a := by
  cases e with
  | error err => simp [Except.toOption] at h
  | ok b =>
    simp only [Except.toOption, Option.some.injEq] at h
    rw [h]

theorem fetched_sample : fetched refPlatform (.response 200 sampleBody) = .ok sampleOrder := rfl

theorem renderHtml_sample : renderHtml refPlatform sampleOrder = .ok sampleHtml :=
  eq_ok_of_toOption _ _ (by decide!)

/-- Claim C8 fails: `sampleOverlap` is reachable (two lookups started, the first
has failed), the response that then arrives is rendered, and afterwards the
error region is still visible, next to the result region. -/
theorem rendered_with_error_visible :
    fetched refPlatform (.response 200 sampleBody) = .ok sampleOrder ∧
    renderHtml refPlatform sampleOrder = .ok sampleHtml ∧
    (complete refPlatform (.response 200 sampleBody) sampleOverlap.ui).resultHidden = false ∧
    (complete refPlatform (.response 200 sampleBody) sampleOverlap.ui).errorHidden = false ∧
    (complete refPlatform (.response 200 sampleBody) sampleOverlap.ui).errorText =
      u "Failed to fetch" :=
  ⟨fetched_sample, renderHtml_sample, by decide, by decide, by decide⟩

/-- Claim C8, amended: when a successful response is rendered, from any state of
the page, afterwards the result region is visible, the loading region is
hidden, the formatted view and the raw view hold what was rendered from that
response, and the error region is as it was before; in particular it is hidden
when the response arrives right after its lookup was started. -/
theorem complete_rendered_effect (P : Platform F) (o : Outcome) (ui : UI) (order : JSValue F)
    (html : JSString) (h : fetched P o = .ok order) (hr : renderHtml P order = .ok html) :
    (complete P o ui).resultHidden = false ∧
      (complete P o ui).loadingHidden = true ∧
      (complete P o ui).orderDetailsHTML = html ∧
      (complete P o ui).jsonViewText = jsonStringify P order ∧
      (complete P o ui).errorHidden = ui.errorHidden ∧
      (complete P o ui).errorText = ui.errorText ∧
      (∀ origin, trim ui.orderIdValue ≠ [] →
        (complete P o (searchOrder origin ui).1).errorHidden = true) := by
  rw [complete_of_rendered P o ui order html h hr]
  refine ⟨rfl, rfl, rfl, rfl, rfl, rfl, fun origin hq => ?_⟩
  rw [complete_of_rendered P o _ order html h hr]
  simp [searchOrder, hq, showLoading, resetUI, hideLoading]

theorem complete_rendered_effect_witness :
    (complete refPlatform (.response 200 sampleBody) sampleOverlap.ui).resultHidden = false ∧
    (complete refPlatform (.response 200 sampleBody) sampleOverlap.ui).orderDetailsHTML
      = sampleHtml ∧
    (complete refPlatform (.response 200 sampleBody) sampleOverlap.ui).jsonViewText
      = sampleRaw ∧
    (complete refPlatform (.response 200 sampleBody) sampleOverlap.ui).errorHidden
      = sampleOverlap.ui.errorHidden ∧
    (complete refPlatform (.response 200 sampleBody)
        (searchOrder sampleOrigin sampleOverlap.ui).1).errorHidden = true :=
  have h := complete_rendered_effect refPlatform (.response 200 sampleBody) sampleOverlap.ui
    sampleOrder sampleHtml fetched_sample renderHtml_sample
  ⟨h.1, h.2.2.1, h.2.2.2.1.trans (by decide), h.2.2.2.2.1,
    h.2.2.2.2.2.2 sampleOrigin (by decide)⟩

/-! ### The Items section -/

theorem itemEntries_forall₂ (P : Platform F) (l : List (JSValue F)) :
    ∀ entries, itemEntries P l = .ok entries →
      List.Forall₂ (fun item entry => itemEntry P item = .ok entry) l entries := by
  induction l with
  | nil =>
    intro entries h
    simp only [itemEntries, Except.ok.injEq] at h
    rw [← h]
    exact List.Forall₂.nil
  | cons item rest ih =>
    intro entries h
    simp only [itemEntries] at h
    cases ha : itemEntry P item with
    | error e => simp [ha] at h
    | ok a =>
      cases hb : itemEntries P rest with
      | error e => simp [ha, hb] at h
      | ok bs =>
        simp only [ha, hb, Except.ok.injEq] at h
        rw [← h]
        exact List.Forall₂.cons ha (ih bs hb)

theorem itemsSection_ok (P : Platform F) (l : List (JSValue F)) (text : JSString)
    (h : itemsSection P l = .ok text) :
    ∃ entries, itemEntries P l = .ok entries ∧
      text = u "\n                <div class=\"section\">\n                    <h3 class=\"section-title\">Items (" ++
        decimal l.length ++ u ")</h3>\n                    " ++ entries.flatten ++
        u "\n                </div>\n            " := by
  cases he : itemEntries P l with
  | error e => simp [itemsSection, template, Chunk.eval, he] at h
  | ok entries =>
    refine ⟨entries, rfl, ?_⟩
    simp only [itemsSection, template, Chunk.eval, he, Except.ok.injEq] at h
    rw [← h]
    simp

/-- Claim C4: for every order record that `displayOrder` renders, the formatted
view is the text of the three fixed sections alone when the item sequence is
absent or empty, and when it has N >= 1 items that text followed by one section
titled "Items (N)" that holds the N item entries, one per item and in the order
of the items. -/
theorem renderHtml_items (P : Platform F) (props : List (JSString × JSValue F))
    (html : JSString) (h : renderHtml P (.obj props) = .ok html) :
    ∃ sections, orderSections P (.obj props) = .ok sections ∧
      ((props.lookup (u "items") = none ∨ props.lookup (u "items") = some .null ∨
          props.lookup (u "items") = some (.arr [])) → html = sections) ∧
      (∀ items, props.lookup (u "items") = some (.arr items) → items ≠ [] →
        ∃ entries, List.Forall₂ (fun item entry => itemEntry P item = .ok entry) items entries ∧
          entries.length = items.length ∧
          html = sections ++
            (u "\n                <div class=\"section\">\n                    <h3 class=\"section-title\">Items (" ++
              decimal items.length ++ u ")</h3>\n                    " ++ entries.flatten ++
              u "\n                </div>\n            ")) := by
  cases hs : orderSections P (.obj props) with
  | error e => simp [renderHtml, hs] at h
  | ok sections =>
    refine ⟨sections, rfl, ?_, ?_⟩
    · intro hitems
      rcases hitems with hi | hi | hi <;>
        simpa [renderHtml, hs, getProp, hi, itemsToRender] using h.symm
    · intro items hi hne
      cases items with
      | nil => exact absurd rfl hne
      | cons item rest =>
        cases hsec : itemsSection P (item :: rest) with
        | error e => simp [renderHtml, hs, getProp, hi, itemsToRender, hsec] at h
        | ok text =>
          obtain ⟨entries, he, ht⟩ := itemsSection_ok P (item :: rest) text hsec
          have hf := itemEntries_forall₂ P (item :: rest) entries he
          refine ⟨entries, hf, hf.length_eq.symm, ?_⟩
          simp only [renderHtml, hs, getProp, hi, itemsToRender, hsec, Except.ok.injEq] at h
          rw [← h, ht]

theorem renderHtml_items_witness :
    ∃ sections, orderSections refPlatform sampleOrder = .ok sections ∧
      ((sampleOrder_props.lookup (u "items") = none ∨
          sampleOrder_props.lookup (u "items") = some .null ∨
          sampleOrder_props.lookup (u "items") = some (.arr [])) → sampleHtml = sections) ∧
      (∀ items, sampleOrder_props.lookup (u "items") = some (.arr items) → items ≠ [] →
        ∃ entries,
          List.Forall₂ (fun item entry => itemEntry refPlatform item = .ok entry) items entries ∧
          entries.length = items.length ∧
          sampleHtml = sections ++
            (u "\n                <div class=\"section\">\n                    <h3 class=\"section-title\">Items (" ++
              decimal items.length ++ u ")</h3>\n                    " ++ entries.flatten ++
              u "\n                </div>\n            ")) :=
  renderHtml_items refPlatform sampleOrder_props sampleHtml renderHtml_sample

/-! ### Missing fields -/

theorem template_append_ok (xs ys : List Chunk) (text : JSString)
    (h : template (xs ++ ys) = .ok text) :
    ∃ a b, template xs = .ok a ∧ template ys = .ok b ∧ text = a ++ b := by
  induction xs generalizing text with
  | nil => exact ⟨[], text, rfl, h, rfl⟩
  | cons x xs ih =>
    have h2 : template (x :: (xs ++ ys)) = .ok text := h
    cases hx : x.eval with
    | error e => simp [template, hx] at h2
    | ok c =>
      cases hr : template (xs ++ ys) with
      | error e => simp [template, hx, hr] at h2
      | ok r =>
        obtain ⟨a, b, ha, hb, hab⟩ := ih r hr
        refine ⟨c ++ a, b, ?_, hb, ?_⟩
        · simp [template, hx, ha]
        · simp only [template, hx, hr, Except.ok.injEq] at h2
          rw [← h2, hab, List.append_assoc]

theorem template_slice (parts : List Chunk) (text : JSString) (k n : Nat)
    (h : template parts = .ok text) :
    ∃ m, template ((parts.drop k).take n) = .ok m ∧ m <:+: text := by
  rw [← List.take_append_drop k parts] at h
  obtain ⟨a, b, _, hb, hab⟩ := template_append_ok _ _ text h
  rw [← List.take_append_drop n (parts.drop k)] at hb
  obtain ⟨m, c, hm, _, hmc⟩ := template_append_ok _ _ b hb
  exact ⟨m, hm, a, c, by rw [hab, hmc, List.append_assoc]⟩

theorem row_within (parts : List Chunk) (text : JSString) (k : Nat)
    (start : String) (value : Except JSError JSString) (shown : JSString)
    (h : template parts = .ok text)
    (hk : (parts.drop k).take 3 = [.lit start, .sub value, .lit "</p>"])
    (hv : value = .ok shown) :
    (u start ++ shown ++ u "</p>") <:+: text := by
  obtain ⟨m, hm, hin⟩ := template_slice parts text k 3 h
  rw [hk, hv] at hm
  simp only [template, Chunk.eval, Except.ok.injEq] at hm
  rw [← hm] at hin
  simpa using hin

theorem orderChunks_row (P : Platform F) (order : JSValue F) (f : OrderField) :
    ((orderChunks P order).drop f.position).take 3 =
      [.lit f.rowStart, .sub (f.substitution P order), .lit "</p>"] := by
  cases f <;> rfl

theorem substitution_undefined (P : Platform F) (order : JSValue F) (f : OrderField)
    (h : f.read P order = .ok none) : f.substitution P order = .ok (u "undefined") := by
  cases f <;>
    simp only [OrderField.read, OrderField.parent, OrderField.key] at h <;>
    simp only [OrderField.substitution, OrderField.parent, OrderField.key, field, nestedField]
  all_goals first
    | (rw [h]; rfl)
    | (split at h
       · exact absurd h (by simp)
       · rw [h]
         rfl)

theorem itemChunks_row (P : Platform F) (item : JSValue F) (f : ItemField) :
    ((itemChunks P item).drop f.position).take 3 =
      [.lit f.rowStart, .sub (itemField P item f.key), .lit "</p>"] := by
  cases f <;> rfl

theorem entry_of_item (P : Platform F) (items : List (JSValue F)) (entries : List JSString)
    (h : List.Forall₂ (fun item entry => itemEntry P item = .ok entry) items entries) :
    ∀ item, item ∈ items → ∃ entry, itemEntry P item = .ok entry ∧ entry ∈ entries := by
  induction h with
  | nil =>
    intro item hmem
    exact absurd hmem (List.not_mem_nil _)
  | cons hab _ ih =>
    intro item hmem
    rcases List.mem_cons.1 hmem with heq | hrest
    · exact ⟨_, heq ▸ hab, List.mem_cons_self _ _⟩
    · obtain ⟨entry, h1, h2⟩ := ih item hrest
      exact ⟨entry, h1, List.mem_cons_of_mem _ h2⟩

theorem renderHtml_ok (P : Platform F) (order : JSValue F) (html : JSString)
    (h : renderHtml P order = .ok html) :
    ∃ sections, orderSections P order = .ok sections ∧ sections <:+: html ∧
      ∀ items, getProp P (u "order") (some order) (u "items") = .ok (some (.arr items)) →
        items ≠ [] → ∃ text, itemsSection P items = .ok text ∧ html = sections ++ text := by
  cases hs : orderSections P order with
  | error e => simp [renderHtml, hs] at h
  | ok sections =>
    refine ⟨sections, rfl, ?_, ?_⟩
    · simp only [renderHtml, hs] at h
      split at h
      · exact absurd h (by simp)
      · split at h
        · exact absurd h (by simp)
        · simp only [Except.ok.injEq] at h
          subst h
          exact ⟨[], [], List.append_nil _⟩
        · split at h
          · exact absurd h (by simp)
          · simp only [Except.ok.injEq] at h
            subst h
            exact ⟨[], _, rfl⟩
    · intro items hi hne
      cases items with
      | nil => exact absurd rfl hne
      | cons item rest =>
        cases hsec : itemsSection P (item :: rest) with
        | error e => simp [renderHtml, hs, hi, itemsToRender, hsec] at h
        | ok text =>
          refine ⟨text, rfl, ?_⟩
          simp only [renderHtml, hs, hi, itemsToRender, hsec, Except.ok.injEq] at h
          exact h.symm

/-- Claim C9 fails: the record `\x7b\x7d`, in which every field is missing, is not
rendered at all (reading `name` off the missing delivery record throws, and the
page shows that error instead of a result); and in `sampleOrder`, where the
creation timestamp is missing, its row reads "Invalid Date". -/
theorem missing_fields_not_all_undefined :
    jsonParse refPlatform (u "\x7b\x7d") = some (.obj []) ∧
    renderHtml refPlatform (.obj []) =
      .error ⟨u "Cannot read properties of undefined (reading \'name\')"⟩ ∧
    (complete refPlatform (.response 200 (u "\x7b\x7d")) initialWorld.ui).resultHidden = true ∧
    (complete refPlatform (.response 200 (u "\x7b\x7d")) initialWorld.ui).errorText =
      u "Cannot read properties of undefined (reading \'name\')" ∧
    sampleOrder_props.lookup (u "date_created") = none ∧
    u "<strong>Date Created:</strong> Invalid Date</p>" <:+: sampleHtml :=
  ⟨rfl, rfl, by decide, by decide, rfl, by decide!⟩

theorem template_parts_ok (parts : List Chunk) (text : JSString)
    (h : template parts = .ok text) : ∀ p ∈ parts, ∃ a, p.eval = .ok a := by
  induction parts generalizing text with
  | nil =>
    intro p hp
    exact absurd hp (List.not_mem_nil _)
  | cons x xs ih =>
    cases hx : x.eval with
    | error e => simp [template, hx] at h
    | ok c =>
      cases hr : template xs with
      | error e => simp [template, hx, hr] at h
      | ok r =>
        intro p hp
        rcases List.mem_cons.1 hp with rfl | hp
        · exact ⟨c, hx⟩
        · exact ih r hr p hp

/-- Claim C9, amended: for every successful response record whose rendering
completes, the delivery and payment records are there, and every field shown
by plain substitution that is missing (the five text fields of the order, the
seven of the delivery record, the eight of the payment record other than its
timestamp, and the six of each item) is rendered as the literal text
"undefined" in its row; a missing creation timestamp or payment timestamp is
rendered as "Invalid Date", and a missing item sequence gives no Items section. -/
theorem missing_field_rendering (P : Platform F) (order : JSValue F) (html : JSString)
    (h : renderHtml P order = .ok html) :
    (getProp P (u "order") (some order) (u "delivery") ≠ .ok none ∧
      getProp P (u "order") (some order) (u "payment") ≠ .ok none) ∧
    (∀ f : OrderField, f.read P order = .ok none → f.undefinedRow <:+: html) ∧
    (getProp P (u "order") (some order) (u "date_created") = .ok none →
      (u "\n                <p><strong>Date Created:</strong> " ++ u "Invalid Date" ++ u "</p>")
        <:+: html) ∧
    ((∃ payment, getProp P (u "order") (some order) (u "payment") = .ok payment ∧
        getProp P (u "order.payment") payment (u "payment_dt") = .ok none) →
      (u "\n                <p><strong>Payment Date:</strong> " ++ u "Invalid Date" ++ u "</p>")
        <:+: html) ∧
    (∀ (items : List (JSValue F)) (item : JSValue F) (f : ItemField),
      getProp P (u "order") (some order) (u "items") = .ok (some (.arr items)) →
      item ∈ items → getProp P (u "item") (some item) (u f.key) = .ok none →
      ∃ entry, itemEntry P item = .ok entry ∧ entry <:+: html ∧ f.undefinedRow <:+: entry) ∧
    (getProp P (u "order") (some order) (u "items") = .ok none →
      orderSections P order = .ok html) := by
  obtain ⟨sections, hs, hin, hitems⟩ := renderHtml_ok P order html h
  refine ⟨⟨fun hd => ?_, fun hp => ?_⟩, fun f hf => ?_, fun hd => ?_, fun hp => ?_,
    fun items item f hi hmem hf => ?_, fun hi => ?_⟩
  · obtain ⟨a, ha⟩ := template_parts_ok _ sections hs
      (.sub (nestedField P order "delivery" "name")) (by simp [orderChunks])
    rw [Chunk.eval, nestedField, hd] at ha
    simp [getProp] at ha
  · obtain ⟨a, ha⟩ := template_parts_ok _ sections hs
      (.sub (nestedField P order "payment" "transaction")) (by simp [orderChunks])
    rw [Chunk.eval, nestedField, hp] at ha
    simp [getProp] at ha
  · exact (row_within _ sections f.position f.rowStart _ _ hs (orderChunks_row P order f)
      (substitution_undefined P order f hf)).trans hin
  · refine (row_within _ sections 16 _ (dateCreated P order) _ hs rfl ?_).trans hin
    simp [dateCreated, hd]
  · obtain ⟨payment, hp1, hp2⟩ := hp
    refine (row_within _ sections 54 _ (paymentDate P order) _ hs rfl ?_).trans hin
    simp [paymentDate, hp1, hp2]
  · have hne : items ≠ [] := List.ne_nil_of_mem hmem
    obtain ⟨text, ht, hhtml⟩ := hitems items hi hne
    obtain ⟨entries, he, htext⟩ := itemsSection_ok P items text ht
    have hf2 := itemEntries_forall₂ P items entries he
    obtain ⟨entry, hentry, hmem2⟩ := entry_of_item P items entries hf2 item hmem
    refine ⟨entry, hentry, ?_, ?_⟩
    · obtain ⟨a, b, hab⟩ : entry <:+: entries.flatten := List.infix_of_mem_flatten hmem2
      refine ⟨sections ++ (u "\n                <div class=\"section\">\n                    <h3 class=\"section-title\">Items (" ++ decimal items.length ++ u ")</h3>\n                    ") ++ a,
        b ++ u "\n                </div>\n            ", ?_⟩
      rw [hhtml, htext, ← hab]
      simp only [List.append_assoc]
    · refine row_within _ entry f.position f.rowStart _ _ hentry (itemChunks_row P item f) ?_
      simp [itemField, hf, interp]
  · rw [hs]
    simp only [renderHtml, hs, hi, itemsToRender, Except.ok.injEq] at h
    rw [h]

theorem missing_field_rendering_witness :
    OrderField.customer_id.read refPlatform sampleOrder = .ok none ∧
    OrderField.customer_id.undefinedRow =
      u "\n                <p><strong>Customer ID:</strong> undefined</p>" ∧
    OrderField.customer_id.undefinedRow <:+: sampleHtml :=
  ⟨rfl, by decide,
    (missing_field_rendering refPlatform sampleOrder sampleHtml renderHtml_sample).2.1
      .customer_id rfl⟩

/-! ### Counting the sections of the formatted view -/

theorem isPrefixOf_append_cases (pat : JSString) :
    ∀ x r : JSString, pat.isPrefixOf (x ++ r) = true →
      pat.isPrefixOf x = true ∨ x.isPrefixOf pat = true := by
  induction pat with
  | nil => intro x r _; exact Or.inl (by simp [List.isPrefixOf])
  | cons p ps ih =>
    intro x r h
    cases x with
    | nil => exact Or.inr (by simp [List.isPrefixOf])
    | cons y ys =>
      simp only [List.cons_append, List.isPrefixOf, Bool.and_eq_true, beq_iff_eq] at h ⊢
      rcases ih ys r h.2 with h1 | h1
      · exact Or.inl ⟨h.1, h1⟩
      · exact Or.inr ⟨h.1.symm, h1⟩

theorem isPrefixOf_append_right (pat : JSString) :
    ∀ x r : JSString, pat.isPrefixOf x = true → pat.isPrefixOf (x ++ r) = true := by
  induction pat with
  | nil => intro x r _; simp [List.isPrefixOf]
  | cons p ps ih =>
    intro x r h
    cases x with
    | nil => simp [List.isPrefixOf] at h
    | cons y ys =>
      simp only [List.cons_append, List.isPrefixOf, Bool.and_eq_true, beq_iff_eq] at h ⊢
      exact ⟨h.1, ih ys r h.2⟩

theorem occurrences_cons (pat : JSString) (c : Nat) (t : JSString) :
    occurrences pat (c :: t) =
      (if pat.isPrefixOf (c :: t) then 1 else 0) + occurrences pat t := rfl

theorem literalCount_sound (pat : JSString) (text : JSString) :
    ∀ k, literalCount pat text = some k →
      ∀ rest, occurrences pat (text ++ rest) = k + occurrences pat rest := by
  induction text with
  | nil =>
    intro k h rest
    simp only [literalCount, Option.some.injEq] at h
    simp [← h]
  | cons c t ih =>
    intro k h rest
    simp only [literalCount] at h
    by_cases h1 : pat.isPrefixOf (c :: t) = true
    · rw [if_pos h1] at h
      cases hk : literalCount pat t with
      | none => simp [hk] at h
      | some k1 =>
        simp only [hk, Option.some.injEq] at h
        have h2 := isPrefixOf_append_right pat (c :: t) rest h1
        simp only [List.cons_append] at h2
        rw [List.cons_append, occurrences_cons, h2, if_pos rfl, ih k1 hk rest, ← h]
        omega
    · rw [if_neg h1] at h
      by_cases h3 : (c :: t).isPrefixOf pat = true
      · rw [if_pos h3] at h
        exact absurd h (by simp)
      · rw [if_neg h3] at h
        have h2 : pat.isPrefixOf (c :: (t ++ rest)) = false := by
          cases h4 : pat.isPrefixOf (c :: (t ++ rest)) with
          | false => rfl
          | true =>
            rcases isPrefixOf_append_cases pat (c :: t) rest h4 with h5 | h5
            · exact absurd h5 h1
            · exact absurd h5 h3
        rw [List.cons_append, occurrences_cons, h2, ih k h rest]
        simp

theorem occurrences_plain (pat : JSString) (hpat : pat.head? = some 60) (v : JSString)
    (hv : 60 ∉ v) : ∀ rest, occurrences pat (v ++ rest) = occurrences pat rest := by
  induction v with
  | nil => intro rest; rfl
  | cons c t ih =>
    intro rest
    have hc : c ≠ 60 := fun h => hv (by simp [h])
    have ht : 60 ∉ t := fun h => hv (by simp [h])
    have h2 : pat.isPrefixOf (c :: (t ++ rest)) = false := by
      cases pat with
      | nil => simp at hpat
      | cons p ps =>
        simp only [List.head?_cons, Option.some.injEq] at hpat
        subst hpat
        simp [List.isPrefixOf, Ne.symm hc]
    rw [List.cons_append, occurrences_cons, h2, ih ht rest]
    simp

theorem chunksCount_sound (pat : JSString) (hpat : pat.head? = some 60) (chunks : List Chunk) :
    ∀ text k, template chunks = .ok text → chunksCount pat chunks = some k →
      PlainValues chunks →
      ∀ rest, occurrences pat (text ++ rest) = k + occurrences pat rest := by
  induction chunks with
  | nil =>
    intro text k ht hk _ rest
    simp only [template, Except.ok.injEq] at ht
    simp only [chunksCount, Option.some.injEq] at hk
    simp [← ht, ← hk]
  | cons c cs ih =>
    intro text k ht hk hp rest
    have hp2 : PlainValues cs := fun value text hmem hval =>
      hp value text (List.mem_cons_of_mem _ hmem) hval
    cases hc : c.eval with
    | error e => simp [template, hc] at ht
    | ok a =>
      cases hr : template cs with
      | error e => simp [template, hc, hr] at ht
      | ok b =>
        simp only [template, hc, hr, Except.ok.injEq] at ht
        subst ht
        cases c with
        | lit s =>
          simp only [Chunk.eval, Except.ok.injEq] at hc
          simp only [chunksCount] at hk
          cases h1 : literalCount pat (u s) with
          | none => simp [h1] at hk
          | some k1 =>
            cases h2 : chunksCount pat cs with
            | none => simp [h1, h2] at hk
            | some k2 =>
              simp only [h1, h2, Option.some.injEq] at hk
              rw [List.append_assoc, ← hc, literalCount_sound _ _ k1 h1, ih b k2 hr h2 hp2]
              omega
        | sub value =>
          simp only [Chunk.eval] at hc
          simp only [chunksCount] at hk
          have hplain : 60 ∉ a := hp value a (List.mem_cons_self _ _) hc
          rw [List.append_assoc, occurrences_plain pat hpat a hplain, ih b k hr hk hp2]

theorem itemsTitleMark_head : itemsTitleMark.head? = some 60 := rfl

theorem entryMark_head : entryMark.head? = some 60 := rfl

theorem chunksCount_order_title (P : Platform F) (order : JSValue F) :
    chunksCount itemsTitleMark (orderChunks P order) = some 0 := by
  rfl

theorem chunksCount_order_entry (P : Platform F) (order : JSValue F) :
    chunksCount entryMark (orderChunks P order) = some 0 := by
  rfl

theorem chunksCount_item_title (P : Platform F) (item : JSValue F) :
    chunksCount itemsTitleMark (itemChunks P item) = some 0 := by
  rfl

theorem chunksCount_item_entry (P : Platform F) (item : JSValue F) :
    chunksCount entryMark (itemChunks P item) = some 1 := by
  rfl

theorem digitChar_plain (d : Nat) (h : d < 10) : (Nat.digitChar d).toNat ≠ 60 := by
  interval_cases d <;> decide

theorem toDigitsCore_plain (fuel : Nat) :
    ∀ (n : Nat) (ds : List Char), (∀ c ∈ ds, c.toNat ≠ 60) →
      ∀ c ∈ Nat.toDigitsCore 10 fuel n ds, c.toNat ≠ 60 := by
  induction fuel with
  | zero =>
    intro n ds h c hc
    exact h c hc
  | succ f ih =>
    intro n ds h c hc
    have hds : ∀ c ∈ Nat.digitChar (n % 10) :: ds, c.toNat ≠ 60 := by
      intro x hx
      rcases List.mem_cons.1 hx with rfl | hx
      · exact digitChar_plain _ (Nat.mod_lt _ (by decide))
      · exact h x hx
    simp only [Nat.toDigitsCore] at hc
    split at hc
    · exact hds c hc
    · exact ih _ _ hds c hc

theorem decimal_plain (n : Nat) : 60 ∉ decimal n := by
  intro h
  obtain ⟨c, hc, hc60⟩ := List.mem_map.1 h
  exact toDigitsCore_plain _ n [] (fun _ hx => absurd hx (List.not_mem_nil _)) c hc hc60

theorem occurrences_nil_right (pat text : JSString) (k : Nat)
    (h : ∀ rest, occurrences pat (text ++ rest) = k + occurrences pat rest) :
    occurrences pat text = k := by
  have := h []
  simpa [occurrences] using this

theorem occurrences_entries (pat : JSString) (hpat : pat.head? = some 60) (P : Platform F)
    (k : Nat) (items : List (JSValue F)) (entries : List JSString)
    (hf : List.Forall₂ (fun item entry => itemEntry P item = .ok entry) items entries) :
    (∀ item ∈ items, chunksCount pat (itemChunks P item) = some k) →
    (∀ item ∈ items, PlainValues (itemChunks P item)) →
    ∀ rest, occurrences pat (entries.flatten ++ rest) =
      items.length * k + occurrences pat rest := by
  induction hf with
  | nil =>
    intro _ _ rest
    simp
  | cons hab _ ih =>
    intro hk hp rest
    rename_i item entry items1 entries1 _
    have h1 := chunksCount_sound pat hpat (itemChunks P item) entry k hab
      (hk item (List.mem_cons_self _ _)) (hp item (List.mem_cons_self _ _))
    have h2 := ih (fun i hi => hk i (List.mem_cons_of_mem _ hi))
      (fun i hi => hp i (List.mem_cons_of_mem _ hi)) rest
    rw [List.flatten_cons, List.append_assoc, h1, h2, List.length_cons, Nat.add_mul]
    omega

theorem occurrences_itemsSection (pat : JSString) (hpat : pat.head? = some 60)
    (P : Platform F) (a b c k : Nat)
    (items : List (JSValue F)) (text : JSString) (h : itemsSection P items = .ok text)
    (ha : literalCount pat
      (u "\n                <div class=\"section\">\n                    <h3 class=\"section-title\">Items (")
      = some a)
    (hb : literalCount pat (u ")</h3>\n                    ") = some b)
    (hc : literalCount pat (u "\n                </div>\n            ") = some c)
    (hk : ∀ item ∈ items, chunksCount pat (itemChunks P item) = some k)
    (hp : ∀ item ∈ items, PlainValues (itemChunks P item)) :
    occurrences pat text = a + b + c + items.length * k := by
  obtain ⟨entries, he, ht⟩ := itemsSection_ok P items text h
  have hf := itemEntries_forall₂ P items entries he
  apply occurrences_nil_right
  intro rest
  rw [ht]
  simp only [List.append_assoc]
  rw [literalCount_sound _ _ a ha, occurrences_plain pat hpat _ (decimal_plain _),
    literalCount_sound _ _ b hb, occurrences_entries pat hpat P k items entries hf hk hp,
    literalCount_sound _ _ c hc]
  omega

/-- The sections of the formatted view, counted in its text, when no field
value holds a `<`: without items the title of the Items section and the opening
of an item entry do not occur; with N >= 1 items the title occurs once and the
opening of an entry N times. -/
theorem renderHtml_counts (P : Platform F) (props : List (JSString × JSValue F))
    (html : JSString) (h : renderHtml P (.obj props) = .ok html)
    (hplain : PlainValues (orderChunks P (.obj props)))
    (hitems : ∀ items, props.lookup (u "items") = some (.arr items) →
      ∀ item ∈ items, PlainValues (itemChunks P item)) :
    ((props.lookup (u "items") = none ∨ props.lookup (u "items") = some .null ∨
        props.lookup (u "items") = some (.arr [])) →
      occurrences itemsTitleMark html = 0 ∧ occurrences entryMark html = 0) ∧
    (∀ items, props.lookup (u "items") = some (.arr items) → items ≠ [] →
      occurrences itemsTitleMark html = 1 ∧ occurrences entryMark html = items.length) := by
  obtain ⟨sections, hs, _, hsec⟩ := renderHtml_ok P (.obj props) html h
  have c1 := chunksCount_sound itemsTitleMark itemsTitleMark_head
    (orderChunks P (.obj props)) sections 0 hs (chunksCount_order_title P (.obj props)) hplain
  have c2 := chunksCount_sound entryMark entryMark_head
    (orderChunks P (.obj props)) sections 0 hs (chunksCount_order_entry P (.obj props)) hplain
  refine ⟨fun hnone => ?_, fun items hi hne => ?_⟩
  · have hhtml : html = sections := by
      rcases hnone with hi | hi | hi <;>
        simpa [renderHtml, hs, getProp, hi, itemsToRender] using h.symm
    rw [hhtml]
    exact ⟨occurrences_nil_right _ _ 0 c1, occurrences_nil_right _ _ 0 c2⟩
  · obtain ⟨text, ht, hhtml⟩ := hsec items (by simp [getProp, hi]) hne
    have t1 := occurrences_itemsSection itemsTitleMark itemsTitleMark_head P 1 0 0 0 items text
      ht rfl rfl rfl (fun item _ => chunksCount_item_title P item) (hitems items hi)
    have t2 := occurrences_itemsSection entryMark entryMark_head P 0 0 0 1 items text
      ht rfl rfl rfl (fun item _ => chunksCount_item_entry P item) (hitems items hi)
    rw [hhtml, c1, c2, t1, t2]
    simp

theorem renderHtml_counts_sample :
    occurrences itemsTitleMark sampleHtml = 1 ∧ occurrences entryMark sampleHtml = 2 := by
  decide!


/-! ### The raw view read back -/

/-! ### Strings survive quoting -/

theorem hexVal_hexDigit (d : Nat) (h : d < 16) : hexVal (hexDigit d) = some d := by
  interval_cases d <;> rfl

theorem parseStringBody_raw (c : Nat) (t : JSString) (h1 : c ≠ 34) (h2 : c ≠ 92)
    (h3 : 32 ≤ c) :
    parseStringBody (c :: t) =
      match parseStringBody t with
      | some (s, r) => some (c :: s, r)
      | none => none := by
  have h4 : ¬ c < 32 := by omega
  rw [parseStringBody.eq_def]
  simp [h1, h2, h4]

theorem parseStringBody_unicodeEscape (c : Nat) (t : JSString) (h : c < 65536) :
    parseStringBody (unicodeEscape c ++ t) =
      match parseStringBody t with
      | some (s, r) => some (c :: s, r)
      | none => none := by
  have e1 := hexVal_hexDigit (c / 4096 % 16) (Nat.mod_lt _ (by decide))
  have e2 := hexVal_hexDigit (c / 256 % 16) (Nat.mod_lt _ (by decide))
  have e3 := hexVal_hexDigit (c / 16 % 16) (Nat.mod_lt _ (by decide))
  have e4 := hexVal_hexDigit (c % 16) (Nat.mod_lt _ (by decide))
  have e5 : c / 4096 % 16 * 4096 + c / 256 % 16 * 256 + c / 16 % 16 * 16 + c % 16 = c := by
    omega
  show parseStringBody (92 :: 117 :: hexDigit (c / 4096 % 16) :: hexDigit (c / 256 % 16) ::
    hexDigit (c / 16 % 16) :: hexDigit (c % 16) :: t) = _
  rw [parseStringBody.eq_def]
  simp [e1, e2, e3, e4, e5]

theorem parseStringBody_quoteUnit (c : Nat) (t : JSString)
    (h : c < 65536 ∨ 32 ≤ c) :
    parseStringBody (quoteUnit c ++ t) =
      match parseStringBody t with
      | some (s, r) => some (c :: s, r)
      | none => none := by
  unfold quoteUnit
  by_cases h8 : c = 8
  · subst h8
    show parseStringBody (92 :: _ :: t) = _
    rw [parseStringBody.eq_def]
    simp [simpleEscape]
  by_cases h9 : c = 9
  · subst h9
    show parseStringBody (92 :: _ :: t) = _
    rw [parseStringBody.eq_def]
    simp [simpleEscape]
  by_cases h10 : c = 10
  · subst h10
    show parseStringBody (92 :: _ :: t) = _
    rw [parseStringBody.eq_def]
    simp [simpleEscape]
  by_cases h12 : c = 12
  · subst h12
    show parseStringBody (92 :: _ :: t) = _
    rw [parseStringBody.eq_def]
    simp [simpleEscape]
  by_cases h13 : c = 13
  · subst h13
    show parseStringBody (92 :: _ :: t) = _
    rw [parseStringBody.eq_def]
    simp [simpleEscape]
  by_cases h34 : c = 34
  · subst h34
    show parseStringBody (92 :: _ :: t) = _
    rw [parseStringBody.eq_def]
    simp [simpleEscape]
  by_cases h92 : c = 92
  · subst h92
    show parseStringBody (92 :: _ :: t) = _
    rw [parseStringBody.eq_def]
    simp [simpleEscape]
  by_cases hlt : c < 32
  · simp only [beq_iff_eq, h8, h9, h10, h12, h13, h34, h92, hlt, if_false, if_true]
    exact parseStringBody_unicodeEscape c t (by omega)
  · simp only [beq_iff_eq, h8, h9, h10, h12, h13, h34, h92, hlt, if_false]
    exact parseStringBody_raw c t h34 h92 (by omega)

theorem parseStringBody_quoteUnits (s : JSString) :
    ∀ (afterLeading : Bool) (rest : JSString),
      parseStringBody (quoteUnits afterLeading s ++ 34 :: rest) = some (s, rest) := by
  induction s with
  | nil =>
    intro _ rest
    show parseStringBody (34 :: rest) = _
    rw [parseStringBody.eq_def]
    simp
  | cons c s ih =>
    intro afterLeading rest
    have key : ∀ (enc : JSString) (b : Bool),
        (∀ t, parseStringBody (enc ++ t) =
          match parseStringBody t with
          | some (s, r) => some (c :: s, r)
          | none => none) →
        parseStringBody (enc ++ quoteUnits b s ++ 34 :: rest) = some (c :: s, rest) := by
      intro enc b henc
      rw [List.append_assoc, henc, ih]
    unfold quoteUnits
    by_cases hl : isLeadingSurrogate c = true
    · have hc : 0xD800 ≤ c ∧ c ≤ 0xDBFF := by simpa [isLeadingSurrogate] using hl
      simp only [hl, if_true]
      split
      · exact key [c] _ (fun t => parseStringBody_raw c t (by omega) (by omega) (by omega))
      · exact key _ _ (fun t => parseStringBody_unicodeEscape c t (by omega))
    · simp only [hl, if_false]
      by_cases ht : isTrailingSurrogate c = true
      · have hc : 0xDC00 ≤ c ∧ c ≤ 0xDFFF := by simpa [isTrailingSurrogate] using ht
        simp only [ht, if_true]
        cases afterLeading with
        | true =>
          simp only [if_true]
          exact key [c] _ (fun t => parseStringBody_raw c t (by omega) (by omega) (by omega))
        | false =>
          simp only [Bool.false_eq_true, if_false]
          exact key _ _ (fun t => parseStringBody_unicodeEscape c t (by omega))
      · simp only [ht, if_false]
        refine key _ _ (fun t => parseStringBody_quoteUnit c t ?_)
        omega

/-! ### Number tokens -/

theorem isNumberChar_of_isDigit (c : Nat) (h : isDigit c = true) : isNumberChar c = true := by
  simp [isNumberChar, h]

theorem chars_of_digits_then (s : JSString) (h : ∀ c ∈ s.dropWhile isDigit, isNumberChar c = true) :
    ∀ c ∈ s, isNumberChar c = true := by
  intro c hc
  rw [← List.takeWhile_append_dropWhile isDigit s] at hc
  rcases List.mem_append.1 hc with h1 | h1
  · exact isNumberChar_of_isDigit c (List.mem_takeWhile_imp h1)
  · exact h c h1

theorem isExponentPart_chars (s : JSString) (h : isExponentPart s = true) :
    ∀ c ∈ s, isNumberChar c = true := by
  cases s with
  | nil => intro c hc; exact absurd hc (List.not_mem_nil _)
  | cons e r =>
    simp only [isExponentPart, Bool.and_eq_true, Bool.or_eq_true, beq_iff_eq] at h
    obtain ⟨he, hr⟩ := h
    cases r with
    | nil => simp at hr
    | cons c r1 =>
      have hall : ∀ x ∈ c :: r1, isNumberChar x = true := by
        dsimp only at hr
        by_cases hs : c = 43 ∨ c = 45
        · rw [if_pos hs] at hr
          simp only [Bool.and_eq_true, List.all_eq_true] at hr
          intro x hx
          rcases List.mem_cons.1 hx with rfl | hx
          · rcases hs with rfl | rfl <;> decide
          · exact isNumberChar_of_isDigit x (hr.2 x hx)
        · rw [if_neg hs] at hr
          simp only [List.all_eq_true] at hr
          intro x hx
          exact isNumberChar_of_isDigit x (hr x hx)
      intro x hx
      rcases List.mem_cons.1 hx with rfl | hx
      · rcases he with rfl | rfl <;> decide
      · exact hall x hx

theorem isFractionPart_chars (s : JSString) (h : isFractionPart s = true) :
    ∀ c ∈ s, isNumberChar c = true := by
  cases s with
  | nil => intro c hc; exact absurd hc (List.not_mem_nil _)
  | cons c r =>
    simp only [isFractionPart] at h
    by_cases hc : (c == 46) = true
    · simp only [hc, if_true, Bool.and_eq_true] at h
      intro x hx
      rcases List.mem_cons.1 hx with rfl | hx
      · simp only [beq_iff_eq] at hc
        subst hc
        decide
      · exact chars_of_digits_then r (isExponentPart_chars _ h.2) x hx
    · simp only [hc] at h
      exact isExponentPart_chars _ h

theorem isIntegerPart_chars (s : JSString) (h : isIntegerPart s = true) :
    (∀ c ∈ s, isNumberChar c = true) ∧ ∃ c t, s = c :: t ∧ isDigit c = true := by
  cases s with
  | nil => simp [isIntegerPart] at h
  | cons c r =>
    simp only [isIntegerPart] at h
    by_cases h0 : (c == 48) = true
    · simp only [h0, if_true] at h
      simp only [beq_iff_eq] at h0
      subst h0
      refine ⟨?_, 48, r, rfl, by decide⟩
      intro x hx
      rcases List.mem_cons.1 hx with rfl | hx
      · decide
      · exact isFractionPart_chars r h x hx
    · simp only [h0] at h
      by_cases h1 : (49 ≤ c && c ≤ 57) = true
      · simp only [h1, if_true] at h
        have hd : isDigit c = true := by
          simp only [Bool.and_eq_true, decide_eq_true_eq] at h1
          simp only [isDigit, Bool.and_eq_true, decide_eq_true_eq]
          omega
        refine ⟨?_, c, r, rfl, hd⟩
        intro x hx
        rcases List.mem_cons.1 hx with rfl | hx
        · exact isNumberChar_of_isDigit _ hd
        · exact chars_of_digits_then r (isFractionPart_chars _ h) x hx
      · simp [h1] at h

theorem isNumberToken_chars (s : JSString) (h : isNumberToken s = true) :
    (∀ c ∈ s, isNumberChar c = true) ∧
      ∃ c t, s = c :: t ∧ (isDigit c = true ∨ c = 45) := by
  cases s with
  | nil => simp [isNumberToken] at h
  | cons c r =>
    simp only [isNumberToken] at h
    by_cases hm : (c == 45) = true
    · simp only [hm, if_true] at h
      simp only [beq_iff_eq] at hm
      subst hm
      refine ⟨?_, 45, r, rfl, Or.inr rfl⟩
      intro x hx
      rcases List.mem_cons.1 hx with rfl | hx
      · decide
      · exact (isIntegerPart_chars r h).1 x hx
    · simp only [hm] at h
      obtain ⟨h1, c1, t1, h2, h3⟩ := isIntegerPart_chars (c :: r) h
      exact ⟨h1, c1, t1, h2, Or.inl h3⟩

/-! ### Reading back what was written -/

theorem u_null : u "null" = [110, 117, 108, 108] := rfl
theorem u_true : u "true" = [116, 114, 117, 101] := rfl
theorem u_false : u "false" = [102, 97, 108, 115, 101] := rfl

theorem not_prefix_null (c : Nat) (r : JSString) (h : c ≠ 110) :
    (u "null").isPrefixOf (c :: r) = false := by
  rw [u_null]
  simp [List.isPrefixOf, Ne.symm h]

theorem not_prefix_true (c : Nat) (r : JSString) (h : c ≠ 116) :
    (u "true").isPrefixOf (c :: r) = false := by
  rw [u_true]
  simp [List.isPrefixOf, Ne.symm h]

theorem not_prefix_false (c : Nat) (r : JSString) (h : c ≠ 102) :
    (u "false").isPrefixOf (c :: r) = false := by
  rw [u_false]
  simp [List.isPrefixOf, Ne.symm h]

theorem skipSpace_spaces (ws t : JSString) (h : ∀ c ∈ ws, isJsonSpace c = true) :
    skipSpace (ws ++ t) = skipSpace t := by
  simp only [skipSpace]
  exact List.dropWhile_append_of_pos h

theorem skipSpace_cons (c : Nat) (t : JSString) (h : isJsonSpace c = false) :
    skipSpace (c :: t) = c :: t := by
  simp [skipSpace, h]

theorem parseValue_null (P : Platform F) (fuel : Nat) (ws rest : JSString)
    (hws : ∀ c ∈ ws, isJsonSpace c = true) :
    parseValue P (fuel + 1) (ws ++ u "null" ++ rest) = some (.null, rest) := by
  rw [parseValue, List.append_assoc, skipSpace_spaces _ _ hws, u_null]
  rw [show [110, 117, 108, 108] ++ rest = 110 :: 117 :: 108 :: 108 :: rest from rfl,
    skipSpace_cons _ _ (by decide)]
  simp [List.isPrefixOf]

theorem parseValue_true (P : Platform F) (fuel : Nat) (ws rest : JSString)
    (hws : ∀ c ∈ ws, isJsonSpace c = true) :
    parseValue P (fuel + 1) (ws ++ u "true" ++ rest) = some (.bool true, rest) := by
  rw [parseValue, List.append_assoc, skipSpace_spaces _ _ hws, u_true, u_null]
  rw [show [116, 114, 117, 101] ++ rest = 116 :: 114 :: 117 :: 101 :: rest from rfl,
    skipSpace_cons _ _ (by decide)]
  simp [List.isPrefixOf]

theorem parseValue_false (P : Platform F) (fuel : Nat) (ws rest : JSString)
    (hws : ∀ c ∈ ws, isJsonSpace c = true) :
    parseValue P (fuel + 1) (ws ++ u "false" ++ rest) = some (.bool false, rest) := by
  rw [parseValue, List.append_assoc, skipSpace_spaces _ _ hws, u_true, u_null, u_false]
  rw [show [102, 97, 108, 115, 101] ++ rest = 102 :: 97 :: 108 :: 115 :: 101 :: rest from rfl,
    skipSpace_cons _ _ (by decide)]
  simp [List.isPrefixOf]

theorem parseValue_str (P : Platform F) (fuel : Nat) (ws rest s : JSString)
    (hws : ∀ c ∈ ws, isJsonSpace c = true) :
    parseValue P (fuel + 1) (ws ++ quoteJSONString s ++ rest) = some (.str s, rest) := by
  rw [parseValue, List.append_assoc, skipSpace_spaces _ _ hws]
  rw [show quoteJSONString s ++ rest = 34 :: (quoteUnits false s ++ 34 :: rest) by
    simp [quoteJSONString], skipSpace_cons _ _ (by decide)]
  simp [parseStringBody_quoteUnits]

theorem parseValue_num (P : Platform F) (fuel : Nat) (ws rest : JSString) (x : F)
    (hws : ∀ c ∈ ws, isJsonSpace c = true) (hx : Restorable P x)
    (hrest : ∀ c t, rest = c :: t → isNumberChar c = false) :
    parseValue P (fuel + 1) (ws ++ P.numberToString x ++ rest) = some (.num x, rest) := by
  obtain ⟨_, htok, hval⟩ := hx
  obtain ⟨hchars, c, t, hct, hc⟩ := isNumberToken_chars _ htok
  have htake : (P.numberToString x ++ rest).takeWhile isNumberChar = P.numberToString x := by
    rw [List.takeWhile_append_of_pos hchars]
    cases rest with
    | nil => simp
    | cons d r => simp [hrest d r rfl]
  have hdrop : (P.numberToString x ++ rest).dropWhile isNumberChar = rest := by
    rw [List.dropWhile_append_of_pos hchars]
    cases rest with
    | nil => simp
    | cons d r => simp [hrest d r rfl]
  have hsp : isJsonSpace c = false := by
    rcases hc with hd | rfl
    · simp only [isDigit, Bool.and_eq_true, decide_eq_true_eq] at hd
      simp only [isJsonSpace, Bool.or_eq_false_iff, beq_eq_false_iff_ne]
      omega
    · decide
  have hne : c ≠ 34 ∧ c ≠ 91 ∧ c ≠ 123 ∧ c ≠ 110 ∧ c ≠ 116 ∧ c ≠ 102 := by
    rcases hc with hd | rfl
    · simp only [isDigit, Bool.and_eq_true, decide_eq_true_eq] at hd
      omega
    · decide
  rw [parseValue, List.append_assoc, skipSpace_spaces _ _ hws]
  have hcons : P.numberToString x ++ rest = c :: (t ++ rest) := by rw [hct]; rfl
  rw [hcons, skipSpace_cons _ _ hsp]
  obtain ⟨n1, n2, n3, n4, n5, n6⟩ := hne
  have e1 : (c == 34) = false := by simpa using n1
  have e2 : (c == 91) = false := by simpa using n2
  have e3 : (c == 123) = false := by simpa using n3
  simp only [e1, e2, e3, not_prefix_null _ _ n4, not_prefix_true _ _ n5, not_prefix_false _ _ n6,
    Bool.false_eq_true, if_false]
  rw [← hcons, htake, hdrop, htok, hval]
  rfl

/-! ### Objects in enumeration order -/

theorem keys_replaceValue (k : JSString) (v : JSValue F) (ps : List (JSString × JSValue F)) :
    (replaceValue k v ps).map Prod.fst = ps.map Prod.fst := by
  induction ps with
  | nil => rfl
  | cons p ps ih =>
    obtain ⟨k1, v1⟩ := p
    simp only [replaceValue]
    split
    · rfl
    · simp [ih]

theorem mem_keys_insertIndex (k : JSString) (v : JSValue F) (ps : List (JSString × JSValue F))
    (a : JSString) :
    a ∈ (insertIndex k v ps).map Prod.fst ↔ a = k ∨ a ∈ ps.map Prod.fst := by
  induction ps with
  | nil => simp [insertIndex]
  | cons p ps ih =>
    obtain ⟨k1, v1⟩ := p
    simp only [insertIndex]
    split
    · simp only [List.map_cons, List.mem_cons, ih]
      tauto
    · simp

theorem ordered_insertIndex (k : JSString) (v : JSValue F) (ps : List (JSString × JSValue F))
    (hk : isArrayIndex k = true) (hnew : ∀ a ∈ ps.map Prod.fst, a ≠ k) (h : OrderedKeys ps) :
    OrderedKeys (insertIndex k v ps) := by
  induction ps with
  | nil => simp [insertIndex, OrderedKeys]
  | cons p ps ih =>
    obtain ⟨k1, v1⟩ := p
    simp only [OrderedKeys, List.map_cons, List.pairwise_cons] at h
    have hnew1 : k1 ≠ k := hnew k1 (by simp)
    have hnew2 : ∀ a ∈ ps.map Prod.fst, a ≠ k := fun a ha => hnew a (by simp [ha])
    simp only [insertIndex]
    by_cases hc : (isArrayIndex k1 && decide (indexValue k1 ≤ indexValue k)) = true
    · rw [if_pos hc]
      simp only [Bool.and_eq_true, decide_eq_true_eq] at hc
      simp only [OrderedKeys, List.map_cons, List.pairwise_cons]
      refine ⟨?_, ih hnew2 h.2⟩
      intro b hb
      rcases (mem_keys_insertIndex k v ps b).1 hb with rfl | hb
      · exact ⟨hnew1, fun _ => hc⟩
      · exact h.1 b hb
    · rw [if_neg hc]
      simp only [Bool.and_eq_true, decide_eq_true_eq, not_and, not_le] at hc
      simp only [OrderedKeys, List.map_cons, List.pairwise_cons]
      refine ⟨?_, h.1, h.2⟩
      intro b hb
      have hbk : b ≠ k := hnew b (by simpa using hb)
      refine ⟨Ne.symm hbk, fun hbi => ⟨hk, ?_⟩⟩
      rcases List.mem_cons.1 hb with rfl | hb
      · exact Nat.le_of_lt (hc hbi)
      · have h1 := (h.1 b hb).2 hbi
        exact Nat.le_trans (Nat.le_of_lt (hc h1.1)) h1.2

theorem not_key_of_hasKey (k : JSString) (ps : List (JSString × JSValue F))
    (h : hasKey k ps = false) : ∀ a ∈ ps.map Prod.fst, a ≠ k := by
  intro a ha hak
  subst hak
  obtain ⟨p, hp, rfl⟩ := List.mem_map.1 ha
  have h2 : (List.lookup p.1 ps).isSome = true :=
    List.lookup_isSome_iff.2 ⟨p, hp, by simp⟩
  simp only [hasKey] at h
  rw [h] at h2
  exact absurd h2 (by decide)

theorem ordered_setProperty (ps : List (JSString × JSValue F)) (k : JSString) (v : JSValue F)
    (h : OrderedKeys ps) : OrderedKeys (setProperty ps k v) := by
  simp only [setProperty]
  by_cases h1 : hasKey k ps = true
  · rw [if_pos h1]
    simp only [OrderedKeys, keys_replaceValue]
    exact h
  · rw [if_neg h1]
    have hnew := not_key_of_hasKey k ps (by simpa using h1)
    by_cases h2 : isArrayIndex k = true
    · rw [if_pos h2]
      exact ordered_insertIndex k v ps h2 hnew h
    · rw [if_neg h2]
      simp only [OrderedKeys, List.map_append, List.map_cons, List.map_nil]
      rw [List.pairwise_append]
      refine ⟨h, by simp, ?_⟩
      intro a ha b hb
      simp only [List.mem_singleton] at hb
      subst hb
      exact ⟨hnew a ha, fun hb => absurd hb h2⟩

theorem ordered_foldl (ms : List (JSString × JSValue F)) :
    ∀ acc : List (JSString × JSValue F), OrderedKeys acc →
      OrderedKeys (ms.foldl (fun acc m => setProperty acc m.1 m.2) acc) := by
  induction ms with
  | nil => intro acc h; exact h
  | cons m ms ih =>
    intro acc h
    exact ih _ (ordered_setProperty acc m.1 m.2 h)

theorem ordered_mkObject (ms : List (JSString × JSValue F)) : OrderedKeys (mkObject ms) :=
  ordered_foldl ms [] (by simp [OrderedKeys])

theorem insertIndex_last (k : JSString) (v : JSValue F) (acc : List (JSString × JSValue F))
    (h : ∀ a ∈ acc.map Prod.fst, isArrayIndex a = true ∧ indexValue a ≤ indexValue k) :
    insertIndex k v acc = acc ++ [(k, v)] := by
  induction acc with
  | nil => rfl
  | cons p ps ih =>
    obtain ⟨k1, v1⟩ := p
    have h1 := h k1 (by simp)
    have h2 : ∀ a ∈ ps.map Prod.fst, isArrayIndex a = true ∧ indexValue a ≤ indexValue k :=
      fun a ha => h a (by simp [ha])
    simp only [insertIndex, h1.1, h1.2, decide_True, Bool.and_self, if_true, ih h2,
      List.cons_append]

theorem setProperty_last (acc : List (JSString × JSValue F)) (k : JSString) (v : JSValue F)
    (h : ∀ a ∈ acc.map Prod.fst, KeyBefore a k) : setProperty acc k v = acc ++ [(k, v)] := by
  have h1 : hasKey k acc = false := by
    simp only [hasKey]
    cases hl : List.lookup k acc with
    | none => rfl
    | some w =>
      have h2 : (List.lookup k acc).isSome = true := by rw [hl]; rfl
      obtain ⟨p, hp, hpk⟩ := List.lookup_isSome_iff.1 h2
      have hk := (h p.1 (List.mem_map.2 ⟨p, hp, rfl⟩)).1
      simp only [beq_iff_eq] at hpk
      exact absurd hpk.symm hk
  simp only [setProperty, h1, Bool.false_eq_true, if_false]
  by_cases h2 : isArrayIndex k = true
  · rw [if_pos h2]
    exact insertIndex_last k v acc (fun a ha => (h a ha).2 h2)
  · rw [if_neg h2]

theorem foldl_setProperty_ordered (rest : List (JSString × JSValue F)) :
    ∀ acc : List (JSString × JSValue F), OrderedKeys (acc ++ rest) →
      rest.foldl (fun acc m => setProperty acc m.1 m.2) acc = acc ++ rest := by
  induction rest with
  | nil => intro acc _; simp
  | cons m ms ih =>
    intro acc h
    have h1 : ∀ a ∈ acc.map Prod.fst, KeyBefore a m.1 := by
      simp only [OrderedKeys, List.map_append, List.map_cons] at h
      rw [List.pairwise_append] at h
      intro a ha
      exact h.2.2 a ha m.1 (by simp)
    simp only [List.foldl_cons]
    rw [setProperty_last acc m.1 m.2 h1, ih]
    · simp
    · simpa using h

theorem mkObject_of_ordered (props : List (JSString × JSValue F)) (h : OrderedKeys props) :
    mkObject props = props := by
  have := foldl_setProperty_ordered props [] (by simpa using h)
  simpa [mkObject] using this

theorem wf_replaceValue (k : JSString) (v : JSValue F) (ps : List (JSString × JSValue F))
    (hv : WellFormed v) (h : WellFormedMembers ps) : WellFormedMembers (replaceValue k v ps) := by
  induction ps with
  | nil => exact h
  | cons p ps ih =>
    obtain ⟨k1, v1⟩ := p
    simp only [WellFormedMembers] at h
    simp only [replaceValue]
    split
    · exact ⟨hv, h.2⟩
    · exact ⟨h.1, ih h.2⟩

theorem wf_insertIndex (k : JSString) (v : JSValue F) (ps : List (JSString × JSValue F))
    (hv : WellFormed v) (h : WellFormedMembers ps) : WellFormedMembers (insertIndex k v ps) := by
  induction ps with
  | nil => exact ⟨hv, trivial⟩
  | cons p ps ih =>
    obtain ⟨k1, v1⟩ := p
    simp only [WellFormedMembers] at h
    simp only [insertIndex]
    split
    · exact ⟨h.1, ih h.2⟩
    · exact ⟨hv, h.1, h.2⟩

theorem wf_append_one (k : JSString) (v : JSValue F) (ps : List (JSString × JSValue F))
    (hv : WellFormed v) (h : WellFormedMembers ps) : WellFormedMembers (ps ++ [(k, v)]) := by
  induction ps with
  | nil => exact ⟨hv, trivial⟩
  | cons p ps ih =>
    obtain ⟨k1, v1⟩ := p
    simp only [WellFormedMembers] at h
    exact ⟨h.1, ih h.2⟩

theorem wf_setProperty (ps : List (JSString × JSValue F)) (k : JSString) (v : JSValue F)
    (hv : WellFormed v) (h : WellFormedMembers ps) : WellFormedMembers (setProperty ps k v) := by
  simp only [setProperty]
  split
  · exact wf_replaceValue k v ps hv h
  · split
    · exact wf_insertIndex k v ps hv h
    · exact wf_append_one k v ps hv h

theorem wf_foldl (ms : List (JSString × JSValue F)) :
    ∀ acc : List (JSString × JSValue F), WellFormedMembers acc → WellFormedMembers ms →
      WellFormedMembers (ms.foldl (fun acc m => setProperty acc m.1 m.2) acc) := by
  induction ms with
  | nil => intro acc h _; exact h
  | cons m ms ih =>
    intro acc h hm
    obtain ⟨k, v⟩ := m
    simp only [WellFormedMembers] at hm
    exact ih _ (wf_setProperty acc k v hm.1 h) hm.2

theorem wf_mkObject (ms : List (JSString × JSValue F)) (h : WellFormedMembers ms) :
    WellFormed (.obj (mkObject ms)) := by
  simp only [WellFormed]
  exact ⟨ordered_mkObject ms, wf_foldl ms [] trivial h⟩

theorem u_brackets : u "[]" = [91, 93] := rfl
theorem u_braces : u "\x7b\x7d" = [123, 125] := rfl
theorem u_open_bracket : u "[\n" = [91, 10] := rfl
theorem u_open_brace : u "\x7b\n" = [123, 10] := rfl
theorem u_newline : u "\n" = [10] := rfl
theorem u_close_bracket : u "]" = [93] := rfl
theorem u_close_brace : u "\x7d" = [125] := rfl
theorem u_comma : u ",\n" = [44, 10] := rfl
theorem u_colon : u ": " = [58, 32] := rfl

theorem parseValue_emptyArr (P : Platform F) (fuel : Nat) (ws rest : JSString)
    (hws : ∀ c ∈ ws, isJsonSpace c = true) :
    parseValue P (fuel + 1) (ws ++ u "[]" ++ rest) = some (.arr [], rest) := by
  rw [parseValue, List.append_assoc, skipSpace_spaces _ _ hws, u_brackets]
  rw [show [91, 93] ++ rest = 91 :: 93 :: rest from rfl, skipSpace_cons _ _ (by decide)]
  simp [skipSpace_cons 93 rest (by decide)]

theorem parseValue_emptyObj (P : Platform F) (fuel : Nat) (ws rest : JSString)
    (hws : ∀ c ∈ ws, isJsonSpace c = true) :
    parseValue P (fuel + 1) (ws ++ u "\x7b\x7d" ++ rest) = some (.obj [], rest) := by
  rw [parseValue, List.append_assoc, skipSpace_spaces _ _ hws, u_braces]
  rw [show [123, 125] ++ rest = 123 :: 125 :: rest from rfl, skipSpace_cons _ _ (by decide)]
  simp [skipSpace_cons 125 rest (by decide)]

theorem parseValue_arr (P : Platform F) (fuel : Nat) (ws body r : JSString) (d : Nat)
    (l : List (JSValue F)) (hws : ∀ c ∈ ws, isJsonSpace c = true)
    (hbody : ∃ t, skipSpace body = d :: t) (hd : d ≠ 93)
    (h : parseElements P fuel body = some (l, r)) :
    parseValue P (fuel + 1) (ws ++ 91 :: body) = some (.arr l, r) := by
  obtain ⟨t, hbody⟩ := hbody
  rw [parseValue, skipSpace_spaces _ _ hws, skipSpace_cons _ _ (by decide)]
  simp [hbody, hd, h]

theorem parseValue_obj (P : Platform F) (fuel : Nat) (ws body r : JSString) (d : Nat)
    (ms : List (JSString × JSValue F)) (hws : ∀ c ∈ ws, isJsonSpace c = true)
    (hbody : ∃ t, skipSpace body = d :: t) (hd : d ≠ 125)
    (h : parseMembers P fuel body = some (ms, r)) :
    parseValue P (fuel + 1) (ws ++ 123 :: body) = some (.obj (mkObject ms), r) := by
  obtain ⟨t, hbody⟩ := hbody
  rw [parseValue, skipSpace_spaces _ _ hws, skipSpace_cons _ _ (by decide)]
  simp [hbody, hd, h]

theorem parseElements_last (P : Platform F) (fuel : Nat) (s r rest : JSString) (v : JSValue F)
    (h : parseValue P fuel s = some (v, r)) (hr : skipSpace r = 93 :: rest) :
    parseElements P (fuel + 1) s = some ([v], rest) := by
  rw [parseElements]
  simp [h, hr]

theorem parseElements_more (P : Platform F) (fuel : Nat) (s r r1 rest : JSString) (v : JSValue F)
    (vs : List (JSValue F)) (h : parseValue P fuel s = some (v, r))
    (hr : skipSpace r = 44 :: r1) (h2 : parseElements P fuel r1 = some (vs, rest)) :
    parseElements P (fuel + 1) s = some (v :: vs, rest) := by
  rw [parseElements]
  simp [h, hr, h2]

theorem parseMembers_last (P : Platform F) (fuel : Nat) (s r0 r1 r2 r3 r4 k : JSString)
    (v : JSValue F) (hs : skipSpace s = 34 :: r0) (hk : parseStringBody r0 = some (k, r1))
    (hc : skipSpace r1 = 58 :: r2) (hv : parseValue P fuel r2 = some (v, r3))
    (hr : skipSpace r3 = 125 :: r4) :
    parseMembers P (fuel + 1) s = some ([(k, v)], r4) := by
  rw [parseMembers]
  simp [hs, hk, hc, hv, hr]

theorem parseMembers_more (P : Platform F) (fuel : Nat) (s r0 r1 r2 r3 r4 r5 k : JSString)
    (v : JSValue F) (ms : List (JSString × JSValue F))
    (hs : skipSpace s = 34 :: r0) (hk : parseStringBody r0 = some (k, r1))
    (hc : skipSpace r1 = 58 :: r2) (hv : parseValue P fuel r2 = some (v, r3))
    (hr : skipSpace r3 = 44 :: r4) (h2 : parseMembers P fuel r4 = some (ms, r5)) :
    parseMembers P (fuel + 1) s = some ((k, v) :: ms, r5) := by
  rw [parseMembers]
  simp [hs, hk, hc, hv, hr, h2]

theorem serialize_head (P : Platform F) (ind : JSString) (v : JSValue F)
    (hn : ∀ x ∈ numbersOf v, Restorable P x) :
    ∃ c t, serialize P ind v = c :: t ∧ isJsonSpace c = false ∧ c ≠ 93 := by
  cases v with
  | null => exact ⟨110, _, by rw [serialize, u_null], by decide, by decide⟩
  | bool b =>
    cases b with
    | true => exact ⟨116, _, by rw [serialize, u_true], by decide, by decide⟩
    | false => exact ⟨102, _, by rw [serialize, u_false], by decide, by decide⟩
  | num x =>
    have hx := hn x (by simp [numbersOf])
    obtain ⟨_, c, t, hct, hc⟩ := isNumberToken_chars _ hx.2.1
    refine ⟨c, t, by simp [serialize, hx.1, hct], ?_, ?_⟩
    · rcases hc with hd | rfl
      · simp only [isDigit, Bool.and_eq_true, decide_eq_true_eq] at hd
        simp only [isJsonSpace, Bool.or_eq_false_iff, beq_eq_false_iff_ne]
        omega
      · decide
    · rcases hc with hd | rfl
      · simp only [isDigit, Bool.and_eq_true, decide_eq_true_eq] at hd
        omega
      · decide
  | str s => exact ⟨34, quoteUnits false s ++ [34], by simp [serialize, quoteJSONString],
      by decide, by decide⟩
  | arr items =>
    cases items with
    | nil => exact ⟨91, _, by rw [serialize, u_brackets], by decide, by decide⟩
    | cons w ws =>
      rw [serialize, u_open_bracket]
      exact ⟨91, _, rfl, by decide, by decide⟩
  | obj props =>
    cases props with
    | nil => exact ⟨123, _, by rw [serialize, u_braces], by decide, by decide⟩
    | cons m ms =>
      rw [serialize, u_open_brace]
      exact ⟨123, _, rfl, by decide, by decide⟩

theorem serializeElements_cons (P : Platform F) (ind : JSString) (v : JSValue F)
    (vs : List (JSValue F)) :
    serializeElements P ind (v :: vs) =
      serialize P ind v ++
        (match vs with
         | [] => []
         | _ :: _ => u ",\n" ++ ind ++ serializeElements P ind vs) := by
  cases vs <;> rfl

theorem serializeMembers_cons (P : Platform F) (ind k : JSString) (v : JSValue F)
    (ms : List (JSString × JSValue F)) :
    serializeMembers P ind ((k, v) :: ms) =
      quoteJSONString k ++ u ": " ++ serialize P ind v ++
        (match ms with
         | [] => []
         | _ :: _ => u ",\n" ++ ind ++ serializeMembers P ind ms) := by
  cases ms <;> rfl

theorem spaces_append (a b : JSString) (ha : ∀ c ∈ a, isJsonSpace c = true)
    (hb : ∀ c ∈ b, isJsonSpace c = true) : ∀ c ∈ a ++ b, isJsonSpace c = true := by
  intro c hc
  rcases List.mem_append.1 hc with h | h
  · exact ha c h
  · exact hb c h

theorem spaces_cons (c : Nat) (b : JSString) (hc : isJsonSpace c = true)
    (hb : ∀ c ∈ b, isJsonSpace c = true) : ∀ x ∈ c :: b, isJsonSpace x = true := by
  intro x hx
  rcases List.mem_cons.1 hx with rfl | h
  · exact hc
  · exact hb x h

theorem spaces_gap : ∀ c ∈ gap, isJsonSpace c = true := by decide

mutual
theorem parseValue_serialize (P : Platform F) :
    ∀ (v : JSValue F) (ws ind rest : JSString) (fuel : Nat),
      (∀ c ∈ ws, isJsonSpace c = true) → (∀ c ∈ ind, isJsonSpace c = true) →
      (∀ x ∈ numbersOf v, Restorable P x) → WellFormed v →
      (∀ c t, rest = c :: t → isNumberChar c = false) → need v ≤ fuel →
      parseValue P fuel (ws ++ serialize P ind v ++ rest) = some (v, rest)
  | .null, ws, ind, rest, fuel, hws, _, _, _, _, hf => by
    obtain ⟨f, rfl⟩ : ∃ f, fuel = f + 1 := ⟨fuel - 1, by simp only [need] at hf; omega⟩
    rw [serialize]
    exact parseValue_null P f ws rest hws
  | .bool true, ws, ind, rest, fuel, hws, _, _, _, _, hf => by
    obtain ⟨f, rfl⟩ : ∃ f, fuel = f + 1 := ⟨fuel - 1, by simp only [need] at hf; omega⟩
    rw [serialize]
    exact parseValue_true P f ws rest hws
  | .bool false, ws, ind, rest, fuel, hws, _, _, _, _, hf => by
    obtain ⟨f, rfl⟩ : ∃ f, fuel = f + 1 := ⟨fuel - 1, by simp only [need] at hf; omega⟩
    rw [serialize]
    exact parseValue_false P f ws rest hws
  | .num x, ws, ind, rest, fuel, hws, _, hn, _, hrest, hf => by
    obtain ⟨f, rfl⟩ : ∃ f, fuel = f + 1 := ⟨fuel - 1, by simp only [need] at hf; omega⟩
    have hx := hn x (by simp [numbersOf])
    rw [serialize, if_pos hx.1]
    exact parseValue_num P f ws rest x hws hx hrest
  | .str s, ws, ind, rest, fuel, hws, _, _, _, _, hf => by
    obtain ⟨f, rfl⟩ : ∃ f, fuel = f + 1 := ⟨fuel - 1, by simp only [need] at hf; omega⟩
    rw [serialize]
    exact parseValue_str P f ws rest s hws
  | .arr items, ws, ind, rest, fuel, hws, hind, hn, hwf, _, hf => by
    obtain ⟨f, rfl⟩ : ∃ f, fuel = f + 1 := ⟨fuel - 1, by simp only [need] at hf; omega⟩
    have ih := parseElements_serialize P items
    cases items with
    | nil =>
      rw [serialize]
      exact parseValue_emptyArr P f ws rest hws
    | cons w l =>
      have hn1 : ∀ x ∈ numbersOf w, Restorable P x := fun x hx =>
        hn x (by simp only [numbersOf, numbersOfElements, List.mem_append]; exact Or.inl hx)
      obtain ⟨c, t, hct, hc1, hc2⟩ := serialize_head P (ind ++ gap) w hn1
      have hind2 := spaces_append ind gap hind spaces_gap
      have hws2 := spaces_cons 10 (ind ++ gap) (by decide) hind2
      have hrec := ih (10 :: (ind ++ gap)) (ind ++ gap) ind rest f (by simp) hws2 hind2 hind
        (by simpa only [numbersOf] using hn) (by simpa only [WellFormed] using hwf)
        (by simp only [need] at hf; omega)
      rw [serialize, u_open_bracket, u_newline, u_close_bracket]
      have hshape : ws ++ ([91, 10] ++ (ind ++ gap) ++ serializeElements P (ind ++ gap) (w :: l) ++
          [10] ++ ind ++ [93]) ++ rest =
          ws ++ 91 :: (10 :: (ind ++ gap) ++ serializeElements P (ind ++ gap) (w :: l) ++
            10 :: (ind ++ 93 :: rest)) := by
        simp
      rw [hshape]
      refine parseValue_arr P f ws _ rest c (w :: l) hws ?_ hc2 hrec
      rw [List.append_assoc, skipSpace_spaces _ _ hws2, serializeElements_cons, hct]
      exact ⟨_, skipSpace_cons _ _ hc1⟩
  | .obj props, ws, ind, rest, fuel, hws, hind, hn, hwf, _, hf => by
    obtain ⟨f, rfl⟩ : ∃ f, fuel = f + 1 := ⟨fuel - 1, by simp only [need] at hf; omega⟩
    have ih := parseMembers_serialize P props
    simp only [WellFormed] at hwf
    cases props with
    | nil =>
      rw [serialize]
      exact parseValue_emptyObj P f ws rest hws
    | cons m l =>
      obtain ⟨k, w⟩ := m
      have hind2 := spaces_append ind gap hind spaces_gap
      have hws2 := spaces_cons 10 (ind ++ gap) (by decide) hind2
      have hrec := ih (10 :: (ind ++ gap)) (ind ++ gap) ind rest f (by simp) hws2 hind2 hind
        (by simpa only [numbersOf] using hn) hwf.2
        (by simp only [need] at hf; omega)
      rw [serialize, u_open_brace, u_newline, u_close_brace]
      have hshape : ws ++ ([123, 10] ++ (ind ++ gap) ++
          serializeMembers P (ind ++ gap) ((k, w) :: l) ++ [10] ++ ind ++ [125]) ++ rest =
          ws ++ 123 :: (10 :: (ind ++ gap) ++ serializeMembers P (ind ++ gap) ((k, w) :: l) ++
            10 :: (ind ++ 125 :: rest)) := by
        simp
      rw [hshape]
      have hobj := parseValue_obj P f ws _ rest 34 ((k, w) :: l) hws ?_ (by decide) hrec
      · rw [mkObject_of_ordered _ hwf.1] at hobj
        exact hobj
      · rw [List.append_assoc, skipSpace_spaces _ _ hws2, serializeMembers_cons]
        simp only [quoteJSONString, List.append_assoc, List.cons_append, List.nil_append]
        exact ⟨_, skipSpace_cons _ _ (by decide)⟩
theorem parseElements_serialize (P : Platform F) :
    ∀ (l : List (JSValue F)) (ws ind ind0 rest : JSString) (fuel : Nat), l ≠ [] →
      (∀ c ∈ ws, isJsonSpace c = true) → (∀ c ∈ ind, isJsonSpace c = true) →
      (∀ c ∈ ind0, isJsonSpace c = true) →
      (∀ x ∈ numbersOfElements l, Restorable P x) → WellFormedElements l →
      needElements l ≤ fuel →
      parseElements P fuel (ws ++ serializeElements P ind l ++ 10 :: (ind0 ++ 93 :: rest)) =
        some (l, rest)
  | [], _, _, _, _, _, hne, _, _, _, _, _, _ => absurd rfl hne
  | v :: vs, ws, ind, ind0, rest, fuel, _, hws, hind, hind0, hn, hwf, hf => by
    obtain ⟨f, rfl⟩ : ∃ f, fuel = f + 1 := ⟨fuel - 1, by simp only [needElements] at hf; omega⟩
    simp only [needElements] at hf
    simp only [WellFormedElements] at hwf
    have hn1 : ∀ x ∈ numbersOf v, Restorable P x := fun x hx =>
      hn x (by simp only [numbersOfElements, List.mem_append]; exact Or.inl hx)
    have hn2 : ∀ x ∈ numbersOfElements vs, Restorable P x := fun x hx =>
      hn x (by simp only [numbersOfElements, List.mem_append]; exact Or.inr hx)
    have ihv := parseValue_serialize P v
    have ihl := parseElements_serialize P vs
    cases vs with
    | nil =>
      have hv := ihv ws ind (10 :: (ind0 ++ 93 :: rest)) f hws hind hn1 hwf.1
        (by intro c t h; cases h; decide) (by omega)
      rw [serializeElements]
      simp only [List.append_nil]
      refine parseElements_last P f _ _ rest v hv ?_
      rw [show (10 :: (ind0 ++ 93 :: rest)) = (10 :: ind0) ++ 93 :: rest from rfl,
        skipSpace_spaces _ _ (spaces_cons 10 ind0 (by decide) hind0)]
      exact skipSpace_cons _ _ (by decide)
    | cons w l =>
      have hv := ihv ws ind
        (44 :: (10 :: ind ++ serializeElements P ind (w :: l) ++ 10 :: (ind0 ++ 93 :: rest))) f
        hws hind hn1 hwf.1 (by intro c t h; cases h; decide) (by omega)
      have hl := ihl (10 :: ind) ind ind0 rest f (by simp)
        (spaces_cons 10 ind (by decide) hind) hind hind0 hn2 hwf.2 (by omega)
      rw [show serializeElements P ind (v :: w :: l) =
        serialize P ind v ++ (u ",\n" ++ ind ++ serializeElements P ind (w :: l)) from rfl, u_comma]
      have hshape : ws ++ (serialize P ind v ++ ([44, 10] ++ ind ++ serializeElements P ind (w :: l))) ++
          10 :: (ind0 ++ 93 :: rest) =
          ws ++ serialize P ind v ++
            44 :: (10 :: ind ++ serializeElements P ind (w :: l) ++ 10 :: (ind0 ++ 93 :: rest)) := by
        simp
      rw [hshape]
      exact parseElements_more P f _ _ _ rest v (w :: l) hv (skipSpace_cons _ _ (by decide)) hl
theorem parseMembers_serialize (P : Platform F) :
    ∀ (l : List (JSString × JSValue F)) (ws ind ind0 rest : JSString) (fuel : Nat), l ≠ [] →
      (∀ c ∈ ws, isJsonSpace c = true) → (∀ c ∈ ind, isJsonSpace c = true) →
      (∀ c ∈ ind0, isJsonSpace c = true) →
      (∀ x ∈ numbersOfMembers l, Restorable P x) → WellFormedMembers l →
      needMembers l ≤ fuel →
      parseMembers P fuel (ws ++ serializeMembers P ind l ++ 10 :: (ind0 ++ 125 :: rest)) =
        some (l, rest)
  | [], _, _, _, _, _, hne, _, _, _, _, _, _ => absurd rfl hne
  | (k, v) :: vs, ws, ind, ind0, rest, fuel, _, hws, hind, hind0, hn, hwf, hf => by
    obtain ⟨f, rfl⟩ : ∃ f, fuel = f + 1 := ⟨fuel - 1, by simp only [needMembers] at hf; omega⟩
    simp only [needMembers] at hf
    simp only [WellFormedMembers] at hwf
    have hn1 : ∀ x ∈ numbersOf v, Restorable P x := fun x hx =>
      hn x (by simp only [numbersOfMembers, List.mem_append]; exact Or.inl hx)
    have hn2 : ∀ x ∈ numbersOfMembers vs, Restorable P x := fun x hx =>
      hn x (by simp only [numbersOfMembers, List.mem_append]; exact Or.inr hx)
    have ihv := parseValue_serialize P v
    have ihl := parseMembers_serialize P vs
    cases vs with
    | nil =>
      have hv := ihv [32] ind (10 :: (ind0 ++ 125 :: rest)) f (by decide) hind hn1 hwf.1
        (by intro c t h; cases h; decide) (by omega)
      rw [serializeMembers, u_colon]
      have hshape : ws ++ (quoteJSONString k ++ [58, 32] ++ serialize P ind v ++ []) ++
          10 :: (ind0 ++ 125 :: rest) =
          ws ++ 34 :: (quoteUnits false k ++ 34 :: 58 ::
            ([32] ++ serialize P ind v ++ 10 :: (ind0 ++ 125 :: rest))) := by
        simp [quoteJSONString]
      rw [hshape]
      refine parseMembers_last P f _ _ _ _ _ rest k v ?_ (parseStringBody_quoteUnits k false _)
        (skipSpace_cons _ _ (by decide)) hv ?_
      · rw [skipSpace_spaces _ _ hws]
        exact skipSpace_cons _ _ (by decide)
      · rw [show (10 :: (ind0 ++ 125 :: rest)) = (10 :: ind0) ++ 125 :: rest from rfl,
          skipSpace_spaces _ _ (spaces_cons 10 ind0 (by decide) hind0)]
        exact skipSpace_cons _ _ (by decide)
    | cons w l =>
      have hv := ihv [32] ind
        (44 :: (10 :: ind ++ serializeMembers P ind (w :: l) ++ 10 :: (ind0 ++ 125 :: rest))) f
        (by decide) hind hn1 hwf.1 (by intro c t h; cases h; decide) (by omega)
      have hl := ihl (10 :: ind) ind ind0 rest f (by simp)
        (spaces_cons 10 ind (by decide) hind) hind hind0 hn2 hwf.2 (by omega)
      rw [show serializeMembers P ind ((k, v) :: w :: l) =
        quoteJSONString k ++ u ": " ++ serialize P ind v ++
          (u ",\n" ++ ind ++ serializeMembers P ind (w :: l)) from rfl, u_colon, u_comma]
      have hshape : ws ++ (quoteJSONString k ++ [58, 32] ++ serialize P ind v ++
            ([44, 10] ++ ind ++ serializeMembers P ind (w :: l))) ++
          10 :: (ind0 ++ 125 :: rest) =
          ws ++ 34 :: (quoteUnits false k ++ 34 :: 58 ::
            ([32] ++ serialize P ind v ++
              44 :: (10 :: ind ++ serializeMembers P ind (w :: l) ++
                10 :: (ind0 ++ 125 :: rest)))) := by
        simp [quoteJSONString]
      rw [hshape]
      refine parseMembers_more P f _ _ _ _ _ _ rest k v (w :: l) ?_
        (parseStringBody_quoteUnits k false _) (skipSpace_cons _ _ (by decide)) hv
        (skipSpace_cons _ _ (by decide)) hl
      rw [skipSpace_spaces _ _ hws]
      exact skipSpace_cons _ _ (by decide)
end

theorem length_quoteJSONString (s : JSString) : 2 ≤ (quoteJSONString s).length := by
  simp only [quoteJSONString, List.length_append, List.length_cons, List.length_nil]
  omega

mutual
theorem need_le (P : Platform F) :
    ∀ (v : JSValue F) (ind : JSString), (∀ x ∈ numbersOf v, Restorable P x) →
      need v ≤ (serialize P ind v).length
  | .null, _, _ => by rw [serialize, u_null]; simp [need]
  | .bool true, _, _ => by rw [serialize, u_true]; simp [need]
  | .bool false, _, _ => by rw [serialize, u_false]; simp [need]
  | .num x, _, hn => by
    have hx := hn x (by simp [numbersOf])
    obtain ⟨_, c, t, hct, _⟩ := isNumberToken_chars _ hx.2.1
    rw [serialize, if_pos hx.1, hct]
    simp [need]
  | .str s, _, _ => by
    rw [serialize]
    have := length_quoteJSONString s
    simp only [need]
    omega
  | .arr items, ind, hn => by
    have ih := needElements_le P items (ind ++ gap) (by simpa only [numbersOf] using hn)
    cases items with
    | nil => rw [serialize, u_brackets]; simp [need, needElements]
    | cons w l =>
      rw [serialize]
      simp only [need, List.length_append, u_open_bracket, u_newline, u_close_bracket,
        List.length_cons, List.length_nil]
      omega
  | .obj props, ind, hn => by
    have ih := needMembers_le P props (ind ++ gap) (by simpa only [numbersOf] using hn)
    cases props with
    | nil => rw [serialize, u_braces]; simp [need, needMembers]
    | cons w l =>
      rw [serialize]
      simp only [need, List.length_append, u_open_brace, u_newline, u_close_brace,
        List.length_cons, List.length_nil]
      omega
theorem needElements_le (P : Platform F) :
    ∀ (l : List (JSValue F)) (ind : JSString), (∀ x ∈ numbersOfElements l, Restorable P x) →
      needElements l ≤ (serializeElements P ind l).length + 1
  | [], _, _ => by simp [needElements]
  | v :: vs, ind, hn => by
    have ihv := need_le P v ind (fun x hx =>
      hn x (by simp only [numbersOfElements, List.mem_append]; exact Or.inl hx))
    have ihl := needElements_le P vs ind (fun x hx =>
      hn x (by simp only [numbersOfElements, List.mem_append]; exact Or.inr hx))
    rw [serializeElements_cons]
    cases vs with
    | nil =>
      simp only [needElements, List.length_append, List.length_nil]
      omega
    | cons w l =>
      simp only [needElements, List.length_append, u_comma, List.length_cons, List.length_nil]
        at ihl ⊢
      omega
theorem needMembers_le (P : Platform F) :
    ∀ (l : List (JSString × JSValue F)) (ind : JSString),
      (∀ x ∈ numbersOfMembers l, Restorable P x) →
      needMembers l ≤ (serializeMembers P ind l).length + 1
  | [], _, _ => by simp [needMembers]
  | (k, v) :: vs, ind, hn => by
    have ihv := need_le P v ind (fun x hx =>
      hn x (by simp only [numbersOfMembers, List.mem_append]; exact Or.inl hx))
    have ihl := needMembers_le P vs ind (fun x hx =>
      hn x (by simp only [numbersOfMembers, List.mem_append]; exact Or.inr hx))
    rw [serializeMembers_cons]
    cases vs with
    | nil =>
      simp only [needMembers, List.length_append, List.length_nil]
      omega
    | cons w l =>
      simp only [needMembers, List.length_append, u_comma, List.length_cons, List.length_nil]
        at ihl ⊢
      omega
end

theorem jsonParse_jsonStringify (P : Platform F) (v : JSValue F)
    (hn : ∀ x ∈ numbersOf v, Restorable P x) (hwf : WellFormed v) :
    jsonParse P (jsonStringify P v) = some v := by
  have h := parseValue_serialize P v [] [] [] ((serialize P [] v).length + 1)
    (by simp) (by simp) hn hwf (by simp) (Nat.le_succ_of_le (need_le P v [] hn))
  simp only [List.nil_append, List.append_nil] at h
  simp [jsonParse, jsonStringify, h, skipSpace]

/-! ### What the reader produces is in enumeration order -/

theorem parse_wellFormed (P : Platform F) :
    ∀ fuel : Nat,
      (∀ s v r, parseValue P fuel s = some (v, r) → WellFormed v) ∧
      (∀ s l r, parseElements P fuel s = some (l, r) → WellFormedElements l) ∧
      (∀ s l r, parseMembers P fuel s = some (l, r) → WellFormedMembers l) := by
  intro fuel
  induction fuel with
  | zero =>
    refine ⟨?_, ?_, ?_⟩
    · intro s v r h
      simp [parseValue] at h
    · intro s l r h
      simp [parseElements] at h
    · intro s l r h
      simp [parseMembers] at h
  | succ f ih =>
    obtain ⟨ihv, ihe, ihm⟩ := ih
    refine ⟨?_, ?_, ?_⟩
    · intro s v r h
      rw [parseValue] at h
      split at h
      · exact absurd h (by simp)
      · split at h
        · split at h
          · simp only [Option.some.injEq, Prod.mk.injEq] at h
            rw [← h.1]
            trivial
          · exact absurd h (by simp)
        · split at h
          · split at h
            · exact absurd h (by simp)
            · split at h
              · simp only [Option.some.injEq, Prod.mk.injEq] at h
                rw [← h.1]
                trivial
              · split at h
                · rename_i vs r1 hvs
                  simp only [Option.some.injEq, Prod.mk.injEq] at h
                  rw [← h.1]
                  exact ihe _ _ _ hvs
                · exact absurd h (by simp)
          · split at h
            · split at h
              · exact absurd h (by simp)
              · split at h
                · simp only [Option.some.injEq, Prod.mk.injEq] at h
                  rw [← h.1]
                  exact ⟨List.Pairwise.nil, trivial⟩
                · split at h
                  · rename_i ms r1 hms
                    simp only [Option.some.injEq, Prod.mk.injEq] at h
                    rw [← h.1]
                    exact wf_mkObject ms (ihm _ _ _ hms)
                  · exact absurd h (by simp)
            · repeat' split at h
              all_goals first
                | (simp only [Option.some.injEq, Prod.mk.injEq] at h
                   rw [← h.1]
                   trivial)
                | simp at h
    · intro s l r h
      rw [parseElements] at h
      split at h
      · exact absurd h (by simp)
      · rename_i v r0 hv
        have hwv := ihv _ _ _ hv
        split at h
        · exact absurd h (by simp)
        · split at h
          · split at h
            · rename_i vs r2 hvs
              simp only [Option.some.injEq, Prod.mk.injEq] at h
              rw [← h.1]
              exact ⟨hwv, ihe _ _ _ hvs⟩
            · exact absurd h (by simp)
          · split at h
            · simp only [Option.some.injEq, Prod.mk.injEq] at h
              rw [← h.1]
              exact ⟨hwv, trivial⟩
            · exact absurd h (by simp)
    · intro s l r h
      rw [parseMembers] at h
      split at h
      · exact absurd h (by simp)
      · split at h
        · split at h
          · exact absurd h (by simp)
          · split at h
            · exact absurd h (by simp)
            · split at h
              · split at h
                · exact absurd h (by simp)
                · rename_i v r3 hv
                  have hwv := ihv _ _ _ hv
                  split at h
                  · exact absurd h (by simp)
                  · split at h
                    · split at h
                      · rename_i ms r5 hms
                        simp only [Option.some.injEq, Prod.mk.injEq] at h
                        rw [← h.1]
                        exact ⟨hwv, ihm _ _ _ hms⟩
                      · exact absurd h (by simp)
                    · split at h
                      · simp only [Option.some.injEq, Prod.mk.injEq] at h
                        rw [← h.1]
                        exact ⟨hwv, trivial⟩
                      · exact absurd h (by simp)
              · exact absurd h (by simp)
        · exact absurd h (by simp)

theorem jsonParse_wellFormed (P : Platform F) (text : JSString) (v : JSValue F)
    (h : jsonParse P text = some v) : WellFormed v := by
  simp only [jsonParse] at h
  split at h
  · exact absurd h (by simp)
  · rename_i w rest hw
    split at h
    · simp only [Option.some.injEq] at h
      rw [← h]
      exact (parse_wellFormed P _).1 _ _ _ hw
    · exact absurd h (by simp)

theorem displayOrder_of_rendered (P : Platform F) (order : JSValue F) (ui ui1 : UI)
    (h : displayOrder P order ui = .ok ui1) : ui1.jsonViewText = jsonStringify P order := by
  simp only [displayOrder] at h
  split at h
  · exact absurd h (by simp)
  · simp only [Except.ok.injEq] at h
    rw [← h]

/-! ### Numbers of the reference platform -/

/-! ### Decimal digits -/

theorem digitChar_toNat (d : Nat) (h : d < 10) : (Nat.digitChar d).toNat = 48 + d := by
  interval_cases d <;> rfl

theorem indexValue_append (a b : JSString) :
    indexValue (a ++ b) = indexValue a * 10 ^ b.length + indexValue b := by
  have key : ∀ (l : JSString) (i : Nat),
      List.foldl (fun a c => 10 * a + (c - 48)) i l =
        i * 10 ^ l.length + List.foldl (fun a c => 10 * a + (c - 48)) 0 l := by
    intro l
    induction l with
    | nil => intro i; simp
    | cons c t ih =>
      intro i
      simp only [List.foldl_cons, List.length_cons]
      rw [ih (10 * i + (c - 48)), ih (10 * 0 + (c - 48)), pow_succ]
      ring
  unfold indexValue
  rw [List.foldl_append, key b]

theorem toDigitsCore_spec (fuel : Nat) :
    ∀ (n : Nat) (acc : List Char), n < fuel →
      ∃ D : JSString, (Nat.toDigitsCore 10 fuel n acc).map Char.toNat = D ++ acc.map Char.toNat ∧
        D ≠ [] ∧ (∀ c ∈ D, isDigit c = true) ∧ indexValue D = n ∧
        (n ≠ 0 → ∃ c t, D = c :: t ∧ 49 ≤ c ∧ c ≤ 57) ∧ n < 10 ^ D.length := by
  induction fuel with
  | zero =>
    intro n acc h
    exact absurd h (Nat.not_lt_zero _)
  | succ f ih =>
    intro n acc h
    have hd : n % 10 < 10 := Nat.mod_lt _ (by decide)
    have hc : (Nat.digitChar (n % 10)).toNat = 48 + n % 10 := digitChar_toNat _ hd
    by_cases h0 : n / 10 = 0
    · have hn : n < 10 := by omega
      have hm : n % 10 = n := Nat.mod_eq_of_lt hn
      rw [hm] at hc
      refine ⟨[48 + n], ?_, by simp, ?_, ?_, ?_, by simpa using hn⟩
      · simp [Nat.toDigitsCore, h0, hc, hm]
      · intro c hcm
        simp only [List.mem_singleton] at hcm
        subst hcm
        simp only [isDigit, Bool.and_eq_true, decide_eq_true_eq]
        omega
      · simp [indexValue]
      · intro hne
        exact ⟨48 + n, [], rfl, by omega, by omega⟩
    · have hlt : n / 10 < f := by omega
      obtain ⟨D, hD, hne, hall, hval, hhead, hlen⟩ := ih (n / 10) (Nat.digitChar (n % 10) :: acc) hlt
      refine ⟨D ++ [48 + n % 10], ?_, by simp, ?_, ?_, ?_, ?_⟩
      · simp only [Nat.toDigitsCore, h0, if_false]
        rw [hD]
        simp [hc]
      · intro c hcm
        rcases List.mem_append.1 hcm with h1 | h1
        · exact hall c h1
        · simp only [List.mem_singleton] at h1
          subst h1
          simp only [isDigit, Bool.and_eq_true, decide_eq_true_eq]
          omega
      · rw [indexValue_append, hval]
        simp only [List.length_singleton, pow_one, indexValue, List.foldl_cons, List.foldl_nil]
        omega
      · intro _
        obtain ⟨c, t, hct, h1, h2⟩ := hhead h0
        exact ⟨c, t ++ [48 + n % 10], by rw [hct]; rfl, h1, h2⟩
      · rw [List.length_append, List.length_singleton, pow_succ]
        omega

theorem decimal_spec (n : Nat) :
    decimal n ≠ [] ∧ (∀ c ∈ decimal n, isDigit c = true) ∧ indexValue (decimal n) = n ∧
      (n ≠ 0 → ∃ c t, decimal n = c :: t ∧ 49 ≤ c ∧ c ≤ 57) ∧ n < 10 ^ (decimal n).length := by
  obtain ⟨D, hD, h⟩ := toDigitsCore_spec (n + 1) n [] (Nat.lt_succ_self n)
  have : decimal n = D := by
    simpa [decimal, Nat.toDigits] using hD
  rw [this]
  exact h

/-! ### Trailing zeros -/

theorem stripZeros_mul (j : Nat) :
    ∀ (fuel s : Nat) (e : Int), s % 10 ≠ 0 → s * 10 ^ j < 10 ^ fuel →
      stripZeros fuel (s * 10 ^ j) e = (s, e + j) := by
  induction j with
  | zero =>
    intro fuel s e hs _
    cases fuel with
    | zero => simp [stripZeros]
    | succ f =>
      have : ¬ (s % 10 = 0) := hs
      simp [stripZeros, this]
  | succ j ih =>
    intro fuel s e hs hlt
    have hs0 : s ≠ 0 := by
      intro h
      rw [h] at hs
      exact hs rfl
    cases fuel with
    | zero =>
      simp only [pow_zero, Nat.lt_one_iff, mul_eq_zero] at hlt
      rcases hlt with h | h
      · exact absurd h hs0
      · exact absurd h (by positivity)
    | succ f =>
      have e1 : s * 10 ^ (j + 1) = (s * 10 ^ j) * 10 := by ring
      have hm : (s * 10 ^ (j + 1)) % 10 = 0 := by rw [e1]; exact Nat.mul_mod_left _ _
      have hd : (s * 10 ^ (j + 1)) / 10 = s * 10 ^ j := by
        rw [e1]; exact Nat.mul_div_cancel _ (by decide)
      have hne : s * 10 ^ (j + 1) ≠ 0 := by positivity
      have hlt2 : s * 10 ^ j < 10 ^ f := by
        rw [e1, pow_succ] at hlt
        omega
      rw [stripZeros, if_pos (by simp [hm, hne]), hd, ih f s (e + 1) hs hlt2]
      simp only [Nat.cast_add, Nat.cast_one, Prod.mk.injEq, true_and]
      omega

theorem stripZeros_canonical (fuel : Nat) :
    ∀ (m : Nat) (e : Int), m ≠ 0 → m < 10 ^ fuel →
      (stripZeros fuel m e).1 ≠ 0 ∧ (stripZeros fuel m e).1 % 10 ≠ 0 := by
  induction fuel with
  | zero =>
    intro m e h0 hlt
    simp only [pow_zero, Nat.lt_one_iff] at hlt
    exact absurd hlt h0
  | succ f ih =>
    intro m e h0 hlt
    rw [stripZeros]
    by_cases hm : m % 10 = 0
    · have hd : m / 10 ≠ 0 := by omega
      have hlt2 : m / 10 < 10 ^ f := by
        rw [pow_succ] at hlt
        omega
      rw [if_pos (by simp [hm, h0])]
      exact ih (m / 10) (e + 1) hd hlt2
    · simp [hm, h0]

theorem strip_decimal_canonical (m : Nat) (e : Int) (h0 : m ≠ 0) :
    (stripZeros (decimal m).length m e).1 ≠ 0 ∧ (stripZeros (decimal m).length m e).1 % 10 ≠ 0 :=
  stripZeros_canonical _ m e h0 (decimal_spec m).2.2.2.2

theorem strip_decimal_mul (s j : Nat) (e : Int) (hs : s % 10 ≠ 0) :
    stripZeros (decimal (s * 10 ^ j)).length (s * 10 ^ j) e = (s, e + j) :=
  stripZeros_mul j _ s e hs (decimal_spec _).2.2.2.2

/-! ### Reading a rendering -/

theorem takeWhile_digits (a b : JSString) (h : ∀ c ∈ a, isDigit c = true) :
    (a ++ b).takeWhile isDigit = a ++ b.takeWhile isDigit := by
  induction a with
  | nil => rfl
  | cons c t ih =>
    have hc := h c (List.mem_cons_self _ _)
    simp only [List.cons_append, List.takeWhile_cons, hc, if_true]
    rw [ih (fun x hx => h x (List.mem_cons_of_mem _ hx))]

theorem dropWhile_digits (a b : JSString) (h : ∀ c ∈ a, isDigit c = true) :
    (a ++ b).dropWhile isDigit = b.dropWhile isDigit := by
  induction a with
  | nil => rfl
  | cons c t ih =>
    have hc := h c (List.mem_cons_self _ _)
    simp only [List.cons_append, List.dropWhile_cons, hc, if_true]
    exact ih (fun x hx => h x (List.mem_cons_of_mem _ hx))

theorem takeWhile_digits_all (a : JSString) (h : ∀ c ∈ a, isDigit c = true) :
    a.takeWhile isDigit = a := by
  have := takeWhile_digits a [] h
  simpa using this

theorem dropWhile_digits_all (a : JSString) (h : ∀ c ∈ a, isDigit c = true) :
    a.dropWhile isDigit = [] := by
  have := dropWhile_digits a [] h
  simpa using this

theorem readDecimal_whole (w : JSString) (hw : ∀ c ∈ w, isDigit c = true) :
    readDecimal w = (indexValue w, 0) := by
  simp [readDecimal, takeWhile_digits_all w hw, dropWhile_digits_all w hw]

theorem readDecimal_fraction (w fr : JSString) (hw : ∀ c ∈ w, isDigit c = true)
    (hfr : ∀ c ∈ fr, isDigit c = true) :
    readDecimal (w ++ 46 :: fr) = (indexValue (w ++ fr), -(fr.length : Int)) := by
  have h1 : (w ++ 46 :: fr).takeWhile isDigit = w := by
    rw [takeWhile_digits w _ hw]
    simp [List.takeWhile_cons, isDigit]
  have h2 : (w ++ 46 :: fr).dropWhile isDigit = 46 :: fr := by
    rw [dropWhile_digits w _ hw]
    simp [List.dropWhile_cons, isDigit]
  simp [readDecimal, h1, h2, takeWhile_digits_all fr hfr, dropWhile_digits_all fr hfr]

theorem readDecimal_exponent (w ex : JSString) (sign : Nat) (hw : ∀ c ∈ w, isDigit c = true)
    (hsign : sign = 45 ∨ sign = 43) :
    readDecimal (w ++ 101 :: sign :: ex) =
      (indexValue w, if sign = 45 then -(indexValue ex : Int) else (indexValue ex : Int)) := by
  have h1 : (w ++ 101 :: sign :: ex).takeWhile isDigit = w := by
    rw [takeWhile_digits w _ hw]
    simp [List.takeWhile_cons, isDigit]
  have h2 : (w ++ 101 :: sign :: ex).dropWhile isDigit = 101 :: sign :: ex := by
    rw [dropWhile_digits w _ hw]
    simp [List.dropWhile_cons, isDigit]
  rcases hsign with rfl | rfl <;> simp [readDecimal, h1, h2]

theorem readDecimal_fraction_exponent (w fr ex : JSString) (sign : Nat)
    (hw : ∀ c ∈ w, isDigit c = true) (hfr : ∀ c ∈ fr, isDigit c = true)
    (hsign : sign = 45 ∨ sign = 43) :
    readDecimal (w ++ 46 :: (fr ++ 101 :: sign :: ex)) =
      (indexValue (w ++ fr),
        (if sign = 45 then -(indexValue ex : Int) else (indexValue ex : Int)) - fr.length) := by
  have h1 : (w ++ 46 :: (fr ++ 101 :: sign :: ex)).takeWhile isDigit = w := by
    rw [takeWhile_digits w _ hw]
    simp [List.takeWhile_cons, isDigit]
  have h2 : (w ++ 46 :: (fr ++ 101 :: sign :: ex)).dropWhile isDigit =
      46 :: (fr ++ 101 :: sign :: ex) := by
    rw [dropWhile_digits w _ hw]
    simp [List.dropWhile_cons, isDigit]
  have h3 : (fr ++ 101 :: sign :: ex).takeWhile isDigit = fr := by
    rw [takeWhile_digits fr _ hfr]
    simp [List.takeWhile_cons, isDigit]
  have h4 : (fr ++ 101 :: sign :: ex).dropWhile isDigit = 101 :: sign :: ex := by
    rw [dropWhile_digits fr _ hfr]
    simp [List.dropWhile_cons, isDigit]
  rcases hsign with rfl | rfl <;> simp [readDecimal, h1, h2, h3, h4]

theorem indexValue_zeros (j : Nat) : indexValue (List.replicate j 48) = 0 := by
  induction j with
  | zero => rfl
  | succ j ih =>
    have : List.replicate (j + 1) 48 = [48] ++ List.replicate j 48 := rfl
    rw [this, indexValue_append, ih]
    simp [indexValue]

theorem zeros_digits (j : Nat) : ∀ c ∈ List.replicate j 48, isDigit c = true := by
  intro c hc
  rw [List.eq_of_mem_replicate hc]
  rfl

theorem readDecimal_rendering (s : Nat) (es : Int) :
    ∃ j : Nat, readDecimal (refPositiveToString (decimal s) ((decimal s).length + es)) =
      (s * 10 ^ j, es - j) := by
  obtain ⟨hne, hall, hval, -, -⟩ := decimal_spec s
  generalize decimal s = ds at hne hall hval
  have hlen : 0 < ds.length := List.length_pos.2 hne
  have htake : ∀ i, ∀ c ∈ ds.take i, isDigit c = true := fun i c hc =>
    hall c (List.mem_of_mem_take hc)
  have hdrop : ∀ i, ∀ c ∈ ds.drop i, isDigit c = true := fun i c hc =>
    hall c (List.mem_of_mem_drop hc)
  simp only [refPositiveToString]
  split_ifs with h1 h2 h3 h4 h5 h5
  · refine ⟨es.toNat, ?_⟩
    have hj : ((ds.length : Int) + es - ds.length).toNat = es.toNat := by
      congr 1
      omega
    rw [hj, readDecimal_whole _ (by
      intro c hc
      rcases List.mem_append.1 hc with h | h
      · exact hall c h
      · exact zeros_digits _ c h), indexValue_append, hval, indexValue_zeros]
    simp only [List.length_replicate, add_zero, Prod.mk.injEq, true_and]
    omega
  · refine ⟨0, ?_⟩
    rw [List.append_assoc, List.singleton_append,
      readDecimal_fraction _ _ (htake _) (hdrop _), List.take_append_drop, hval]
    simp only [pow_zero, mul_one, List.length_drop, Prod.mk.injEq, true_and]
    omega
  · refine ⟨0, ?_⟩
    have e1 : [48, 46] ++ List.replicate (-((ds.length : Int) + es)).toNat 48 ++ ds =
        [48] ++ 46 :: (List.replicate (-((ds.length : Int) + es)).toNat 48 ++ ds) := by
      simp
    rw [e1, readDecimal_fraction _ _ (by
        intro c hc
        rw [List.mem_singleton.1 hc]
        rfl) (by
        intro c hc
        rcases List.mem_append.1 hc with h | h
        · exact zeros_digits _ c h
        · exact hall c h), indexValue_append, indexValue_append, hval, indexValue_zeros]
    simp only [indexValue, List.foldl_cons, List.foldl_nil, List.length_append,
      List.length_replicate, pow_zero, mul_one, Prod.mk.injEq]
    constructor
    · simp
    · push_cast
      omega
  · refine ⟨0, ?_⟩
    rw [List.append_assoc, List.singleton_append, List.singleton_append,
      readDecimal_exponent _ _ _ hall (Or.inl rfl), hval, (decimal_spec _).2.2.1]
    simp only [pow_zero, mul_one, if_true, Prod.mk.injEq, true_and]
    omega
  · refine ⟨0, ?_⟩
    rw [List.append_assoc, List.singleton_append, List.singleton_append,
      readDecimal_exponent _ _ _ hall (Or.inr rfl), hval, (decimal_spec _).2.2.1]
    simp only [pow_zero, mul_one, Prod.mk.injEq, true_and]
    rw [if_neg (by decide)]
    omega
  · refine ⟨0, ?_⟩
    have e1 : ∀ t : JSString, ds.take 1 ++ [46] ++ ds.drop 1 ++ [101] ++ ([45] ++ t) =
        ds.take 1 ++ 46 :: (ds.drop 1 ++ 101 :: 45 :: t) := by
      intro t
      simp
    rw [e1, readDecimal_fraction_exponent _ _ _ _ (htake _) (hdrop _) (Or.inl rfl),
      List.take_append_drop, hval, (decimal_spec _).2.2.1]
    simp only [pow_zero, mul_one, if_true, List.length_drop, Prod.mk.injEq, true_and]
    omega
  · refine ⟨0, ?_⟩
    have e1 : ∀ t : JSString, ds.take 1 ++ [46] ++ ds.drop 1 ++ [101] ++ ([43] ++ t) =
        ds.take 1 ++ 46 :: (ds.drop 1 ++ 101 :: 43 :: t) := by
      intro t
      simp
    rw [e1, readDecimal_fraction_exponent _ _ _ _ (htake _) (hdrop _) (Or.inr rfl),
      List.take_append_drop, hval, (decimal_spec _).2.2.1]
    simp only [pow_zero, mul_one, List.length_drop, Prod.mk.injEq, true_and]
    rw [if_neg (by decide)]
    omega

/-! ### A rendering is a number token -/

theorem isExponentPart_signed (sign : Nat) (ex : JSString) (hsign : sign = 45 ∨ sign = 43)
    (hne : ex ≠ []) (hex : ∀ c ∈ ex, isDigit c = true) :
    isExponentPart (101 :: sign :: ex) = true := by
  have h1 : ex.isEmpty = false := by
    cases ex with
    | nil => exact absurd rfl hne
    | cons _ _ => rfl
  have h2 : ex.all isDigit = true := List.all_eq_true.2 hex
  rcases hsign with rfl | rfl <;> simp [isExponentPart, h1, h2]

theorem head_digit (fr t : JSString) (hne : fr ≠ []) (hfr : ∀ c ∈ fr, isDigit c = true) :
    ((fr ++ t).head?.map isDigit == some true) = true := by
  cases fr with
  | nil => exact absurd rfl hne
  | cons c r => simp [hfr c (List.mem_cons_self _ _)]

theorem isFractionPart_digits (fr : JSString) (hne : fr ≠ [])
    (hfr : ∀ c ∈ fr, isDigit c = true) : isFractionPart (46 :: fr) = true := by
  have h1 := head_digit fr [] hne hfr
  rw [List.append_nil] at h1
  simp only [isFractionPart, beq_self_eq_true, if_true, h1, dropWhile_digits_all fr hfr,
    Bool.true_and]
  rfl

theorem isFractionPart_digits_exponent (fr ex : JSString) (sign : Nat) (hne : fr ≠ [])
    (hfr : ∀ c ∈ fr, isDigit c = true) (hsign : sign = 45 ∨ sign = 43)
    (hex0 : ex ≠ []) (hex : ∀ c ∈ ex, isDigit c = true) :
    isFractionPart (46 :: (fr ++ 101 :: sign :: ex)) = true := by
  have h1 := head_digit fr (101 :: sign :: ex) hne hfr
  have h2 : (fr ++ 101 :: sign :: ex).dropWhile isDigit = 101 :: sign :: ex := by
    rw [dropWhile_digits fr _ hfr]
    simp [List.dropWhile_cons, isDigit]
  simp only [isFractionPart, beq_self_eq_true, if_true, h1, h2, Bool.true_and]
  exact isExponentPart_signed sign ex hsign hex0 hex

theorem isIntegerPart_leading (c : Nat) (w t : JSString) (h1 : 49 ≤ c) (h2 : c ≤ 57)
    (hw : ∀ x ∈ w, isDigit x = true) (ht : t.dropWhile isDigit = t) :
    isIntegerPart (c :: (w ++ t)) = isFractionPart t := by
  have hc : (c == 48) = false := by
    simp only [beq_eq_false_iff_ne, ne_eq]
    omega
  have hc2 : (decide (49 ≤ c) && decide (c ≤ 57)) = true := by simp [h1, h2]
  simp only [isIntegerPart, hc, hc2, if_true, Bool.false_eq_true, if_false]
  rw [dropWhile_digits w t hw, ht]

theorem rendering_isIntegerPart (s : Nat) (es : Int) (hs : s ≠ 0) :
    isIntegerPart (refPositiveToString (decimal s) ((decimal s).length + es)) = true := by
  obtain ⟨hne, hall, -, hhead, -⟩ := decimal_spec s
  obtain ⟨c0, t0, hds, hc1, hc2⟩ := hhead hs
  have hex0 : ∀ n, decimal n ≠ [] := fun n => (decimal_spec n).1
  have hex : ∀ n, ∀ c ∈ decimal n, isDigit c = true := fun n => (decimal_spec n).2.1
  generalize decimal s = ds at hne hall hds
  subst hds
  have ht0 : ∀ x ∈ t0, isDigit x = true := fun x hx => hall x (List.mem_cons_of_mem _ hx)
  simp only [refPositiveToString]
  split_ifs with h1 h2 h3 h4 h5 h5
  · rw [List.cons_append, ← List.append_nil (t0 ++ _),
      isIntegerPart_leading c0 _ [] hc1 hc2 (by
        intro x hx
        rcases List.mem_append.1 hx with h | h
        · exact ht0 x h
        · exact zeros_digits _ x h) rfl]
    rfl
  · obtain ⟨m, hm⟩ : ∃ m, ((((c0 :: t0).length : Nat) : Int) + es).toNat = m + 1 := by
      refine ⟨((((c0 :: t0).length : Nat) : Int) + es).toNat - 1, ?_⟩
      omega
    rw [hm, List.take_succ_cons, List.append_assoc, List.cons_append, List.singleton_append,
      isIntegerPart_leading c0 _ _ hc1 hc2 (fun x hx => ht0 x (List.mem_of_mem_take hx))
        (by simp [List.dropWhile_cons, isDigit])]
    refine isFractionPart_digits _ ?_ (fun x hx => hall x (List.mem_of_mem_drop hx))
    intro h
    have := congrArg List.length h
    simp only [List.length_drop, List.length_cons, List.length_nil] at this
    simp only [List.length_cons] at h1 h2 hm
    omega
  · show isIntegerPart (48 :: 46 :: (List.replicate _ 48 ++ c0 :: t0)) = true
    simp only [isIntegerPart, beq_self_eq_true, if_true]
    exact isFractionPart_digits _ (by simp) (by
      intro x hx
      rcases List.mem_append.1 hx with h | h
      · exact zeros_digits _ x h
      · exact hall x h)
  · have ht : t0 = [] := by
      simp only [List.length_cons] at h4
      exact List.length_eq_zero.1 (by omega)
    subst ht
    show isIntegerPart (c0 :: ([] ++ 101 :: 45 :: decimal _)) = true
    rw [isIntegerPart_leading c0 [] _ hc1 hc2 (by simp) (by simp [List.dropWhile_cons, isDigit])]
    simp only [isFractionPart]
    rw [if_neg (by decide)]
    exact isExponentPart_signed 45 _ (Or.inl rfl) (hex0 _) (hex _)
  · have ht : t0 = [] := by
      simp only [List.length_cons] at h4
      exact List.length_eq_zero.1 (by omega)
    subst ht
    show isIntegerPart (c0 :: ([] ++ 101 :: 43 :: decimal _)) = true
    rw [isIntegerPart_leading c0 [] _ hc1 hc2 (by simp) (by simp [List.dropWhile_cons, isDigit])]
    simp only [isFractionPart]
    rw [if_neg (by decide)]
    exact isExponentPart_signed 43 _ (Or.inr rfl) (hex0 _) (hex _)
  · have ht : t0 ≠ [] := by
      intro h
      subst h
      exact h4 rfl
    have e1 : ∀ t : JSString, (c0 :: t0).take 1 ++ [46] ++ (c0 :: t0).drop 1 ++ [101] ++ ([45] ++ t) =
        c0 :: ([] ++ 46 :: (t0 ++ 101 :: 45 :: t)) := by
      intro t
      simp
    rw [e1, isIntegerPart_leading c0 [] _ hc1 hc2 (by simp) (by simp [List.dropWhile_cons, isDigit])]
    exact isFractionPart_digits_exponent t0 _ 45 ht ht0 (Or.inl rfl) (hex0 _) (hex _)
  · have ht : t0 ≠ [] := by
      intro h
      subst h
      exact h4 rfl
    have e1 : ∀ t : JSString, (c0 :: t0).take 1 ++ [46] ++ (c0 :: t0).drop 1 ++ [101] ++ ([43] ++ t) =
        c0 :: ([] ++ 46 :: (t0 ++ 101 :: 43 :: t)) := by
      intro t
      simp
    rw [e1, isIntegerPart_leading c0 [] _ hc1 hc2 (by simp) (by simp [List.dropWhile_cons, isDigit])]
    exact isFractionPart_digits_exponent t0 _ 43 ht ht0 (Or.inr rfl) (hex0 _) (hex _)

theorem isIntegerPart_head (t : JSString) (h : isIntegerPart t = true) :
    ∃ c r, t = c :: r ∧ (c == 45) = false := by
  cases t with
  | nil => exact absurd h (by simp [isIntegerPart])
  | cons c r =>
    refine ⟨c, r, rfl, ?_⟩
    by_cases hc : c = 45
    · subst hc
      exact absurd h (by simp [isIntegerPart])
    · simpa using hc

/-! ### Reading the rendering of a Number that was read -/

theorem readsAs_sound (mant : Nat) (e : Int) (s0 : Nat) (ex : Int)
    (h : readsAs mant e s0 ex = true) :
    nearestDouble (stripZeros (decimal s0).length s0 ex).1 (stripZeros (decimal s0).length s0 ex).2 =
        some (mant, e) ∧
      (stripZeros (decimal s0).length s0 ex).1 ≠ 0 ∧
      (stripZeros (decimal s0).length s0 ex).1 % 10 ≠ 0 := by
  simp only [readsAs, Bool.and_eq_true, bne_iff_ne, ne_eq, beq_iff_eq] at h
  exact ⟨h.2, strip_decimal_canonical s0 ex h.1⟩

theorem chooseDigits_sound (lowOk highOk : Bool) (low r den s : Nat)
    (h : chooseDigits lowOk highOk low r den = some s) :
    (s = low ∧ lowOk = true) ∨ (s = low + 1 ∧ highOk = true) := by
  unfold chooseDigits at h
  cases lowOk <;> cases highOk <;> simp at h
  · exact Or.inr ⟨h.symm, rfl⟩
  · exact Or.inl ⟨h.symm, rfl⟩
  · split_ifs at h <;> simp at h <;> first
      | exact Or.inl ⟨h.symm, rfl⟩
      | exact Or.inr ⟨h.symm, rfl⟩

theorem digitsFrom_sound (mant : Nat) (e ex : Int) (num den s : Nat) (es : Int)
    (h : digitsFrom mant e ex num den = some (s, es)) :
    nearestDouble s es = some (mant, e) ∧ s ≠ 0 ∧ s % 10 ≠ 0 := by
  unfold digitsFrom at h
  split at h
  · exact absurd h (by simp)
  · rename_i s0 hs0
    simp only [Option.some.injEq] at h
    have hr : readsAs mant e s0 ex = true := by
      rcases chooseDigits_sound _ _ _ _ _ _ hs0 with ⟨h1, h2⟩ | ⟨h1, h2⟩
      · rw [h1]
        exact h2
      · rw [h1]
        simp only [Bool.and_eq_true] at h2
        exact h2.2
    have := readsAs_sound mant e s0 ex hr
    rw [h] at this
    exact this

theorem digitsOfLength_sound (mant : Nat) (e : Int) (k s : Nat) (es : Int)
    (h : digitsOfLength mant e k = some (s, es)) :
    nearestDouble s es = some (mant, e) ∧ s ≠ 0 ∧ s % 10 ≠ 0 :=
  digitsFrom_sound mant e _ _ _ s es h

theorem shortestDecimal_sound (mant : Nat) (e : Int) (s : Nat) (es : Int)
    (h : shortestDecimal mant e = some (s, es)) :
    nearestDouble s es = some (mant, e) ∧ s ≠ 0 ∧ s % 10 ≠ 0 := by
  obtain ⟨i, -, hi⟩ := List.exists_of_findSome?_eq_some h
  exact digitsOfLength_sound mant e (i + 1) s es hi

theorem refNearest_dec (neg neg1 : Bool) (m : Nat) (e : Int) (s : Nat) (es : Int)
    (hm : m ≠ 0 ∧ m % 10 ≠ 0) (h : refNearest neg m e = .dec neg1 s es) :
    neg1 = neg ∧ (s ≠ 0 ∧ s % 10 ≠ 0) ∧ refNearest neg s es = .dec neg s es := by
  unfold refNearest at h
  split at h
  · exact absurd h (by simp)
  · rename_i mant e2 hn
    split at h
    · exact absurd h (by simp)
    · rename_i hmant
      split at h
      · rename_i s1 es1 hsh
        simp only [RefNumber.dec.injEq] at h
        obtain ⟨rfl, rfl, rfl⟩ := h
        obtain ⟨h1, h2⟩ := shortestDecimal_sound mant e2 s1 es1 hsh
        refine ⟨rfl, h2, ?_⟩
        unfold refNearest
        rw [h1]
        simp [hmant, hsh]
      · rename_i hsh
        simp only [RefNumber.dec.injEq] at h
        obtain ⟨rfl, rfl, rfl⟩ := h
        refine ⟨rfl, hm, ?_⟩
        unfold refNearest
        rw [hn]
        simp [hmant, hsh]

theorem refRound_mul (neg : Bool) (s j : Nat) (e : Int) (hs : s % 10 ≠ 0) :
    refRound neg (s * 10 ^ j) e = refNearest neg s (e + j) := by
  have h0 : s ≠ 0 := by
    intro h
    rw [h] at hs
    exact hs rfl
  have hne : (s * 10 ^ j == 0) = false := by
    simp only [beq_eq_false_iff_ne, ne_eq]
    positivity
  unfold refRound
  rw [hne, strip_decimal_mul s j e hs]
  rfl

theorem refRound_dec (neg neg1 : Bool) (m : Nat) (e : Int) (s : Nat) (es : Int)
    (h : refRound neg m e = .dec neg1 s es) :
    neg1 = neg ∧ (s ≠ 0 ∧ s % 10 ≠ 0) ∧ refNearest neg s es = .dec neg s es := by
  unfold refRound at h
  split at h
  · exact absurd h (by simp)
  · rename_i hm
    have hm0 : m ≠ 0 := by simpa using hm
    exact refNearest_dec neg neg1 _ _ s es (strip_decimal_canonical m e hm0) h

theorem refParseNumber_dec (token : JSString) (neg1 : Bool) (s : Nat) (es : Int)
    (h : refParseNumber token = .dec neg1 s es) :
    (s ≠ 0 ∧ s % 10 ≠ 0) ∧ refNearest neg1 s es = .dec neg1 s es := by
  unfold refParseNumber at h
  split at h
  · exact absurd h (by simp)
  · split at h
    · obtain ⟨rfl, h2⟩ := refRound_dec _ _ _ _ _ _ h
      exact h2
    · obtain ⟨rfl, h2⟩ := refRound_dec _ _ _ _ _ _ h
      exact h2

/-- A finite Number that was read from a token and is not negative zero is
rendered as a JSON number token that is read as the same Number. -/
theorem refParseNumber_rendering (token : JSString)
    (hfin : ∀ b, refParseNumber token ≠ .inf b) (hzero : refParseNumber token ≠ .zero true) :
    isNumberToken (refNumberToString (refParseNumber token)) = true ∧
      refParseNumber (refNumberToString (refParseNumber token)) = refParseNumber token := by
  cases hx : refParseNumber token with
  | inf b => exact absurd hx (hfin b)
  | zero b =>
    cases b with
    | true => exact absurd hx hzero
    | false => exact ⟨by decide, by decide⟩
  | dec neg s es =>
    obtain ⟨hs, hn⟩ := refParseNumber_dec token neg s es hx
    obtain ⟨j, hj⟩ := readDecimal_rendering s es
    have hint := rendering_isIntegerPart s es hs.1
    obtain ⟨c, r, hcr, hc⟩ := isIntegerPart_head _ hint
    have hround : ∀ b, refRound b (s * 10 ^ j) (es - j) = refNearest b s es := by
      intro b
      rw [refRound_mul b s j _ hs.2]
      congr 1
      omega
    cases neg with
    | true =>
      have e1 : refNumberToString (.dec true s es) =
          45 :: refPositiveToString (decimal s) ((decimal s).length + es) := rfl
      rw [e1]
      refine ⟨hint, ?_⟩
      show refRound true (readDecimal _).1 (readDecimal _).2 = _
      rw [hj, hround, hn]
    | false =>
      have e1 : refNumberToString (.dec false s es) =
          refPositiveToString (decimal s) ((decimal s).length + es) := rfl
      rw [e1]
      constructor
      · rw [hcr] at hint ⊢
        simp only [isNumberToken, hc, Bool.false_eq_true, if_false]
        exact hint
      · have e2 : refParseNumber (refPositiveToString (decimal s) ((decimal s).length + es)) =
            refRound false (readDecimal (refPositiveToString (decimal s) ((decimal s).length + es))).1
              (readDecimal (refPositiveToString (decimal s) ((decimal s).length + es))).2 := by
          rw [hcr]
          simp only [refParseNumber, hc, Bool.false_eq_true, if_false]
        rw [e2, hj, hround, hn]

/-! ### The Numbers of a value that was read -/

theorem numbers_replaceValue (Q : F → Prop) (k : JSString) (v : JSValue F)
    (ps : List (JSString × JSValue F)) (hv : ∀ x ∈ numbersOf v, Q x)
    (h : ∀ x ∈ numbersOfMembers ps, Q x) : ∀ x ∈ numbersOfMembers (replaceValue k v ps), Q x := by
  induction ps with
  | nil => exact h
  | cons p ps ih =>
    obtain ⟨k1, v1⟩ := p
    simp only [numbersOfMembers, List.mem_append] at h
    simp only [replaceValue]
    split
    · intro x hx
      simp only [numbersOfMembers, List.mem_append] at hx
      rcases hx with hx | hx
      · exact hv x hx
      · exact h x (Or.inr hx)
    · intro x hx
      simp only [numbersOfMembers, List.mem_append] at hx
      rcases hx with hx | hx
      · exact h x (Or.inl hx)
      · exact ih (fun y hy => h y (Or.inr hy)) x hx

theorem numbers_insertIndex (Q : F → Prop) (k : JSString) (v : JSValue F)
    (ps : List (JSString × JSValue F)) (hv : ∀ x ∈ numbersOf v, Q x)
    (h : ∀ x ∈ numbersOfMembers ps, Q x) : ∀ x ∈ numbersOfMembers (insertIndex k v ps), Q x := by
  induction ps with
  | nil =>
    intro x hx
    simp only [insertIndex, numbersOfMembers, List.append_nil] at hx
    exact hv x hx
  | cons p ps ih =>
    obtain ⟨k1, v1⟩ := p
    simp only [numbersOfMembers, List.mem_append] at h
    simp only [insertIndex]
    split
    · intro x hx
      simp only [numbersOfMembers, List.mem_append] at hx
      rcases hx with hx | hx
      · exact h x (Or.inl hx)
      · exact ih (fun y hy => h y (Or.inr hy)) x hx
    · intro x hx
      simp only [numbersOfMembers, List.mem_append] at hx
      rcases hx with hx | hx | hx
      · exact hv x hx
      · exact h x (Or.inl hx)
      · exact h x (Or.inr hx)

theorem numbers_append_one (Q : F → Prop) (k : JSString) (v : JSValue F)
    (ps : List (JSString × JSValue F)) (hv : ∀ x ∈ numbersOf v, Q x)
    (h : ∀ x ∈ numbersOfMembers ps, Q x) : ∀ x ∈ numbersOfMembers (ps ++ [(k, v)]), Q x := by
  induction ps with
  | nil =>
    intro x hx
    simp only [List.nil_append, numbersOfMembers, List.append_nil] at hx
    exact hv x hx
  | cons p ps ih =>
    obtain ⟨k1, v1⟩ := p
    simp only [numbersOfMembers, List.mem_append] at h
    intro x hx
    simp only [List.cons_append, numbersOfMembers, List.mem_append] at hx
    rcases hx with hx | hx
    · exact h x (Or.inl hx)
    · exact ih (fun y hy => h y (Or.inr hy)) x hx

theorem numbers_setProperty (Q : F → Prop) (ps : List (JSString × JSValue F)) (k : JSString)
    (v : JSValue F) (hv : ∀ x ∈ numbersOf v, Q x) (h : ∀ x ∈ numbersOfMembers ps, Q x) :
    ∀ x ∈ numbersOfMembers (setProperty ps k v), Q x := by
  simp only [setProperty]
  split
  · exact numbers_replaceValue Q k v ps hv h
  · split
    · exact numbers_insertIndex Q k v ps hv h
    · exact numbers_append_one Q k v ps hv h

theorem numbers_foldl (Q : F → Prop) (ms : List (JSString × JSValue F)) :
    ∀ acc : List (JSString × JSValue F), (∀ x ∈ numbersOfMembers acc, Q x) →
      (∀ x ∈ numbersOfMembers ms, Q x) →
      ∀ x ∈ numbersOfMembers (ms.foldl (fun acc m => setProperty acc m.1 m.2) acc), Q x := by
  induction ms with
  | nil => intro acc h _; exact h
  | cons m ms ih =>
    intro acc h hm
    obtain ⟨k, v⟩ := m
    simp only [numbersOfMembers, List.mem_append] at hm
    exact ih _ (numbers_setProperty Q acc k v (fun x hx => hm x (Or.inl hx)) h)
      (fun x hx => hm x (Or.inr hx))

theorem numbers_mkObject (Q : F → Prop) (ms : List (JSString × JSValue F))
    (h : ∀ x ∈ numbersOfMembers ms, Q x) : ∀ x ∈ numbersOf (.obj (mkObject ms)), Q x := by
  simp only [numbersOf]
  exact numbers_foldl Q ms [] (fun x hx => absurd hx (by simp [numbersOfMembers])) h

theorem parse_numbers (P : Platform F) :
    ∀ fuel : Nat,
      (∀ s v r, parseValue P fuel s = some (v, r) →
        ∀ x ∈ numbersOf v, ∃ token, x = P.parseNumber token) ∧
      (∀ s l r, parseElements P fuel s = some (l, r) →
        ∀ x ∈ numbersOfElements l, ∃ token, x = P.parseNumber token) ∧
      (∀ s l r, parseMembers P fuel s = some (l, r) →
        ∀ x ∈ numbersOfMembers l, ∃ token, x = P.parseNumber token) := by
  intro fuel
  induction fuel with
  | zero =>
    refine ⟨?_, ?_, ?_⟩
    · intro s v r h
      simp [parseValue] at h
    · intro s l r h
      simp [parseElements] at h
    · intro s l r h
      simp [parseMembers] at h
  | succ f ih =>
    obtain ⟨ihv, ihe, ihm⟩ := ih
    refine ⟨?_, ?_, ?_⟩
    · intro s v r h
      rw [parseValue] at h
      split at h
      · exact absurd h (by simp)
      · split at h
        · split at h
          · simp only [Option.some.injEq, Prod.mk.injEq] at h
            rw [← h.1]
            intro x hx
            simp [numbersOf] at hx
          · exact absurd h (by simp)
        · split at h
          · split at h
            · exact absurd h (by simp)
            · split at h
              · simp only [Option.some.injEq, Prod.mk.injEq] at h
                rw [← h.1]
                intro x hx
                simp [numbersOf, numbersOfElements] at hx
              · split at h
                · rename_i vs r1 hvs
                  simp only [Option.some.injEq, Prod.mk.injEq] at h
                  rw [← h.1]
                  simp only [numbersOf]
                  exact ihe _ _ _ hvs
                · exact absurd h (by simp)
          · split at h
            · split at h
              · exact absurd h (by simp)
              · split at h
                · simp only [Option.some.injEq, Prod.mk.injEq] at h
                  rw [← h.1]
                  intro x hx
                  simp [numbersOf, numbersOfMembers] at hx
                · split at h
                  · rename_i ms r1 hms
                    simp only [Option.some.injEq, Prod.mk.injEq] at h
                    rw [← h.1]
                    exact numbers_mkObject _ ms (ihm _ _ _ hms)
                  · exact absurd h (by simp)
            · repeat' split at h
              all_goals first
                | (simp only [Option.some.injEq, Prod.mk.injEq] at h
                   rw [← h.1]
                   intro x hx
                   simp only [numbersOf, List.mem_singleton] at hx
                   exact ⟨_, hx⟩)
                | (simp only [Option.some.injEq, Prod.mk.injEq] at h
                   rw [← h.1]
                   intro x hx
                   simp [numbersOf] at hx)
                | simp at h
    · intro s l r h
      rw [parseElements] at h
      split at h
      · exact absurd h (by simp)
      · rename_i v r0 hv
        have hwv := ihv _ _ _ hv
        split at h
        · exact absurd h (by simp)
        · split at h
          · split at h
            · rename_i vs r2 hvs
              simp only [Option.some.injEq, Prod.mk.injEq] at h
              rw [← h.1]
              intro x hx
              simp only [numbersOfElements, List.mem_append] at hx
              rcases hx with hx | hx
              · exact hwv x hx
              · exact ihe _ _ _ hvs x hx
            · exact absurd h (by simp)
          · split at h
            · simp only [Option.some.injEq, Prod.mk.injEq] at h
              rw [← h.1]
              intro x hx
              simp only [numbersOfElements, List.append_nil] at hx
              exact hwv x hx
            · exact absurd h (by simp)
    · intro s l r h
      rw [parseMembers] at h
      split at h
      · exact absurd h (by simp)
      · split at h
        · split at h
          · exact absurd h (by simp)
          · split at h
            · exact absurd h (by simp)
            · split at h
              · split at h
                · exact absurd h (by simp)
                · rename_i v r3 hv
                  have hwv := ihv _ _ _ hv
                  split at h
                  · exact absurd h (by simp)
                  · split at h
                    · split at h
                      · rename_i ms r5 hms
                        simp only [Option.some.injEq, Prod.mk.injEq] at h
                        rw [← h.1]
                        intro x hx
                        simp only [numbersOfMembers, List.mem_append] at hx
                        rcases hx with hx | hx
                        · exact hwv x hx
                        · exact ihm _ _ _ hms x hx
                      · exact absurd h (by simp)
                    · split at h
                      · simp only [Option.some.injEq, Prod.mk.injEq] at h
                        rw [← h.1]
                        intro x hx
                        simp only [numbersOfMembers, List.append_nil] at hx
                        exact hwv x hx
                      · exact absurd h (by simp)
              · exact absurd h (by simp)
        · exact absurd h (by simp)

theorem jsonParse_numbers (P : Platform F) (text : JSString) (v : JSValue F)
    (h : jsonParse P text = some v) : ∀ x ∈ numbersOf v, ∃ token, x = P.parseNumber token := by
  simp only [jsonParse] at h
  split at h
  · exact absurd h (by simp)
  · rename_i w rest hw
    split at h
    · simp only [Option.some.injEq] at h
      rw [← h]
      exact (parse_numbers P _).1 _ _ _ hw
    · exact absurd h (by simp)

/-- On the reference platform a Number that was read from a token, is finite
and is not negative zero is given back by reading its own rendering. -/
theorem refParseNumber_restorable (token : JSString)
    (hfin : refPlatform.isFinite (refParseNumber token) = true)
    (hzero : refParseNumber token ≠ .zero true) :
    Restorable refPlatform (refParseNumber token) := by
  have h := refParseNumber_rendering token (by
    intro b hb
    rw [hb] at hfin
    cases b <;> exact absurd hfin (by decide)) hzero
  exact ⟨hfin, h.1, h.2⟩

theorem overflowPage_raw : overflowPage.jsonViewText = overflowRaw := by decide

theorem negativeZeroPage_raw : negativeZeroPage.jsonViewText = negativeZeroRaw := by decide

/-- Claim C5 fails.  The response `overflowBody` to a lookup is read as a record
whose amount is `Infinity`; the record is rendered, its raw view writes the
amount as `null`, and reading the raw view back gives a record whose amount is
`null`, not the record that was rendered.  The response `negativeZeroBody` is
read as a record whose amount is negative zero; the record is rendered, its raw
view writes the amount as `0`, and reading it back gives positive zero. -/
theorem raw_view_loses_numbers :
    (jsonParse refPlatform overflowBody = some overflowOrder ∧
      displayOrder refPlatform overflowOrder (hideLoading sampleLoading) = .ok overflowPage ∧
      overflowPage.resultHidden = false ∧
      overflowPage.jsonViewText = overflowRaw ∧
      jsonParse refPlatform overflowPage.jsonViewText =
        some (.obj [(u "delivery", .obj []), (u "payment", .obj [(u "amount", .null)])]) ∧
      jsonParse refPlatform overflowPage.jsonViewText ≠ some overflowOrder) ∧
    (jsonParse refPlatform negativeZeroBody = some negativeZeroOrder ∧
      displayOrder refPlatform negativeZeroOrder (hideLoading sampleLoading) =
        .ok negativeZeroPage ∧
      negativeZeroPage.resultHidden = false ∧
      negativeZeroPage.jsonViewText = negativeZeroRaw ∧
      jsonParse refPlatform negativeZeroPage.jsonViewText =
        some (.obj [(u "delivery", .obj []),
          (u "payment", .obj [(u "amount", .num (.zero false))])]) ∧
      jsonParse refPlatform negativeZeroPage.jsonViewText ≠ some negativeZeroOrder) := by
  have h1 : jsonParse refPlatform overflowRaw =
      some (.obj [(u "delivery", .obj []), (u "payment", .obj [(u "amount", .null)])]) := rfl
  have h2 : jsonParse refPlatform negativeZeroRaw =
      some (.obj [(u "delivery", .obj []),
        (u "payment", .obj [(u "amount", .num (.zero false))])]) := rfl
  refine ⟨⟨rfl, eq_ok_of_toOption _ _ (by decide!), by decide, overflowPage_raw, ?_, ?_⟩,
    ⟨rfl, eq_ok_of_toOption _ _ (by decide!), by decide, negativeZeroPage_raw, ?_, ?_⟩⟩
  · rw [overflowPage_raw]
    exact h1
  · rw [overflowPage_raw, h1]
    simp [overflowOrder]
  · rw [negativeZeroPage_raw]
    exact h2
  · rw [negativeZeroPage_raw, h2]
    simp [negativeZeroOrder]

/-- Claim C5, amended: for every order record obtained by parsing a response
body as JSON in which every Number is finite and is not negative zero, the raw
view text that `displayOrder` produces parses back to that record.  Numbers are
IEEE 754 doubles, read and rendered as the reference platform does; nothing is
assumed of them. -/
theorem raw_view_round_trip (body : JSString) (order : JSValue RefNumber) (ui ui1 : UI)
    (h : jsonParse refPlatform body = some order)
    (hd : displayOrder refPlatform order ui = .ok ui1)
    (hn : ∀ x ∈ numbersOf order, refPlatform.isFinite x = true ∧ x ≠ .zero true) :
    jsonParse refPlatform ui1.jsonViewText = some order := by
  rw [displayOrder_of_rendered refPlatform order ui ui1 hd]
  refine jsonParse_jsonStringify refPlatform order ?_ (jsonParse_wellFormed refPlatform body order h)
  intro x hx
  obtain ⟨token, ht⟩ := jsonParse_numbers refPlatform body order h x hx
  have ht1 : x = refParseNumber token := ht
  have hx1 := hn x hx
  rw [ht1] at hx1 ⊢
  exact refParseNumber_restorable token hx1.1 hx1.2

theorem raw_view_round_trip_witness :
    jsonStringify refPlatform sampleOrder = sampleRaw ∧
      jsonParse refPlatform sampleRaw = some sampleOrder :=
  have h1 : jsonStringify refPlatform sampleOrder = sampleRaw := by decide
  have h2 := raw_view_round_trip sampleBody sampleOrder initialWorld.ui
    { initialWorld.ui with orderDetailsHTML := sampleHtml,
                           jsonViewText := jsonStringify refPlatform sampleOrder,
                           resultHidden := false }
    rfl (by simp [displayOrder, renderHtml_sample])
    (by
      intro x hx
      have hx2 : x = .dec false 1 2 ∨ x = .dec false 453 0 := by
        simpa [sampleOrder, sampleOrder_props, numbersOf, numbersOfMembers, numbersOfElements]
          using hx
      rcases hx2 with rfl | rfl <;> exact ⟨by decide, by decide⟩)
  ⟨h1, h1 ▸ h2⟩

end OrderLookup
